import Mathlib

/-!
# PageRank calculator service (`src/pagerank/pagerank.go`)

A shallow embedding of the service loop of the PageRank calculator:
`Config.validate`, `NewWithConfig`, `Service.Run`, `Service.updateGraphScores`,
`Service.persistScore`, `Service.loadLinks` and `Service.loadEdges`.

The collaborators of the service (the partition detector, the graph API, the
index API, the BSP calculator with its graph and executor, the clock and the
uuid library) are not part of the file: they are a parameter, `World ω`, a
state machine on an arbitrary state type `ω`.  The embedding threads the world
state through every collaborator call, in source order, and records each call
with its result in a trace of `Event`s.
-/

namespace PageRank

/-! ## Errors -/

/-- Go `error` values met by the service.  `wrap` is `fmt.Errorf("...: %w", err)`,
`multi` is the combination built by `multierr.Append`. -/
inductive GoError where
  /-- the sentinel `bspgraph.ErrUnknownEdgeSource` -/
  | ErrUnknownEdgeSource
  /-- the sentinel `partition.ErrNoPartitionDataAvailableYet` -/
  | ErrNoPartitionDataAvailableYet
  /-- the sentinel `linkgraph.ErrUnknownEdgeLinks` -/
  | ErrUnknownEdgeLinks
  /-- the sentinel `linkgraph.ErrNotFound` -/
  | ErrNotFound
  /-- any other leaf error, e.g. `fmt.Errorf("graph API has not been provided")` -/
  | other (msg : String)
  /-- an error wrapping another one with `%w` -/
  | wrap (msg : String) (inner : GoError)
  /-- two errors combined by `multierr.Append` -/
  | multi (left right : GoError)
  deriving DecidableEq, Repr

/-- Go `errors.Is(err, target)`: `err` is `target`, or wraps it. -/
def errorsIs : GoError → GoError → Bool
  | .wrap msg inner, target =>
      decide (GoError.wrap msg inner = target) || errorsIs inner target
  | .multi l r, target =>
      decide (GoError.multi l r = target) || errorsIs l target || errorsIs r target
  | e, target => decide (e = target)

/-- The function `multierr.Append(left, right)`; `none` is the nil error. -/
def multierrAppend : Option GoError → Option GoError → Option GoError
  | none, right => right
  | left, none => left
  | some l, some r => some (.multi l r)

/-! ## Configuration -/

/-- A `time.Duration`: a signed count of nanoseconds. -/
abbrev Duration := Int

/-- The struct `Config`.  The three collaborators are Go interface values; `none` is the
nil interface. -/
structure Config (G I P : Type) where
  GraphAPI : Option G
  IndexAPI : Option I
  PartitionDetector : Option P
  ComputeWorkers : Int
  UpdateInterval : Duration

/-- `func (cfg *Config) validate() error` -/
def Config.validate {G I P : Type} (cfg : Config G I P) : Option GoError :=
  let err : Option GoError := none
  let err := if cfg.GraphAPI.isNone then
      multierrAppend err (some (.other "graph API has not been provided")) else err
  let err := if cfg.IndexAPI.isNone then
      multierrAppend err (some (.other "index API has not been provided")) else err
  let err := if cfg.PartitionDetector.isNone then
      multierrAppend err (some (.other "partition detector has not been provided")) else err
  let err := if cfg.ComputeWorkers ≤ 0 then
      multierrAppend err (some (.other "invalid value for compute workers")) else err
  let err := if cfg.UpdateInterval = 0 then
      multierrAppend err (some (.other "invalid value for update interval")) else err
  err

/-- The struct `Service` (the logger left out). -/
structure Service (G I P C : Type) where
  cfg : Config G I P
  calculator : C

/-- `func NewWithConfig(cfg Config) (*Service, error)`.  The constructor
`calculator.NewCalculator` of the calculator package is the parameter `NewCalculator`; it
receives `calculator.Config{ComputeWorkers: cfg.ComputeWorkers}`.  `.error e` is the Go
result `(nil, e)`. -/
def NewWithConfig {G I P C : Type} (NewCalculator : Int → Except GoError C)
    (cfg : Config G I P) : Except GoError (Service G I P C) :=
  match cfg.validate with
  | some err => .error (.wrap "pagerank service: config validation failed" err)
  | none =>
    match NewCalculator cfg.ComputeWorkers with
    | .error err => .error (.wrap "pagerank service: config validation failed" err)
    | .ok calculator => .ok { cfg := cfg, calculator := calculator }

/-- `30 * time.Minute`, in nanoseconds. -/
def thirtyMinutes : Duration := 30 * 60 * 1000000000

/-! ## Collaborators -/

/-- A `uuid.UUID`: a 128-bit value, ordered as the store orders it. -/
abbrev UUID := Fin (2 ^ 128)

/-- The constant `uuid.Nil`. -/
def uuidNil : UUID := ⟨0, by decide⟩

/-- The value of `uuid.MustParse("ffffffff-ffff-ffff-ffff-ffffffffffff")`: all 128 bits set. -/
def maxUUID : UUID := ⟨2 ^ 128 - 1, by decide⟩

/-- A `time.Time`, as an instant on a line: the nanoseconds since the Unix epoch. -/
abbrev Time := Int

/-- A Go `float64`, carried as its bit pattern: the service only passes scores along. -/
structure Float64 where
  bits : Nat
  deriving DecidableEq, Repr

/-- The struct `linkgraph.Link`. -/
structure Link where
  ID : UUID
  URL : String
  RetrievedAt : Time
  deriving DecidableEq, Repr

/-- The struct `linkgraph.Edge`. -/
structure Edge where
  ID : UUID
  Src : UUID
  Dst : UUID
  UpdateAt : Time
  deriving DecidableEq, Repr

/-- A `linkgraph.LinkIterator` as the service sees it: `items` are the links for which
`Next` returns true, in order; `err` is what `Error` returns once `Next` has returned
false; `closeErr` is what `Close` returns. -/
structure LinkIterator where
  items : List Link
  err : Option GoError
  closeErr : Option GoError
  deriving DecidableEq, Repr

/-- A `linkgraph.EdgeIterator`, in the same shape as `LinkIterator`. -/
structure EdgeIterator where
  items : List Edge
  err : Option GoError
  closeErr : Option GoError
  deriving DecidableEq, Repr

/-- What `PartitionDetector.PartitionInfo` returns: `.inl err`, or `.inr (cur, total)`. -/
abbrev PartitionResult := GoError ⊕ (Int × Int)

/-- The collaborators of the service as a state machine on `ω`.  Each operation takes the
world before the call and gives the world after it and the result. -/
structure World (ω : Type) where
  /-- the method `svc.cfg.PartitionDetector.PartitionInfo()` -/
  PartitionInfo : ω → ω × PartitionResult
  /-- the function `time.Now()` -/
  Now : ω → ω × Time
  /-- the method `svc.calculator.Graph().Vertices()`, a read: identities and values -/
  Vertices : ω → List (String × Float64)
  /-- the method `svc.calculator.Graph().Reset()` -/
  Reset : ω → ω × Option GoError
  /-- the method `svc.calculator.AddVertex(id)` -/
  AddVertex : ω → String → ω
  /-- the method `svc.calculator.AddEdge(src, dst)` -/
  AddEdge : ω → String → String → ω × Option GoError
  /-- the method `svc.calculator.Executor().RunToCompletion(ctx)` -/
  RunToCompletion : ω → ω × Option GoError
  /-- the method `svc.cfg.GraphAPI.Links(fromID, toID, retrievedBefore)` -/
  Links : ω → UUID → UUID → Time → ω × (GoError ⊕ LinkIterator)
  /-- the method `svc.cfg.GraphAPI.Edges(fromID, toID, updatedBefore)` -/
  Edges : ω → UUID → UUID → Time → ω × (GoError ⊕ EdgeIterator)
  /-- the method `svc.cfg.IndexAPI.UpdateRank(linkID, score)` -/
  UpdateRank : ω → UUID → Float64 → ω × Option GoError
  /-- the method `uuid.UUID.String` -/
  uuidString : UUID → String
  /-- the function `uuid.Parse` -/
  uuidParse : String → GoError ⊕ UUID

/-- One collaborator call, with what it returned. -/
inductive Event where
  | PartitionInfo (res : PartitionResult)
  | GraphVertices
  | Reset (res : Option GoError)
  | Links (fromID toID : UUID) (filter : Time) (res : Option GoError)
  | AddVertex (id : String)
  | LinkIterClose (res : Option GoError)
  | Edges (fromID toID : UUID) (filter : Time) (res : Option GoError)
  | AddEdge (src dst : String) (res : Option GoError)
  | EdgeIterClose (res : Option GoError)
  | RunToCompletion (res : Option GoError)
  | Scores
  | UpdateRank (linkID : UUID) (score : Float64) (res : Option GoError)
  | TimerReset
  deriving DecidableEq, Repr

/-- The outcome of a piece of the service: the world after it, the calls it made in
order, and its return value. -/
structure Res (ω α : Type) where
  world : ω
  trace : List Event
  val : α

/-- The calls `tr` happened before those of `r`. -/
def Res.prepend {ω α : Type} (tr : List Event) (r : Res ω α) : Res ω α :=
  ⟨r.world, tr ++ r.trace, r.val⟩

/-! ## One pass -/

/-- `func (svc *Service) persistScore(vertexID string, score float64) error` -/
def Service.persistScore {ω : Type} (W : World ω) (w : ω) (vertexID : String)
    (score : Float64) : Res ω (Option GoError) :=
  match W.uuidParse vertexID with
  | .inl err => ⟨w, [], some err⟩
  | .inr linkID =>
    let u := W.UpdateRank w linkID score
    ⟨u.1, [.UpdateRank linkID score u.2], u.2⟩

/-- Modelled from the spec: the loop of `Calculator.Scores` (package `calculator`, not among
the sources), which "invokes `callback(vertexID, value)` once per vertex" and where "a
callback error aborts remaining iteration and is returned to the caller". -/
def scoresLoop {ω : Type} (visitFn : ω → String → Float64 → Res ω (Option GoError)) :
    ω → List (String × Float64) → Res ω (Option GoError)
  | w, [] => ⟨w, [], none⟩
  | w, v :: rest =>
    let r := visitFn w v.1 v.2
    Res.prepend r.trace <|
    match r.val with
    | some err => ⟨r.world, [], some err⟩
    | none => scoresLoop visitFn r.world rest

/-- Modelled from the spec: `Calculator.Scores(callback)` (package `calculator`, not among the
sources) visits the vertices of the graph as they are when it is called. -/
def CalculatorScores {ω : Type} (W : World ω)
    (visitFn : ω → String → Float64 → Res ω (Option GoError)) (w : ω) :
    Res ω (Option GoError) :=
  Res.prepend [.Scores] (scoresLoop visitFn w (W.Vertices w))

/-- The loop `for linkIt.Next() { ... }` of `loadLinks`. -/
def loadLinksLoop {ω : Type} (W : World ω) : ω → List Link → Res ω Unit
  | w, [] => ⟨w, [], ()⟩
  | w, link :: rest =>
    Res.prepend [.AddVertex (W.uuidString link.ID)] <|
    loadLinksLoop W (W.AddVertex w (W.uuidString link.ID)) rest

/-- `func (svc *Service) loadLinks(fromID, toID uuid.UUID, filter time.Time) error` -/
def Service.loadLinks {ω : Type} (W : World ω) (w : ω) (fromID toID : UUID)
    (filter : Time) : Res ω (Option GoError) :=
  let l := W.Links w fromID toID filter
  match l.2 with
  | .inl err => ⟨l.1, [.Links fromID toID filter (some err)], some err⟩
  | .inr linkIt =>
    let r := loadLinksLoop W l.1 linkIt.items
    Res.prepend (.Links fromID toID filter none :: r.trace) <|
    match linkIt.err with
    | some err => ⟨r.world, [.LinkIterClose linkIt.closeErr], some err⟩
    | none => ⟨r.world, [.LinkIterClose linkIt.closeErr], linkIt.closeErr⟩

/-- The loop `for edgeIt.Next() { ... }` of `loadEdges`.  The value is `some err` when the
loop body returned `err` from `loadEdges` (after closing the iterator, whose `Close` result
is `closeErr`), and `none` when `Next` returned false. -/
def loadEdgesLoop {ω : Type} (W : World ω) (closeErr : Option GoError) :
    ω → List Edge → Res ω (Option GoError)
  | w, [] => ⟨w, [], none⟩
  | w, edge :: rest =>
    let a := W.AddEdge w (W.uuidString edge.Src) (W.uuidString edge.Dst)
    Res.prepend [.AddEdge (W.uuidString edge.Src) (W.uuidString edge.Dst) a.2] <|
    match a.2 with
    | some err =>
      if !errorsIs err .ErrUnknownEdgeSource then
        ⟨a.1, [.EdgeIterClose closeErr], some err⟩
      else loadEdgesLoop W closeErr a.1 rest
    | none => loadEdgesLoop W closeErr a.1 rest

/-- `func (svc *Service) loadEdges(fromID, toID uuid.UUID, filter time.Time) error` -/
def Service.loadEdges {ω : Type} (W : World ω) (w : ω) (fromID toID : UUID)
    (filter : Time) : Res ω (Option GoError) :=
  let l := W.Edges w fromID toID filter
  match l.2 with
  | .inl err => ⟨l.1, [.Edges fromID toID filter (some err)], some err⟩
  | .inr edgeIt =>
    let r := loadEdgesLoop W edgeIt.closeErr l.1 edgeIt.items
    Res.prepend (.Edges fromID toID filter none :: r.trace) <|
    match r.val with
    | some err => ⟨r.world, [], some err⟩
    | none =>
      match edgeIt.err with
      | some err => ⟨r.world, [.EdgeIterClose edgeIt.closeErr], some err⟩
      | none => ⟨r.world, [.EdgeIterClose edgeIt.closeErr], edgeIt.closeErr⟩

/-- `func (svc *Service) updateGraphScores(ctx context.Context) error`.  The context is part
of the world: `RunToCompletion` reads it there. -/
def Service.updateGraphScores {ω : Type} (W : World ω) (w : ω) : Res ω (Option GoError) :=
  let t := W.Now w
  let rs := W.Reset t.1
  Res.prepend [.GraphVertices, .Reset rs.2] <|
  match rs.2 with
  | some err => ⟨rs.1, [], some err⟩
  | none =>
    let rl := Service.loadLinks W rs.1 uuidNil maxUUID t.2
    Res.prepend rl.trace <|
    match rl.val with
    | some err => ⟨rl.world, [], some err⟩
    | none =>
      let re := Service.loadEdges W rl.world uuidNil maxUUID t.2
      Res.prepend re.trace <|
      match re.val with
      | some err => ⟨re.world, [], some err⟩
      | none =>
        let rr := W.RunToCompletion re.world
        Res.prepend [.RunToCompletion rr.2] <|
        match rr.2 with
        | some err => ⟨rr.1, [], some err⟩
        | none =>
          let sc := CalculatorScores W (Service.persistScore W) rr.1
          Res.prepend sc.trace <|
          match sc.val with
          | some err => ⟨sc.world, [], some err⟩
          | none => ⟨sc.world, [.GraphVertices], none⟩

/-! ## The service loop -/

/-- The timer of `Run`: `active` (running), `fired` (expired, its tick waits in `timer.C`),
`idle` (stopped, or expired with the tick received: nothing will arrive on `timer.C`). -/
inductive TimerState where
  | active
  | fired
  | idle
  deriving DecidableEq, Repr

/-- `timer.Stop()`: "returns true if the call stops the timer, false if the timer has already
expired or been stopped". -/
def timerStop : TimerState → TimerState × Bool
  | .active => (.idle, true)
  | .fired => (.fired, false)
  | .idle => (.idle, false)

/-- The receive `<-timer.C` outside a select: `none` when it blocks for ever. -/
def timerRecv : TimerState → Option TimerState
  | .active => some .idle
  | .fired => some .idle
  | .idle => none

/-- Which case the `select` of `Run` takes when it wakes up.  `ctxDone expired`: the case
`<-ctx.Done()`, and `expired` tells whether the timer had run out by then. -/
inductive Wake where
  | tick
  | ctxDone (expired : Bool)
  deriving DecidableEq, Repr

/-- How far `Run` got. -/
inductive Outcome where
  /-- `Run` returned `err` -/
  | returned (err : Option GoError)
  /-- `Run` is in its `select`, with the timer in this state -/
  | waiting (timer : TimerState)
  /-- `Run` blocks for ever in a receive `<-timer.C` -/
  | blocked
  deriving DecidableEq, Repr

/-- The deferred function of `Run`, `if timer.Stop() { <-timer.C }`, followed by the return
of `err`. -/
def runDeferred (timer : TimerState) (err : Option GoError) : Outcome :=
  let s := timerStop timer
  if s.2 then
    match timerRecv s.1 with
    | none => .blocked
    | some _ => .returned err
  else .returned err

/-- The loop `for { select { ... } }` of `Run`, one `Wake` per iteration.  A `tick` cannot
arrive while the timer is `idle`: `Run` stays in its `select`. -/
def runLoop {ω : Type} (W : World ω) : TimerState → ω → List Wake → Res ω Outcome
  | timer, w, [] => ⟨w, [], .waiting timer⟩
  | timer, w, .ctxDone expired :: _ =>
    let timer := if expired && timer == .active then TimerState.fired else timer
    let s := timerStop timer
    if !s.2 then
      match timerRecv s.1 with
      | none => ⟨w, [], .blocked⟩
      | some t => ⟨w, [], runDeferred t none⟩
    else ⟨w, [], runDeferred s.1 none⟩
  | .idle, w, .tick :: rest => runLoop W .idle w rest
  | _, w, .tick :: rest =>
    let p := W.PartitionInfo w
    Res.prepend [.PartitionInfo p.2] <|
    match p.2 with
    | .inl err =>
      if errorsIs err .ErrNoPartitionDataAvailableYet then runLoop W .idle p.1 rest
      else ⟨p.1, [], runDeferred .idle (some err)⟩
    | .inr (curPartition, _) =>
      if curPartition ≠ 0 then ⟨p.1, [], runDeferred .idle none⟩
      else
        let u := Service.updateGraphScores W p.1
        Res.prepend u.trace <|
        match u.val with
        | some err => ⟨u.world, [], runDeferred .idle (some err)⟩
        | none => Res.prepend [.TimerReset] (runLoop W .active u.world rest)

/-- `func (svc *Service) Run(ctx context.Context) error`: `time.NewTimer` gives a running
timer, then the loop. -/
def Service.Run {ω : Type} (W : World ω) (w : ω) (wakes : List Wake) : Res ω Outcome :=
  runLoop W .active w wakes

/-! ## A small concrete world

Used to run the service on explicit inputs. -/

/-- The answers of a world whose collaborators always answer the same, except `AddEdge`,
which may depend on the edge, and `UpdateRank`, which may depend on the link. -/
structure Stub where
  partition : PartitionResult
  reset : Option GoError
  links : GoError ⊕ LinkIterator
  edges : GoError ⊕ EdgeIterator
  addEdge : String → String → Option GoError
  run : Option GoError
  updateRank : UUID → Option GoError

/-- A toy `UUID.String`: the value 0 is "a", 1 is "b", 2 is "c", anything else is "z". -/
def stubString (u : UUID) : String :=
  if u.val = 0 then "a" else if u.val = 1 then "b" else if u.val = 2 then "c" else "z"

/-- A toy `uuid.Parse`, the inverse of `stubString` on "a", "b", "c"; other strings are
rejected. -/
def stubParse (s : String) : GoError ⊕ UUID :=
  if s = "a" then .inr ⟨0, by decide⟩
  else if s = "b" then .inr ⟨1, by decide⟩
  else if s = "c" then .inr ⟨2, by decide⟩
  else .inl (.other "invalid UUID")

/-- The world of a `Stub`.  Its state is the list of vertices of the graph, each with the
score `0`; `Reset` empties it and `AddVertex` adds to it. -/
def stubWorld (s : Stub) : World (List (String × Float64)) where
  PartitionInfo := fun w => (w, s.partition)
  Now := fun w => (w, 1000)
  Vertices := fun w => w
  Reset := fun w => (match s.reset with | none => [] | some _ => w, s.reset)
  AddVertex := fun w id => if w.any (fun v => v.1 == id) then w else w ++ [(id, ⟨0⟩)]
  AddEdge := fun w src dst => (w, s.addEdge src dst)
  RunToCompletion := fun w => (w, s.run)
  Links := fun w _ _ _ => (w, s.links)
  Edges := fun w _ _ _ => (w, s.edges)
  UpdateRank := fun w id _ => (w, s.updateRank id)
  uuidString := stubString
  uuidParse := stubParse

/-- Two links, with the identities 0 and 1. -/
def twoLinks : LinkIterator :=
  ⟨[⟨⟨0, by decide⟩, "http://a", 10⟩, ⟨⟨1, by decide⟩, "http://b", 20⟩], none, none⟩

/-- Three edges: 0 to 1, then 2 to 0 (its source is not among `twoLinks`), then 1 to 0. -/
def threeEdges : EdgeIterator :=
  ⟨[⟨⟨7, by decide⟩, ⟨0, by decide⟩, ⟨1, by decide⟩, 10⟩,
    ⟨⟨8, by decide⟩, ⟨2, by decide⟩, ⟨0, by decide⟩, 20⟩,
    ⟨⟨9, by decide⟩, ⟨1, by decide⟩, ⟨0, by decide⟩, 30⟩], none, none⟩

/-- A healthy leader: partition 0 of 1, two links and three edges, the edge from "c" refused
as `ErrUnknownEdgeSource`, everything else succeeds. -/
def goodStub : Stub where
  partition := .inr (0, 1)
  reset := none
  links := .inr twoLinks
  edges := .inr threeEdges
  addEdge := fun src _ => if src = "c" then some .ErrUnknownEdgeSource else none
  run := none
  updateRank := fun _ => none

/-! ## Inputs and observations used by the statements -/

/-- A configuration with every collaborator present, one worker and the interval `d`. -/
def intervalConfig (d : Duration) : Config Unit Unit Unit :=
  ⟨some (), some (), some (), 1, d⟩

/-- A configuration with every collaborator present, a 30 minute interval, and
`ComputeWorkers` left at its zero value. -/
def zeroWorkersConfig : Config Unit Unit Unit :=
  ⟨some (), some (), some (), 0, thirtyMinutes⟩

/-- A configuration without a graph API. -/
def noGraphConfig : Config Unit Unit Unit :=
  ⟨none, some (), some (), 1, thirtyMinutes⟩

/-- A calculator constructor that accepts any worker count, and would use one worker when
given none. -/
def lenientCalculator (workers : Int) : Except GoError Int :=
  .ok (if workers ≤ 0 then 1 else workers)

/-- The `AddEdge` calls of a trace, in order: source and destination of each. -/
def addEdgeCalls : List Event → List (String × String)
  | [] => []
  | .AddEdge src dst _ :: rest => (src, dst) :: addEdgeCalls rest
  | _ :: rest => addEdgeCalls rest

/-- The calls made by `loadLinks`. -/
def Event.isLoadLinks : Event → Bool
  | .Links _ _ _ _ => true
  | .AddVertex _ => true
  | .LinkIterClose _ => true
  | _ => false

/-- The calls made by `loadEdges`. -/
def Event.isLoadEdges : Event → Bool
  | .Edges _ _ _ _ => true
  | .AddEdge _ _ _ => true
  | .EdgeIterClose _ => true
  | _ => false

/-- The calls made by `Calculator.Scores` with `persistScore` as callback. -/
def Event.isPersist : Event → Bool
  | .Scores => true
  | .UpdateRank _ _ _ => true
  | _ => false

/-- The calls made inside a pass, that is, by `updateGraphScores`: every call except
`PartitionInfo` and the timer reset, which belong to the loop of `Run`. -/
def Event.isPassCall : Event → Bool
  | .PartitionInfo _ => false
  | .TimerReset => false
  | _ => true

/-- A world whose partition detector has no data yet. -/
def notReadyStub : Stub :=
  { goodStub with partition := .inl .ErrNoPartitionDataAvailableYet }

/-- A world in which this instance owns partition 1 of 2. -/
def followerStub : Stub :=
  { goodStub with partition := .inr (1, 2) }

/-- A world whose partition detector fails with an error of its own. -/
def brokenDetectorStub : Stub :=
  { goodStub with partition := .inl (.other "detector down") }

/-- A world in which `AddEdge` fails on the edge from "c" with an error that is not
`ErrUnknownEdgeSource`. -/
def fatalEdgeStub : Stub :=
  { goodStub with addEdge := fun src _ => if src = "c" then some (.other "no memory") else none }

/-- A world in which the executor is cancelled. -/
def cancelledStub : Stub :=
  { goodStub with run := some (.other "context canceled") }

/-! The five steps of `updateGraphScores`, each at the world in which the pass started from
`w` reaches it. -/

/-- The call `svc.calculator.Graph().Reset()` of a pass. -/
def passReset {ω : Type} (W : World ω) (w : ω) : ω × Option GoError :=
  W.Reset (W.Now w).1

/-- The call `svc.loadLinks(uuid.Nil, maxUUID, startAt)` of a pass. -/
def passLinks {ω : Type} (W : World ω) (w : ω) : Res ω (Option GoError) :=
  Service.loadLinks W (passReset W w).1 uuidNil maxUUID (W.Now w).2

/-- The call `svc.loadEdges(uuid.Nil, maxUUID, startAt)` of a pass. -/
def passEdges {ω : Type} (W : World ω) (w : ω) : Res ω (Option GoError) :=
  Service.loadEdges W (passLinks W w).world uuidNil maxUUID (W.Now w).2

/-- The call `svc.calculator.Executor().RunToCompletion(ctx)` of a pass. -/
def passRun {ω : Type} (W : World ω) (w : ω) : ω × Option GoError :=
  W.RunToCompletion (passEdges W w).world

/-- The call `svc.calculator.Scores(svc.persistScore)` of a pass. -/
def passScores {ω : Type} (W : World ω) (w : ω) : Res ω (Option GoError) :=
  CalculatorScores W (Service.persistScore W) (passRun W w).1

/-- A monitor for the leadership gate, run over the trace of `Run` whose outcome is `out`.
The flag tells whether the last `PartitionInfo` reported partition 0 and no timer reset
came since.  A call of a pass is accepted only while the flag is set; a `PartitionInfo`
that reports another partition must be the last call, with `Run` returning nil. -/
def gateScan (out : Outcome) : Bool → List Event → Bool
  | _, [] => true
  | _, .PartitionInfo (.inr (p, _)) :: rest =>
    if p = 0 then gateScan out true rest else (rest.isEmpty && decide (out = .returned none))
  | _, .PartitionInfo (.inl _) :: rest => gateScan out false rest
  | _, .TimerReset :: rest => gateScan out false rest
  | b, _ :: rest => b && gateScan out b rest

/-- A world in which the graph API is down: `Links` fails. -/
def linksDownStub : Stub :=
  { goodStub with links := .inl (.other "connection refused") }

/-- A world in which the index API is down: every `UpdateRank` fails. -/
def indexDownStub : Stub :=
  { goodStub with updateRank := fun _ => some (.other "connection refused") }

/-! ## The database driver

The stores of `src/graph/linkpostgre` and `src/index/indexpostgre` talk to PostgreSQL through
`sqlx`.  The tables are lists of rows, the queries of `query.go` are functions on them, and
what the driver can do wrong (a failing call, a row stream that is cut, a row that does not
scan) is an explicit input. -/

/-- An error of `database/sql` or of the driver. -/
inductive DBError where
  /-- a `*pgconn.PgError` with its SQLSTATE code -/
  | pg (code : String) (message : String)
  /-- the sentinel `sql.ErrNoRows` -/
  | noRows
  /-- any other error: a lost connection, a failed scan, ... -/
  | other (message : String)
  deriving DecidableEq, Repr

/-- The text of a database error, as `%v` prints it. -/
def DBError.Error : DBError → String
  | .pg code message => "ERROR: " ++ message ++ " (SQLSTATE " ++ code ++ ")"
  | .noRows => "sql: no rows in result set"
  | .other message => message

/-- A database error handed to the caller as it is (`return nil, err`). -/
def DBError.toGo (e : DBError) : GoError := .other e.Error

/-- The call `fmt.Errorf(format, err)` with a `%v` verb: a new error that carries the text
of `err` after `before` and in front of `after`, and does not wrap it. -/
def errorfV (before : String) (err : DBError) (after : String) : GoError :=
  .other (before ++ err.Error ++ after)

/-- An open `*sqlx.Rows`.  `pending` are the rows not read yet, in order; reading a row
(`Scan`) gives its value or fails.  `err` is what `rows.Err()` reports once `rows.Next()` has
returned false: `none` when the stream was exhausted, an error when it was cut.  `closeErr`
is what `rows.Close()` returns. -/
structure Rows (α : Type) where
  pending : List (Except DBError α)
  err : Option DBError
  closeErr : Option DBError

/-- What goes wrong with one query that returns rows. -/
inductive Fault where
  /-- nothing -/
  | healthy
  /-- the call `Queryx` itself fails -/
  | query (e : DBError)
  /-- the stream is cut with `e` after `n` rows -/
  | cut (n : Nat) (e : DBError)
  /-- the row number `n` (from 0) does not scan -/
  | scan (n : Nat) (e : DBError)
  deriving DecidableEq, Repr

/-- The answer of `db.Queryx` for a query whose result is `result`, under a fault. -/
def Queryx {α : Type} (result : List α) : Fault → Except DBError (Rows α)
  | .healthy => .ok ⟨result.map .ok, none, none⟩
  | .query e => .error e
  | .cut n e => .ok ⟨(result.take n).map .ok, some e, none⟩
  | .scan n e =>
    .ok ⟨(result.take n).map .ok ++ (if n < result.length then [.error e] else []) ++
      (result.drop (n + 1)).map .ok, none, none⟩

/-- A `time.Time` as the driver (pgx) writes it for a `TIMESTAMP`, the type of the time
columns and of the parameters compared with them: a `TIMESTAMP` counts microseconds, and the
nanoseconds below the microsecond are dropped.  A value read back from the database is such
an instant. -/
def toTimestamp (t : Time) : Time :=
  t / 1000 * 1000

/-! ## The link store (`src/graph/linkpostgre`) -/

namespace linkpostgre

/-- A row of the table `links`: `id UUID PRIMARY KEY`, `url text UNIQUE`,
`retrieved_at TIMESTAMP`. -/
structure LinkRow where
  id : UUID
  url : String
  retrieved_at : Time
  deriving DecidableEq, Repr

/-- A row of the table `edges`: `id UUID PRIMARY KEY`, `src` and `dst` referencing
`links(id)`, `update_at TIMESTAMP`, with `UNIQUE(src,dst)`. -/
structure EdgeRow where
  id : UUID
  src : UUID
  dst : UUID
  update_at : Time
  deriving DecidableEq, Repr

/-- The two tables behind a `postgre`. -/
structure DB where
  links : List LinkRow
  edges : List EdgeRow
  deriving DecidableEq, Repr

/-- The constraints of `createLinkTableQuery` and `createEdgeTableQuery`: the primary keys,
`url UNIQUE`, `UNIQUE(src,dst)` and the two foreign keys. -/
def DB.wellFormed (db : DB) : Prop :=
  (db.links.map (·.id)).Nodup ∧ (db.links.map (·.url)).Nodup ∧
  (db.edges.map (·.id)).Nodup ∧ (db.edges.map (fun e => (e.src, e.dst))).Nodup ∧
  ∀ e ∈ db.edges, (∃ l ∈ db.links, l.id = e.src) ∧ (∃ l ∈ db.links, l.id = e.dst)

/-- A value of `gen_random_uuid()`: a version 4 UUID, with the version nibble 4 and the
variant bits 10. -/
def isRandomUUID (u : UUID) : Bool :=
  (u.val / 2 ^ 76) % 16 == 4 && (u.val / 2 ^ 62) % 4 == 2

/-- The query `lookupLinkQuery`: `SELECT id, url, retrieved_at FROM links WHERE id = $1`. -/
def lookupLinkQuery (db : DB) (id : UUID) : List LinkRow :=
  db.links.filter (fun r => r.id = id)

/-- The query `linksIterationQuery`:
`SELECT ... FROM links WHERE id >= $1 AND id < $2 AND retrieved_at < $3`. -/
def linksIterationQuery (db : DB) (fromID toID : UUID) (accessBefore : Time) : List LinkRow :=
  db.links.filter (fun r => fromID ≤ r.id ∧ r.id < toID ∧ r.retrieved_at < accessBefore)

/-- The query `edgesIterationQuery`:
`SELECT ... FROM edges WHERE src >= $1 AND src < $2 AND update_at < $3`. -/
def edgesIterationQuery (db : DB) (fromID toID : UUID) (updateBefore : Time) : List EdgeRow :=
  db.edges.filter (fun r => fromID ≤ r.src ∧ r.src < toID ∧ r.update_at < updateBefore)

/-- The query `linkUpsertQuery`:
`INSERT INTO links (url, retrieved_at) VALUES ($1, $2) ON CONFLICT (url) DO UPDATE SET
retrieved_at=GREATEST(links.retrieved_at, $2) RETURNING id,retrieved_at`.
`gen` is the value `gen_random_uuid()` draws for the new row; a draw that is already a
primary key is a unique violation. -/
def linkUpsertQuery (db : DB) (gen : UUID) (url : String) (retrievedAt : Time) :
    Except DBError (DB × (UUID × Time)) :=
  match db.links.find? (fun r => r.url = url) with
  | some r =>
    .ok ({ db with links := db.links.map (fun x =>
            if x.url = url then { x with retrieved_at := max x.retrieved_at retrievedAt } else x) },
        (r.id, max r.retrieved_at retrievedAt))
  | none =>
    if db.links.any (fun r => r.id = gen) then
      .error (.pg "23505" "duplicate key value violates unique constraint links_pkey")
    else .ok ({ db with links := db.links ++ [⟨gen, url, retrievedAt⟩] }, (gen, retrievedAt))

/-- The query `edgeUpsertQuery`:
`INSERT INTO edges (src, dst, update_at) VALUES ($1, $2, NOW()) ON CONFLICT (src,dst) DO
UPDATE SET update_at=NOW() RETURNING id,update_at`.  `now` is the `NOW()` of the statement,
`gen` the draw of `gen_random_uuid()`.  Without a conflict the row is inserted: a draw that
is already a primary key is a unique violation (23505), a `src` or `dst` that is no link is
a foreign-key violation (23503). -/
def edgeUpsertQuery (db : DB) (gen : UUID) (now : Time) (src dst : UUID) :
    Except DBError (DB × (UUID × Time)) :=
  match db.edges.find? (fun r => r.src = src ∧ r.dst = dst) with
  | some r =>
    .ok ({ db with edges := db.edges.map (fun x =>
            if x.src = src ∧ x.dst = dst then { x with update_at := now } else x) },
        (r.id, now))
  | none =>
    if db.edges.any (fun r => r.id = gen) then
      .error (.pg "23505" "duplicate key value violates unique constraint edges_pkey")
    else if ¬ (db.links.any (fun l => l.id = src) ∧ db.links.any (fun l => l.id = dst)) then
      .error (.pg "23503" "insert or update on table edges violates foreign key constraint")
    else .ok ({ db with edges := db.edges ++ [⟨gen, src, dst, now⟩] }, (gen, now))

/-- The answer of `db.QueryRowx(...).Scan(...)` for a statement that returns at most one
row: a failing call gives its error. -/
def QueryRowx {α : Type} (fault : Option DBError) (result : Except DBError α) :
    Except DBError α :=
  match fault with
  | some e => .error e
  | none => result

/-- `func (p *postgre) LookupLink(id uuid.UUID) (*linkgraph.Link, error)` -/
def postgre.LookupLink (db : DB) (fault : Option DBError) (id : UUID) : Except GoError Link :=
  match QueryRowx fault
      (match lookupLinkQuery db id with
        | [] => .error .noRows
        | r :: _ => .ok r) with
  | .error err =>
    if err = .noRows then .error .ErrNotFound
    else .error (errorfV "lookup link: " err "")
  | .ok r => .ok ⟨r.id, r.url, r.retrieved_at⟩

/-- `func (p *postgre) UpsertLink(link *linkgraph.Link) error`: the store after the call, the
link as the call leaves it, and the returned error.  `UTC()` keeps the instant; the time is
the `TIMESTAMP` parameter `$2` of the query, and the `retrieved_at` that the query returns
is scanned back into the link. -/
def postgre.UpsertLink (db : DB) (fault : Option DBError) (gen : UUID) (link : Link) :
    DB × Link × Option GoError :=
  match QueryRowx fault (linkUpsertQuery db gen link.URL (toTimestamp link.RetrievedAt)) with
  | .error err => (db, link, some (errorfV "upsert link: " err " "))
  | .ok (db2, (id, retrievedAt)) =>
    (db2, { link with ID := id, RetrievedAt := retrievedAt }, none)

/-- `func (p *postgre) UpsertEdge(edge *linkgraph.Edge) error`: the store after the call, the
edge as the call leaves it, and the returned error. -/
def postgre.UpsertEdge (db : DB) (fault : Option DBError) (gen : UUID) (now : Time)
    (edge : Edge) : DB × Edge × Option GoError :=
  match QueryRowx fault (edgeUpsertQuery db gen now edge.Src edge.Dst) with
  | .error err =>
    match err with
    | .pg code _ =>
      if code = "23503" then (db, edge, some .ErrUnknownEdgeLinks)
      else (db, edge, some (errorfV "edge upsert: " err ""))
    | _ => (db, edge, some (errorfV "edge upsert: " err ""))
  | .ok (db2, (id, updateAt)) =>
    (db2, { edge with ID := id, UpdateAt := updateAt }, none)

/-- The struct `linkIterator`. -/
structure linkIterator where
  rows : Rows LinkRow
  link : Option Link
  lastErr : Option GoError

/-- `func (it *linkIterator) Close() error` -/
def linkIterator.Close (it : linkIterator) : Option GoError :=
  it.rows.closeErr.map DBError.toGo

/-- `func (it *linkIterator) Error() error` -/
def linkIterator.Error (it : linkIterator) : Option GoError :=
  it.lastErr

/-- `func (it *linkIterator) Link() *linkgraph.Link` -/
def linkIterator.Link (it : linkIterator) : Option Link :=
  it.link

/-- `func (it *linkIterator) Next() bool`: the iterator after the call and the result. -/
def linkIterator.Next (it : linkIterator) : linkIterator × Bool :=
  match it.rows.pending with
  | [] => (it, false)
  | row :: rest =>
    match row with
    | .error err =>
      ({ it with rows := { it.rows with pending := rest }, lastErr := some err.toGo }, false)
    | .ok r =>
      ({ rows := { it.rows with pending := rest }, lastErr := none,
         link := some ⟨r.id, r.url, r.retrieved_at⟩ }, true)

/-- `func (p *postgre) Links(fromID, toID uuid.UUID, accessBefore time.Time)
(linkgraph.LinkIterator, error)`.  `accessBefore.UTC()` is the `TIMESTAMP` parameter `$3`
of the query. -/
def postgre.Links (db : DB) (fault : Fault) (fromID toID : UUID) (accessBefore : Time) :
    Except GoError linkIterator :=
  match Queryx (linksIterationQuery db fromID toID (toTimestamp accessBefore)) fault with
  | .error err => .error err.toGo
  | .ok rows => .ok { rows := rows, link := none, lastErr := none }

/-- The struct `edgeIterator`. -/
structure edgeIterator where
  rows : Rows EdgeRow
  edge : Option Edge
  lastErr : Option GoError

/-- `func (it *edgeIterator) Close() error` -/
def edgeIterator.Close (it : edgeIterator) : Option GoError :=
  it.rows.closeErr.map DBError.toGo

/-- `func (it *edgeIterator) Edge() *linkgraph.Edge` -/
def edgeIterator.Edge (it : edgeIterator) : Option Edge :=
  it.edge

/-- `func (it *edgeIterator) Error() error` -/
def edgeIterator.Error (it : edgeIterator) : Option GoError :=
  it.lastErr

/-- `func (it *edgeIterator) Next() bool`: the iterator after the call and the result. -/
def edgeIterator.Next (it : edgeIterator) : edgeIterator × Bool :=
  match it.rows.pending with
  | [] => (it, false)
  | row :: rest =>
    match row with
    | .error err =>
      ({ it with rows := { it.rows with pending := rest }, lastErr := some err.toGo }, false)
    | .ok r =>
      ({ rows := { it.rows with pending := rest }, lastErr := none,
         edge := some ⟨r.id, r.src, r.dst, r.update_at⟩ }, true)

/-- `func (p *postgre) Edges(fromID, toID uuid.UUID, updateBefore time.Time)
(linkgraph.EdgeIterator, error)`.  `updateBefore.UTC()` is the `TIMESTAMP` parameter `$3`
of the query. -/
def postgre.Edges (db : DB) (fault : Fault) (fromID toID : UUID) (updateBefore : Time) :
    Except GoError edgeIterator :=
  match Queryx (edgesIterationQuery db fromID toID (toTimestamp updateBefore)) fault with
  | .error err => .error (errorfV "edge iterator: " err "")
  | .ok rows => .ok { rows := rows, edge := none, lastErr := none }

/-- The loop `for it.Next() { seen = append(seen, it.Link()) }` of a client, with at most
`fuel` calls of `Next`: the iterator where the loop stops and the links seen, in order. -/
def linkIterator.drain : Nat → linkIterator → linkIterator × List PageRank.Link
  | 0, it => (it, [])
  | fuel + 1, it =>
    match it.Next with
    | (it1, true) =>
      let r := linkIterator.drain fuel it1
      (r.1, (match it1.Link with | some l => [l] | none => []) ++ r.2)
    | (it1, false) => (it1, [])

/-- The loop `for it.Next() { seen = append(seen, it.Edge()) }` of a client, with at most
`fuel` calls of `Next`. -/
def edgeIterator.drain : Nat → edgeIterator → edgeIterator × List PageRank.Edge
  | 0, it => (it, [])
  | fuel + 1, it =>
    match it.Next with
    | (it1, true) =>
      let r := edgeIterator.drain fuel it1
      (r.1, (match it1.Edge with | some e => [e] | none => []) ++ r.2)
    | (it1, false) => (it1, [])

/-- A client in the middle of its loop `for it.Next() { seen = append(seen, it.Link()) }`:
its iterator, whether the loop has ended, and the links seen so far. -/
structure linkClient where
  it : linkIterator
  done : Bool
  seen : List PageRank.Link

/-- One more turn of the loop of a client: a call of `Next`, and of `Link` when `Next`
returned true.  A loop that has ended stays as it is. -/
def linkClient.step (c : linkClient) : linkClient :=
  if c.done then c
  else
    match c.it.Next with
    | (it1, true) =>
      ⟨it1, false, c.seen ++ (match it1.Link with | some l => [l] | none => [])⟩
    | (it1, false) => ⟨it1, true, c.seen⟩

/-- Two clients that run at the same time, each on the iterator it got from its own call of
`Links`: the schedule says whose turn each step is (`true` for the first client). -/
def interleave : List Bool → linkClient × linkClient → linkClient × linkClient
  | [], s => s
  | true :: rest, (a, b) => interleave rest (a.step, b)
  | false :: rest, (a, b) => interleave rest (a, b.step)

end linkpostgre

/-! ## The service on top of the link store -/

/-- A store iterator as the service sees it once it has run to its end: the links it
yields, and what `Error` and `Close` return then. -/
def linkpostgre.linkIterator.toAPI (it : linkpostgre.linkIterator) : LinkIterator :=
  let r := it.drain (it.rows.pending.length + 1)
  ⟨r.2, r.1.Error, r.1.Close⟩

/-- A store iterator over edges as the service sees it once it has run to its end. -/
def linkpostgre.edgeIterator.toAPI (it : linkpostgre.edgeIterator) : EdgeIterator :=
  let r := it.drain (it.rows.pending.length + 1)
  ⟨r.2, r.1.Error, r.1.Close⟩

/-- The world of a `Stub` whose graph API is a healthy link store holding `db`. -/
def storeWorld (db : linkpostgre.DB) (s : Stub) : World (List (String × Float64)) :=
  { stubWorld s with
    Links := fun w fromID toID filter =>
      (w, match linkpostgre.postgre.Links db .healthy fromID toID filter with
          | .error e => .inl e
          | .ok it => .inr it.toAPI)
    Edges := fun w fromID toID filter =>
      (w, match linkpostgre.postgre.Edges db .healthy fromID toID filter with
          | .error e => .inl e
          | .ok it => .inr it.toAPI) }

/-- A store whose only link has the greatest identity, ffffffff-ffff-ffff-ffff-ffffffffffff,
and was retrieved at the instant 0. -/
def lastIdDB : linkpostgre.DB :=
  ⟨[⟨maxUUID, "http://last", 0⟩], []⟩

/-- A store with two links, 0 ("a") and 1 ("b"), and the edge from 0 to 1. -/
def smallDB : linkpostgre.DB :=
  ⟨[⟨⟨0, by decide⟩, "http://a", 10⟩, ⟨⟨1, by decide⟩, "http://b", 20⟩],
   [⟨⟨7, by decide⟩, ⟨0, by decide⟩, ⟨1, by decide⟩, 30⟩]⟩

/-- A store with two links: 0 ("http://a"), retrieved 10 microseconds after the epoch, and
1 ("http://b"), retrieved 20 microseconds after it. -/
def stampedDB : linkpostgre.DB :=
  ⟨[⟨⟨0, by decide⟩, "http://a", 10000⟩, ⟨⟨1, by decide⟩, "http://b", 20000⟩], []⟩

/-- A version 4 UUID, 00000000-0000-4000-8000-000000000009. -/
def randomNine : UUID := ⟨4 * 2 ^ 76 + 2 * 2 ^ 62 + 9, by decide⟩

/-! ## The index store (`src/index/indexpostgre`) -/

/-- Whether a `float64` is a NaN: exponent all ones, mantissa not zero. -/
def Float64.isNaN (f : Float64) : Bool :=
  (f.bits / 2 ^ 52) % 2 ^ 11 == 2047 && f.bits % 2 ^ 52 != 0

/-- The place of a `double precision` value in the ordering of the database: `a` sorts before
or with `b` exactly when `a.key ≤ b.key`.  For two values that are not NaN this is the
numeric order (and -0 = +0); every NaN is equal to every NaN and greater than all other
values. -/
def Float64.key (f : Float64) : Int :=
  if f.isNaN then 2 ^ 63
  else if f.bits < 2 ^ 63 then (f.bits : Int)
  else 2 ^ 63 - (f.bits : Int)

namespace indexpostgre

/-- The variable `batchSize`: "it is like page-size". -/
def batchSize : Nat := 10

/-- A row of the table `documents`: `linkID uuid UNIQUE NOT NULL`, `url`, `title`, `content`,
`indexed_at`, `pagerank double precision`.  The generated column `ts` is a function of
`title` and `content`, see `tsText`. -/
structure DocRow where
  linkID : UUID
  url : String
  title : String
  content : String
  indexed_at : Time
  pagerank : Float64
  deriving DecidableEq, Repr

/-- The struct `index.Document`. -/
structure Document where
  LinkID : UUID
  URL : String
  Title : String
  Content : String
  IndexedAt : Time
  Pagerank : Float64
  deriving DecidableEq, Repr

/-- The struct `index.Query`; `QueryType` is its field `Type`. -/
structure Query where
  QueryType : Int
  Expression : String
  Offset : Nat
  deriving DecidableEq, Repr

/-- The table behind an `indexer`. -/
structure DB where
  documents : List DocRow
  deriving DecidableEq, Repr

/-- The text of which `ts` is the vector:
`coalesce(title, '') || ' ' || coalesce(content,'')`. -/
def tsText (r : DocRow) : String :=
  r.title ++ " " ++ r.content

/-- The text search of PostgreSQL, a parameter: the two ways to turn an expression into a
`tsquery`, the operator `@@` (`tsMatch`) and the function `ts_rank`, both on the vector of a text.  The
ranks live in a linear order `ρ`. -/
structure TextSearch (Q ρ : Type) where
  websearch_to_tsquery : String → Q
  phraseto_tsquery : String → Q
  tsMatch : String → Q → Bool
  ts_rank : String → Q → ρ

/-- The clause `ORDER BY ts_rank(ts, q), pagerank DESC`: `a` may come before `b` when its
rank is lower (the first key has no `DESC`: it is ascending), or the ranks are equal and
its pagerank is greater or equal. -/
abbrev searchOrder {Q ρ : Type} [LinearOrder ρ] (ts : TextSearch Q ρ) (q : Q)
    (a b : DocRow) : Prop :=
  ts.ts_rank (tsText a) q < ts.ts_rank (tsText b) q ∨
    (ts.ts_rank (tsText a) q = ts.ts_rank (tsText b) q ∧ b.pagerank.key ≤ a.pagerank.key)

/-- The shape shared by `searchMatchQuery` and `searchPhraseQuery`:
`SELECT ... FROM documents WHERE ts @@ q ORDER BY ts_rank(ts, q), pagerank DESC
OFFSET $2 ROWS LIMIT $3`. -/
def searchQuery {Q ρ : Type} [LinearOrder ρ] (ts : TextSearch Q ρ) (db : DB) (q : Q)
    (offset limit : Nat) : List DocRow :=
  (((db.documents.filter (fun r => ts.tsMatch (tsText r) q)).insertionSort
    (searchOrder ts q)).drop offset).take limit

/-- The query `searchMatchQuery`, with `q = websearch_to_tsquery('english', $1)`. -/
def searchMatchQuery {Q ρ : Type} [LinearOrder ρ] (ts : TextSearch Q ρ) (db : DB)
    (expression : String) (offset limit : Nat) : List DocRow :=
  searchQuery ts db (ts.websearch_to_tsquery expression) offset limit

/-- The query `searchPhraseQuery`, with `q = phraseto_tsquery('english', $1)`. -/
def searchPhraseQuery {Q ρ : Type} [LinearOrder ρ] (ts : TextSearch Q ρ) (db : DB)
    (expression : String) (offset limit : Nat) : List DocRow :=
  searchQuery ts db (ts.phraseto_tsquery expression) offset limit

/-- The query `searchAllQuery`: `SELECT ... FROM documents ORDER BY linkID OFFSET $1 ROWS
LIMIT $2`. -/
def searchAllQuery (db : DB) (offset limit : Nat) : List DocRow :=
  ((db.documents.insertionSort (fun a b => a.linkID ≤ b.linkID)).drop offset).take limit

/-- The queries `searchMatchCountQuery` and `searchPhraseCountQuery`:
`SELECT COUNT(*) FROM documents WHERE ts @@ q`. -/
def searchCountQuery {Q ρ : Type} (ts : TextSearch Q ρ) (db : DB) (q : Q) : Nat :=
  (db.documents.filter (fun r => ts.tsMatch (tsText r) q)).length

/-- The query `updateScoreQuery`: `UPDATE documents SET pagerank = $1 WHERE linkID = $2`. -/
def updateScoreQuery (db : DB) (score : Float64) (linkID : UUID) : DB :=
  { db with documents := db.documents.map (fun r =>
      if r.linkID = linkID then { r with pagerank := score } else r) }

/-- The query `findDocumentQuery`: `SELECT ... FROM documents WHERE linkID = $1`. -/
def findDocumentQuery (db : DB) (linkID : UUID) : List DocRow :=
  db.documents.filter (fun r => r.linkID = linkID)

/-- `func (idx *indexer) UpdateRank(linkID uuid.UUID, score float64) error`: the store after
the call and the returned error. -/
def indexer.UpdateRank (db : DB) (fault : Option DBError) (linkID : UUID) (score : Float64) :
    DB × Option GoError :=
  match fault with
  | some err => (db, some (errorfV "update pagerank document : " err ""))
  | none => (updateScoreQuery db score linkID, none)

/-- `func (idx *indexer) Find(linkID uuid.UUID) (*index.Document, error)` -/
def indexer.Find (db : DB) (fault : Option DBError) (linkID : UUID) : Except GoError Document :=
  match linkpostgre.QueryRowx fault
      (match findDocumentQuery db linkID with
        | [] => .error .noRows
        | r :: _ => .ok r) with
  | .error err => .error (errorfV "indexer lookup document: " err "")
  | .ok r => .ok ⟨r.linkID, r.url, r.title, r.content, r.indexed_at, r.pagerank⟩

/-- The struct `iterator`. -/
structure iterator where
  rows : Rows DocRow
  latchedDoc : Option Document
  latchedErr : Option GoError
  expression : String
  totalMatched : Nat

/-- `func (it *iterator) Document() *index.Document` -/
def iterator.Document (it : iterator) : Option Document :=
  it.latchedDoc

/-- `func (it *iterator) Error() error` -/
def iterator.Error (it : iterator) : Option GoError :=
  it.latchedErr

/-- `func (it *iterator) TotalCount() uint64` -/
def iterator.TotalCount (it : iterator) : Nat :=
  it.totalMatched

/-- `func (it *iterator) fecthDoc() bool`: the iterator after the call and the result. -/
def iterator.fecthDoc (it : iterator) : iterator × Bool :=
  match it.rows.pending with
  | [] => ({ it with latchedErr := it.rows.err.map DBError.toGo }, false)
  | row :: rest =>
    match row with
    | .error err =>
      ({ it with rows := { it.rows with pending := rest }, latchedErr := some err.toGo }, false)
    | .ok r =>
      ({ it with rows := { it.rows with pending := rest },
                 latchedDoc := some ⟨r.linkID, r.url, r.title, r.content, r.indexed_at,
                   r.pagerank⟩ }, true)

/-- `func (it *iterator) Next() bool` -/
def iterator.Next (it : iterator) : iterator × Bool :=
  it.fecthDoc

/-- `func (idx *indexer) Search(query index.Query) (index.Iterator, error)`.  `countFault`
is what goes wrong with the count statement, `fault` with the statement that returns the
documents. -/
def indexer.Search {Q ρ : Type} [LinearOrder ρ] (ts : TextSearch Q ρ) (db : DB)
    (countFault : Option DBError) (fault : Fault) (query : Query) :
    Except GoError iterator :=
  if query.Expression = "" then
    match linkpostgre.QueryRowx countFault (.ok db.documents.length) with
    | .error err => .error (errorfV "index search documents matched count: " err "")
    | .ok matchedCount =>
      match Queryx (searchAllQuery db query.Offset batchSize) fault with
      | .error err => .error (errorfV "index search documents: " err "")
      | .ok rows =>
        .ok { rows := rows, latchedDoc := none, latchedErr := none,
              expression := query.Expression, totalMatched := matchedCount }
  else
    let q := if query.QueryType = 1 then ts.phraseto_tsquery query.Expression
             else ts.websearch_to_tsquery query.Expression
    match linkpostgre.QueryRowx countFault (.ok (searchCountQuery ts db q)) with
    | .error err => .error (errorfV "index search documents matched count: " err "")
    | .ok matchedCount =>
      match Queryx (searchQuery ts db q query.Offset batchSize) fault with
      | .error err => .error (errorfV "index search documents: " err "")
      | .ok rows =>
        .ok { rows := rows, latchedDoc := none, latchedErr := none,
              expression := query.Expression, totalMatched := matchedCount }

/-- The loop `for it.Next() { seen = append(seen, it.Document()) }` of a client, with at most
`fuel` calls of `Next`: the iterator where the loop stops and the documents seen, in
order. -/
def iterator.drain : Nat → iterator → iterator × List PageRank.indexpostgre.Document
  | 0, it => (it, [])
  | fuel + 1, it =>
    match it.Next with
    | (it1, true) =>
      let r := iterator.drain fuel it1
      (r.1, (match it1.Document with | some d => [d] | none => []) ++ r.2)
    | (it1, false) => (it1, [])

/-- The text of a yielded document: the `tsText` of its row. -/
def Document.text (d : PageRank.indexpostgre.Document) : String :=
  d.Title ++ " " ++ d.Content

/-- A stand-in for the text search on the documents of the examples: every text matches,
and a longer text ranks higher. -/
def toySearch : TextSearch String Nat where
  websearch_to_tsquery := fun e => e
  phraseto_tsquery := fun e => e
  tsMatch := fun _ _ => true
  ts_rank := fun text _ => text.length

/-- Two documents that match "example": the first has one occurrence and the pagerank 1.0,
the second has three occurrences and the pagerank 2.0. -/
def twoDocs : DB :=
  ⟨[⟨⟨1, by decide⟩, "www.one.com", "a", "example", 0, ⟨0x3FF0000000000000⟩⟩,
    ⟨⟨2, by decide⟩, "www.two.com", "b", "example example example", 0,
      ⟨0x4000000000000000⟩⟩]⟩

/-- Two documents that match "example" with the same rank: the first has the pagerank 1.0,
the second the pagerank 2.0. -/
def tieDocs : DB :=
  ⟨[⟨⟨1, by decide⟩, "www.one.com", "a", "example", 0, ⟨0x3FF0000000000000⟩⟩,
    ⟨⟨2, by decide⟩, "www.two.com", "b", "example", 0, ⟨0x4000000000000000⟩⟩]⟩

end indexpostgre

/-! ## The graph of the calculator (package `bspgraph`, not among the sources) -/

namespace bspgraph

/-- Modelled from the spec: the `Vertex` of §3, which is missing from the sources: "identity
(opaque string key, unique), a numeric value (current rank estimate), a set of outgoing edge
targets, an incoming-message mailbox for the current superstep, and an active/halted
flag". -/
structure Vertex where
  id : String
  value : Float64
  edges : List String
  mailbox : List Float64
  active : Bool
  deriving DecidableEq, Repr

/-- Modelled from the spec: the `Graph` of §3, which is missing from the sources: "mapping
from vertex identity to Vertex (keys unique, insertion order irrelevant), a monotonically
increasing superstep counter, and optional global aggregator values". -/
structure Graph where
  vertices : List Vertex
  superstep : Nat
  aggregators : List (String × Float64)
  deriving DecidableEq, Repr

/-- Whether `id` is a known vertex. -/
def Graph.hasVertex (g : Graph) (id : String) : Bool :=
  g.vertices.any (fun v => v.id = id)

/-- Modelled from the spec: `Graph.AddVertex(id)`, missing from the sources: "idempotent;
inserting an existing id is a no-op. New vertices start inactive-until-initialized (value
assigned by the Calculator's initialization step, not here) and with empty mailbox". -/
def Graph.AddVertex (g : Graph) (id : String) : Graph :=
  if g.hasVertex id then g
  else { g with vertices := g.vertices ++ [⟨id, ⟨0⟩, [], [], false⟩] }

/-- Modelled from the spec: `Graph.AddEdge(src, dst)`, missing from the sources: "fails with
`UnknownEdgeSource` if `src` is not a known vertex; otherwise appends `dst` to src's
adjacency (deduplicated). `dst` need not exist yet". -/
def Graph.AddEdge (g : Graph) (src dst : String) : Graph × Option GoError :=
  if g.hasVertex src then
    ({ g with vertices := g.vertices.map (fun v =>
        if v.id = src then
          (if dst ∈ v.edges then v else { v with edges := v.edges ++ [dst] })
        else v) }, none)
  else (g, some .ErrUnknownEdgeSource)

/-- Modelled from the spec: `Graph.Vertices()`, missing from the sources: "returns a
read-only snapshot sequence of vertex identities and current values ... returning each
vertex exactly once". -/
def Graph.Vertices (g : Graph) : List (String × Float64) :=
  g.vertices.map (fun v => (v.id, v.value))

/-- Modelled from the spec: `Graph.Reset()`, missing from the sources: "clears all state,
counter returns to 0; does not fail under normal operation". -/
def Graph.Reset (_g : Graph) : Graph × Option GoError :=
  (⟨[], 0, []⟩, none)

/-- A graph with the vertices "a" and "b", the edge from "a" to "b", at superstep 3. -/
def usedGraph : Graph :=
  ⟨[⟨"a", ⟨5⟩, ["b"], [⟨7⟩], true⟩, ⟨"b", ⟨6⟩, [], [], false⟩], 3, [("dangling", ⟨1⟩)]⟩

end bspgraph

/-- The world of a `Stub` whose calculator holds a `bspgraph.Graph`: `Reset`, `AddVertex`,
`AddEdge` and `Vertices` are those of the graph ("delegate to Graph with the same
contracts"). -/
def graphWorld (s : Stub) : World bspgraph.Graph :=
  { PartitionInfo := fun g => (g, s.partition)
    Now := fun g => (g, 1000)
    Vertices := fun g => g.Vertices
    Reset := fun g => g.Reset
    AddVertex := fun g id => g.AddVertex id
    AddEdge := fun g src dst => g.AddEdge src dst
    RunToCompletion := fun g => (g, s.run)
    Links := fun g _ _ _ => (g, s.links)
    Edges := fun g _ _ _ => (g, s.edges)
    UpdateRank := fun g id _ => (g, s.updateRank id)
    uuidString := stubString
    uuidParse := stubParse }

/-- The number of `Close` calls on an iterator in a trace. -/
def closeCalls : List Event → Nat
  | [] => 0
  | .LinkIterClose _ :: rest => closeCalls rest + 1
  | .EdgeIterClose _ :: rest => closeCalls rest + 1
  | _ :: rest => closeCalls rest

/-- The `UpdateRank` calls of a trace, in order: link and score of each. -/
def updateRankCalls : List Event → List (UUID × Float64)
  | [] => []
  | .UpdateRank id score _ :: rest => (id, score) :: updateRankCalls rest
  | _ :: rest => updateRankCalls rest

/-- A link iterator that yields two links and then reports an error, with a failing
`Close`. -/
def brokenLinks : LinkIterator :=
  ⟨twoLinks.items, some (.other "stream cut"), some (.other "close failed")⟩

/-- An edge iterator that yields three edges and then reports an error, with a failing
`Close`. -/
def brokenEdges : EdgeIterator :=
  ⟨threeEdges.items, some (.other "stream cut"), some (.other "close failed")⟩

namespace indexpostgre

/-- The query `insertDocumentQuery`:
`INSERT INTO documents (linkID, url, title, content, indexed_at, pagerank)
VALUES($1,$2,$3,$4,$5,$6) ON CONFLICT (linkID) DO UPDATE SET url = EXCLUDED.url,
title = EXCLUDED.title, content = EXCLUDED.content, indexed_at = NOW()`. -/
def insertDocumentQuery (db : DB) (now : Time) (linkID : UUID) (url title content : String)
    (indexedAt : Time) (pagerank : Float64) : DB :=
  if db.documents.any (fun r => r.linkID = linkID) then
    { db with documents := db.documents.map (fun r =>
        if r.linkID = linkID then
          { r with url := url, title := title, content := content, indexed_at := now }
        else r) }
  else { db with documents := db.documents ++ [⟨linkID, url, title, content, indexedAt, pagerank⟩] }

/-- `func (i *indexer) Index(doc *index.Document) error`: the store after the call and the
returned error.  `now` is the `NOW()` of the statement; `UTC()` keeps the instant, which is
the `TIMESTAMP` parameter `$5` of the query. -/
def indexer.Index (db : DB) (fault : Option DBError) (now : Time)
    (doc : PageRank.indexpostgre.Document) : DB × Option GoError :=
  if doc.LinkID = uuidNil then
    (db, some (.other "indexer insert document: uuid cannot be nil"))
  else
    match fault with
    | some err =>
      (db, some (.other ("indexer insert document error: " ++ err.Error ++ ", doc detail: "
        ++ doc.URL)))
    | none =>
      (insertDocumentQuery db now doc.LinkID doc.URL doc.Title doc.Content
        (toTimestamp doc.IndexedAt) doc.Pagerank, none)

end indexpostgre

/-! ## The front end (`src/ui/frontend`) -/

namespace frontend

/-- The variable `searchEndpoint`. -/
def searchEndpoint : String := "/search"

/-- The variable `defaultResultsPerPage`. -/
def defaultResultsPerPage : Int := 10

/-- The variable `defaultMaxSummaryLength`. -/
def defaultMaxSummaryLength : Int := 256

/-- The constant `index.QueryTypeMatch` of the index package (not among the sources); its
value is the `Type: 0` with which the test of the index store asks for a match query. -/
def QueryTypeMatch : Int := 0

/-- The constant `index.QueryTypePhrase` of the index package (not among the sources); its
value is the `case 1` under which `indexer.Search` runs the phrase query. -/
def QueryTypePhrase : Int := 1

/-- The struct `Config` of the front end.  The two collaborators are Go interface values;
`none` is the nil interface. -/
structure Config (G I : Type) where
  GraphAPI : Option G
  IndexAPI : Option I
  ListenAddr : String
  ResultsPerPage : Int
  MaxSummaryLength : Int

/-- `func (cfg *Config) validate() error`: the configuration as the call leaves it, and the
returned error. -/
def Config.validate {G I : Type} (cfg : Config G I) : Config G I × Option GoError :=
  let err : Option GoError := none
  let err := if cfg.ListenAddr = "" then
      multierrAppend err (some (.other "listen address has not been specified")) else err
  let cfg := if cfg.ResultsPerPage ≤ 0 then
      { cfg with ResultsPerPage := defaultResultsPerPage } else cfg
  let cfg := if cfg.MaxSummaryLength ≤ 0 then
      { cfg with MaxSummaryLength := defaultMaxSummaryLength } else cfg
  let err := if cfg.IndexAPI.isNone then
      multierrAppend err (some (.other "index API has not been provided")) else err
  let err := if cfg.GraphAPI.isNone then
      multierrAppend err (some (.other "graph API has not been provided")) else err
  (cfg, err)

/-- The struct `API` (router and template function left out). -/
structure API (G I : Type) where
  cfg : Config G I

/-- `func new(cfg Config) (*API, error)`, as `newAPI`: the configuration is validated, and
stored as `validate` left it. -/
def newAPI {G I : Type} (cfg : Config G I) : Except GoError (API G I) :=
  match cfg.validate with
  | (_, some err) => .error err
  | (cfg2, none) => .ok ⟨cfg2⟩

/-- The struct `paginationDetails`. -/
structure paginationDetails where
  From : Int
  To : Int
  Total : Int
  PrevLink : String
  NextLink : String
  deriving DecidableEq, Repr

/-- The struct `matchedDoc`. -/
structure matchedDoc where
  doc : indexpostgre.Document
  summary : String
  deriving DecidableEq, Repr

/-- A conversion to Go's `int`, and the result of an `int` operation: the 64-bit two's
complement value. -/
def wrapInt (x : Int) : Int :=
  (x + 2 ^ 63) % 2 ^ 64 - 2 ^ 63

/-- A result of a `uint64` operation. -/
def wrapUint64 (x : Nat) : Nat :=
  x % 2 ^ 64

/-- The verb `%d` of `fmt.Sprintf` on an `int`. -/
def formatInt : Int → String
  | .ofNat n => Nat.repr n
  | .negSucc n => "-" ++ Nat.repr (n + 1)

/-- `strings.HasPrefix(s, p)`, as `HasPrefixStr`. -/
def HasPrefixStr (s p : String) : Bool :=
  p.data.isPrefixOf s.data

/-- `strings.HasSuffix(s, p)`, as `HasSuffixStr`. -/
def HasSuffixStr (s p : String) : Bool :=
  p.data.isSuffixOf s.data

/-- `strings.Trim(s, cutset)`: `s` without the leading and trailing characters that are in
`cutset`. -/
def Trim (s cutset : String) : String :=
  String.mk (((s.data.dropWhile (fun c => cutset.data.contains c)).reverse.dropWhile
    (fun c => cutset.data.contains c)).reverse)

/-- The first statements of `runQuery`: the query that is sent to the index, and the search
terms as the rest of the function uses them. -/
def runQueryTerms (searchTerms : String) (offset : Nat) : indexpostgre.Query × String :=
  let query : indexpostgre.Query := ⟨QueryTypeMatch, searchTerms, offset⟩
  if HasPrefixStr searchTerms "\"" && HasSuffixStr searchTerms "\"" then
    ({ query with QueryType := QueryTypePhrase }, Trim searchTerms "\"")
  else (query, searchTerms)

/-- The loop `for resCount := 0; resultIt.Next() && resCount < a.cfg.ResultsPerPage;
resCount++ { ... }` of `runQuery`; the first argument is how far `resCount` is below
`ResultsPerPage`.  `Next` is called before the count is compared.  `summary` makes the
summary of a content. -/
def runQueryLoop (summary : String → String) :
    Nat → indexpostgre.iterator → indexpostgre.iterator × List matchedDoc
  | 0, it => (it.Next.1, [])
  | left + 1, it =>
    match it.Next with
    | (it1, false) => (it1, [])
    | (it1, true) =>
      let r := runQueryLoop summary left it1
      (r.1, (match it1.Document with
             | some doc => [⟨doc, summary doc.Content⟩]
             | none => []) ++ r.2)

/-- `func (a *API) runQuery(searchTerms string, offset uint64) ([]matchedDoc,
*paginationDetails, error)`.  `Search` is `a.cfg.IndexAPI.Search`; `summarize` stands for
the summarizer and highlighter of the package (not among the sources), made from the search
terms and `MaxSummaryLength` and applied to a content. -/
def API.runQuery {G I : Type} (a : API G I)
    (Search : indexpostgre.Query → Except GoError indexpostgre.iterator)
    (summarize : String → Int → String → String) (searchTerms : String) (offset : Nat) :
    Except GoError (List matchedDoc × paginationDetails) :=
  let query := (runQueryTerms searchTerms offset).1
  let searchTerms := (runQueryTerms searchTerms offset).2
  match Search query with
  | .error err => .error err
  | .ok resultIt =>
    let r := runQueryLoop (summarize searchTerms a.cfg.MaxSummaryLength)
      a.cfg.ResultsPerPage.toNat resultIt
    match r.1.Error with
    | some err => .error err
    | none =>
      let matchedDocs := r.2
      let pagination : paginationDetails :=
        { From := wrapInt (wrapUint64 (offset + 1))
          To := wrapInt (wrapInt offset + matchedDocs.length)
          Total := wrapInt r.1.TotalCount
          PrevLink := ""
          NextLink := "" }
      let pagination :=
        if offset > 0 then
          let prevLink := searchEndpoint ++ "?q=" ++ searchTerms
          let prevOffset := wrapInt (wrapInt offset - a.cfg.ResultsPerPage)
          { pagination with PrevLink :=
              if prevOffset > 0 then prevLink ++ "&offset=" ++ formatInt prevOffset
              else prevLink }
        else pagination
      let nextPageOffset := wrapInt (wrapInt offset + matchedDocs.length)
      let pagination :=
        if nextPageOffset < pagination.Total then
          { pagination with NextLink :=
              searchEndpoint ++ "?q=" ++ searchTerms ++ "&offset=" ++ formatInt nextPageOffset }
        else pagination
      .ok (matchedDocs, pagination)

/-- A document to fill pages with. -/
def someDoc : indexpostgre.DocRow :=
  ⟨⟨1, by decide⟩, "www.one.com", "a", "example", 0, ⟨0⟩⟩

/-- An index that answers every query with a page of `k` documents out of `total`. -/
def pageIndex (k total : Nat) (_q : indexpostgre.Query) :
    Except GoError indexpostgre.iterator :=
  .ok { rows := ⟨(List.replicate k someDoc).map .ok, none, none⟩, latchedDoc := none,
        latchedErr := none, expression := _q.Expression, totalMatched := total }

/-- A summarizer that keeps the content. -/
def plainSummary (_terms : String) (_max : Int) (content : String) : String :=
  content

/-- The API of `NewDefault`: all collaborators, ":8080", 10 results per page, summaries of
256 characters. -/
def defaultAPI : API Unit Unit :=
  ⟨⟨some (), some (), ":8080", 10, 256⟩⟩

end frontend

/-! ## Theorems -/

theorem multierrAppend_some_isSome (x : Option GoError) (e : GoError) :
    (multierrAppend x (some e)).isSome = true := by
  cases x <;> rfl

/-- One check of `validate`: the error is set afterwards when it was set before, or when
the check fails. -/
theorem validate_step_isSome (c : Prop) [Decidable c] (err : Option GoError) (e : GoError) :
    (if c then multierrAppend err (some e) else err).isSome = (err.isSome || decide c) := by
  by_cases h : c
  · simp [h, multierrAppend_some_isSome]
  · simp [h]

/-- The method `validate` returns an error exactly when one of its five checks fails. -/
theorem Config.validate_isSome_iff {G I P : Type} (cfg : Config G I P) :
    cfg.validate.isSome = true ↔
      (cfg.GraphAPI = none ∨ cfg.IndexAPI = none ∨ cfg.PartitionDetector = none ∨
        cfg.ComputeWorkers ≤ 0 ∨ cfg.UpdateInterval = 0) := by
  unfold Config.validate
  simp only [validate_step_isSome]
  simp [Option.isNone_iff_eq_none, or_assoc]

/-- When `validate` fails, `NewWithConfig` returns its error, wrapped, without asking for a
calculator. -/
theorem NewWithConfig_of_validate_some {G I P C : Type} (NewCalculator : Int → Except GoError C)
    (cfg : Config G I P) (e : GoError) (h : cfg.validate = some e) :
    NewWithConfig NewCalculator cfg =
      .error (.wrap "pagerank service: config validation failed" e) := by
  simp [NewWithConfig, h]

/-- C6: a Config whose GraphAPI, IndexAPI or PartitionDetector is nil, or whose
ComputeWorkers is not positive, makes `validate` return a non-nil error, and `NewWithConfig`
returns that error (wrapped) and no Service, whatever the calculator constructor is. -/
theorem C6_validate_rejects_missing_collaborator_or_workers {G I P : Type}
    (cfg : Config G I P)
    (h : cfg.GraphAPI = none ∨ cfg.IndexAPI = none ∨ cfg.PartitionDetector = none ∨
      cfg.ComputeWorkers ≤ 0) :
    ∃ e, cfg.validate = some e ∧
      ∀ (C : Type) (NewCalculator : Int → Except GoError C),
        NewWithConfig NewCalculator cfg =
          .error (.wrap "pagerank service: config validation failed" e) := by
  have hs : cfg.validate.isSome = true := by
    rw [Config.validate_isSome_iff]
    rcases h with h | h | h | h
    · exact Or.inl h
    · exact Or.inr (Or.inl h)
    · exact Or.inr (Or.inr (Or.inl h))
    · exact Or.inr (Or.inr (Or.inr (Or.inl h)))
  obtain ⟨e, he⟩ := Option.isSome_iff_exists.mp hs
  exact ⟨e, he, fun C NewCalculator => NewWithConfig_of_validate_some NewCalculator cfg e he⟩

/-- A configuration without a graph API is refused. -/
theorem C6_witness :
    (noGraphConfig.GraphAPI = none ∨ noGraphConfig.IndexAPI = none ∨
        noGraphConfig.PartitionDetector = none ∨ noGraphConfig.ComputeWorkers ≤ 0) ∧
      ∃ e, noGraphConfig.validate = some e ∧
        ∀ (C : Type) (NewCalculator : Int → Except GoError C),
          NewWithConfig NewCalculator noGraphConfig =
            .error (.wrap "pagerank service: config validation failed" e) :=
  ⟨Or.inl rfl, C6_validate_rejects_missing_collaborator_or_workers noGraphConfig (Or.inl rfl)⟩

/-- C7: the code accepts a negative update interval.  For a Config with all collaborators
present and a positive worker count, `validate` returns nil for every negative
UpdateInterval (it only refuses the value zero), and `NewWithConfig` returns a Service
whenever the calculator constructor succeeds. -/
theorem C7_negative_update_interval_accepted {G I P C : Type}
    (NewCalculator : Int → Except GoError C) (cfg : Config G I P) (calculator : C)
    (hg : cfg.GraphAPI ≠ none) (hi : cfg.IndexAPI ≠ none) (hp : cfg.PartitionDetector ≠ none)
    (hw : 0 < cfg.ComputeWorkers) (hneg : cfg.UpdateInterval < 0)
    (hc : NewCalculator cfg.ComputeWorkers = .ok calculator) :
    cfg.validate = none ∧ NewWithConfig NewCalculator cfg = .ok ⟨cfg, calculator⟩ := by
  have hv : cfg.validate = none := by
    rw [← Option.not_isSome_iff_eq_none, Config.validate_isSome_iff]
    rintro (h | h | h | h | h)
    · exact hg h
    · exact hi h
    · exact hp h
    · omega
    · rw [h] at hneg
      exact absurd hneg (by decide)
  exact ⟨hv, by simp [NewWithConfig, hv, hc]⟩

/-- An update interval of -1ns passes validation and a Service is built. -/
theorem C7_witness :
    (intervalConfig (-1)).UpdateInterval < 0 ∧ (intervalConfig (-1)).validate = none ∧
      NewWithConfig lenientCalculator (intervalConfig (-1)) = .ok ⟨intervalConfig (-1), 1⟩ :=
  ⟨by decide,
    C7_negative_update_interval_accepted lenientCalculator (intervalConfig (-1)) 1
      (by decide) (by decide) (by decide) (by decide) (by decide) rfl⟩

/-- C8: the code does not default the worker count.  A Config whose ComputeWorkers is left at
0 is refused by `validate`, and `NewWithConfig` returns an error and no Service, also with a
calculator constructor that would accept 0 and use one worker. -/
theorem C8_zero_workers_not_defaulted {G I P : Type} (cfg : Config G I P)
    (hw : cfg.ComputeWorkers = 0) :
    ∃ e, cfg.validate = some e ∧
      ∀ (C : Type) (NewCalculator : Int → Except GoError C),
        NewWithConfig NewCalculator cfg =
          .error (.wrap "pagerank service: config validation failed" e) := by
  have hs : cfg.validate.isSome = true := by
    rw [Config.validate_isSome_iff]
    exact Or.inr (Or.inr (Or.inr (Or.inl (by omega))))
  obtain ⟨e, he⟩ := Option.isSome_iff_exists.mp hs
  exact ⟨e, he, fun C NewCalculator => NewWithConfig_of_validate_some NewCalculator cfg e he⟩

/-- A configuration with zero workers is refused instead of defaulted. -/
theorem C8_witness :
    zeroWorkersConfig.ComputeWorkers = 0 ∧
      ∃ e, zeroWorkersConfig.validate = some e ∧
        ∀ (C : Type) (NewCalculator : Int → Except GoError C),
          NewWithConfig NewCalculator zeroWorkersConfig =
            .error (.wrap "pagerank service: config validation failed" e) :=
  ⟨rfl, C8_zero_workers_not_defaulted zeroWorkersConfig rfl⟩

/-! ### Traces -/

@[simp] theorem Res.prepend_trace {ω α : Type} (tr : List Event) (r : Res ω α) :
    (Res.prepend tr r).trace = tr ++ r.trace := rfl

@[simp] theorem Res.prepend_val {ω α : Type} (tr : List Event) (r : Res ω α) :
    (Res.prepend tr r).val = r.val := rfl

@[simp] theorem Res.prepend_world {ω α : Type} (tr : List Event) (r : Res ω α) :
    (Res.prepend tr r).world = r.world := rfl

/-! ### The loop of `loadEdges` -/

/-- The loop of `loadEdges` when no `AddEdge` fails fatally: it runs to the end of the
iterator, with one `AddEdge` call per edge and no `Close`. -/
theorem loadEdgesLoop_tolerant {ω : Type} (W : World ω) (c : Option GoError)
    (items : List Edge) : ∀ w : ω,
    (∀ src dst e, Event.AddEdge src dst (some e) ∈ (loadEdgesLoop W c w items).trace →
      errorsIs e .ErrUnknownEdgeSource = true) →
    (loadEdgesLoop W c w items).val = none ∧
      addEdgeCalls (loadEdgesLoop W c w items).trace =
        items.map (fun ed => (W.uuidString ed.Src, W.uuidString ed.Dst)) := by
  induction items with
  | nil => intro w _; simp [loadEdgesLoop, addEdgeCalls]
  | cons edge rest ih =>
    intro w h
    simp only [loadEdgesLoop] at h ⊢
    cases ha : (W.AddEdge w (W.uuidString edge.Src) (W.uuidString edge.Dst)).2 with
    | none =>
      simp only [ha, Res.prepend_trace, Res.prepend_val, List.singleton_append,
        List.mem_cons] at h ⊢
      have := ih _ (fun s d e hm => h s d e (Or.inr hm))
      simp [addEdgeCalls, this]
    | some err =>
      simp only [ha, Res.prepend_trace, Res.prepend_val, List.singleton_append,
        List.mem_cons] at h ⊢
      have htol : errorsIs err .ErrUnknownEdgeSource = true := h _ _ err (Or.inl rfl)
      simp only [htol, Bool.not_true, Bool.false_eq_true, if_false] at h ⊢
      have := ih _ (fun s d e hm => h s d e (Or.inr hm))
      simp [addEdgeCalls, this]

/-- The loop of `loadEdges` when some `AddEdge` fails fatally: that call is the last one,
the iterator is closed right after it, and its error is the value of the loop. -/
theorem loadEdgesLoop_fatal {ω : Type} (W : World ω) (c : Option GoError)
    (src dst : String) (e : GoError) (hf : errorsIs e .ErrUnknownEdgeSource = false)
    (items : List Edge) : ∀ w : ω,
    Event.AddEdge src dst (some e) ∈ (loadEdgesLoop W c w items).trace →
    (loadEdgesLoop W c w items).val = some e ∧
      ∃ pre, (loadEdgesLoop W c w items).trace =
          pre ++ [Event.AddEdge src dst (some e), Event.EdgeIterClose c] ∧
        (∀ s d r, Event.AddEdge s d r ∈ pre →
          r = none ∨ ∃ e2, r = some e2 ∧ errorsIs e2 .ErrUnknownEdgeSource = true) ∧
        ∀ x ∈ pre, ∃ s d r, x = Event.AddEdge s d r := by
  induction items with
  | nil => intro w h; simp [loadEdgesLoop] at h
  | cons edge rest ih =>
    intro w h
    simp only [loadEdgesLoop] at h ⊢
    cases ha : (W.AddEdge w (W.uuidString edge.Src) (W.uuidString edge.Dst)).2 with
    | none =>
      simp only [ha, Res.prepend_trace, Res.prepend_val, List.singleton_append,
        List.mem_cons] at h ⊢
      rcases h with h | h
      · simp at h
      · obtain ⟨hv, pre, htr, hpre, hall⟩ := ih _ h
        refine ⟨hv, _ :: pre, by rw [htr]; rfl, ?_, ?_⟩
        · intro s d r hm
          rcases List.mem_cons.mp hm with hm | hm
          · simp only [Event.AddEdge.injEq] at hm
            exact Or.inl hm.2.2
          · exact hpre s d r hm
        · intro x hx
          rcases List.mem_cons.mp hx with hx | hx
          · exact ⟨_, _, _, hx⟩
          · exact hall x hx
    | some err =>
      simp only [ha, Res.prepend_trace, Res.prepend_val, List.singleton_append,
        List.mem_cons] at h ⊢
      cases htol : errorsIs err .ErrUnknownEdgeSource with
      | false =>
        simp only [htol, Bool.not_false, if_true, List.mem_singleton] at h ⊢
        rcases h with h | h
        · simp only [Event.AddEdge.injEq, Option.some.injEq] at h
          obtain ⟨hs, hd, he⟩ := h
          subst hs hd he
          exact ⟨rfl, [], rfl, by simp, by simp⟩
        · simp at h
      | true =>
        simp only [htol, Bool.not_true, Bool.false_eq_true, if_false] at h ⊢
        rcases h with h | h
        · simp only [Event.AddEdge.injEq, Option.some.injEq] at h
          rw [h.2.2, htol] at hf
          exact absurd hf (by decide)
        · obtain ⟨hv, pre, htr, hpre, hall⟩ := ih _ h
          refine ⟨hv, _ :: pre, by rw [htr]; rfl, ?_, ?_⟩
          · intro s d r hm
            rcases List.mem_cons.mp hm with hm | hm
            · simp only [Event.AddEdge.injEq] at hm
              exact Or.inr ⟨err, hm.2.2, htol⟩
            · exact hpre s d r hm
          · intro x hx
            rcases List.mem_cons.mp hx with hx | hx
            · exact ⟨_, _, _, hx⟩
            · exact hall x hx

/-- Every call of the loop of `loadEdges` is a call of `loadEdges`. -/
theorem loadEdgesLoop_calls {ω : Type} (W : World ω) (c : Option GoError)
    (items : List Edge) : ∀ w : ω,
    ∀ x ∈ (loadEdgesLoop W c w items).trace, x.isLoadEdges = true := by
  induction items with
  | nil => intro w x hx; simp [loadEdgesLoop] at hx
  | cons edge rest ih =>
    intro w x hx
    simp only [loadEdgesLoop, Res.prepend_trace, List.singleton_append, List.mem_cons] at hx
    rcases hx with hx | hx
    · subst hx; rfl
    · split at hx
      · split at hx
        · simp only [List.mem_singleton] at hx
          subst hx; rfl
        · exact ih _ x hx
      · exact ih _ x hx

/-- Every call of `loadEdges` is one of its own: `Edges`, `AddEdge`, `Close`. -/
theorem loadEdges_calls {ω : Type} (W : World ω) (w : ω) (fromID toID : UUID)
    (filter : Time) :
    ∀ x ∈ (Service.loadEdges W w fromID toID filter).trace, x.isLoadEdges = true := by
  intro x hx
  simp only [Service.loadEdges] at hx
  split at hx
  · simp only [List.mem_singleton] at hx
    subst hx; rfl
  · simp only [Res.prepend_trace, List.cons_append, List.mem_cons, List.mem_append] at hx
    rcases hx with hx | hx | hx
    · subst hx; rfl
    · exact loadEdgesLoop_calls W _ _ _ x hx
    · split at hx
      · simp at hx
      · split at hx <;>
        · simp only [List.mem_singleton] at hx
          subst hx; rfl

/-- C3: `loadEdges` tolerates `ErrUnknownEdgeSource`.  When `Edges` returns an iterator that
reports no error, and every `AddEdge` failure of the run is (or wraps)
`bspgraph.ErrUnknownEdgeSource`, then `loadEdges` calls `AddEdge` once for every yielded
edge, in iteration order (the edges after a failing one included), and returns the result
of `Close`. -/
theorem C3_loadEdges_tolerates_unknown_edge_source {ω : Type} (W : World ω) (w : ω)
    (fromID toID : UUID) (filter : Time) (edgeIt : EdgeIterator)
    (hEdges : (W.Edges w fromID toID filter).2 = .inr edgeIt)
    (hErr : edgeIt.err = none)
    (hTol : ∀ src dst e,
      Event.AddEdge src dst (some e) ∈ (Service.loadEdges W w fromID toID filter).trace →
        errorsIs e .ErrUnknownEdgeSource = true) :
    addEdgeCalls (Service.loadEdges W w fromID toID filter).trace =
        edgeIt.items.map (fun ed => (W.uuidString ed.Src, W.uuidString ed.Dst)) ∧
      (Service.loadEdges W w fromID toID filter).val = edgeIt.closeErr ∧
      ∃ pre, (Service.loadEdges W w fromID toID filter).trace =
        pre ++ [Event.EdgeIterClose edgeIt.closeErr] := by
  have hloop := loadEdgesLoop_tolerant W edgeIt.closeErr edgeIt.items
    (W.Edges w fromID toID filter).1 (by
      intro src dst e hm
      apply hTol src dst e
      simp only [Service.loadEdges, hEdges, Res.prepend_trace, List.cons_append,
        List.mem_cons, List.mem_append]
      exact Or.inr (Or.inl hm))
  obtain ⟨hv, hc⟩ := hloop
  simp only [Service.loadEdges, hEdges, hv, hErr, Res.prepend_trace, Res.prepend_val]
  refine ⟨?_, trivial, _, rfl⟩
  have happ : ∀ (l : List Event) (c : Option GoError),
      addEdgeCalls (l ++ [Event.EdgeIterClose c]) = addEdgeCalls l := by
    intro l c
    induction l with
    | nil => rfl
    | cons x xs ihx => cases x <;> simp [addEdgeCalls, ihx]
  simp only [List.cons_append, addEdgeCalls]
  exact (happ _ _).trans hc

/-- Three edges, the second from an unknown source: all three are passed to `AddEdge`. -/
theorem C3_witness :
    ((stubWorld goodStub).Edges [("a", ⟨0⟩), ("b", ⟨0⟩)] uuidNil maxUUID 1000).2
        = .inr threeEdges ∧
      threeEdges.err = none ∧
      Event.AddEdge "c" "a" (some .ErrUnknownEdgeSource) ∈
        (Service.loadEdges (stubWorld goodStub) [("a", ⟨0⟩), ("b", ⟨0⟩)]
          uuidNil maxUUID 1000).trace ∧
      addEdgeCalls (Service.loadEdges (stubWorld goodStub) [("a", ⟨0⟩), ("b", ⟨0⟩)]
          uuidNil maxUUID 1000).trace = [("a", "b"), ("c", "a"), ("b", "a")] ∧
      (Service.loadEdges (stubWorld goodStub) [("a", ⟨0⟩), ("b", ⟨0⟩)]
          uuidNil maxUUID 1000).val = none :=
  have h := C3_loadEdges_tolerates_unknown_edge_source (stubWorld goodStub)
    [("a", ⟨0⟩), ("b", ⟨0⟩)] uuidNil maxUUID 1000 threeEdges rfl rfl (by
      intro src dst e hm
      have htr : (Service.loadEdges (stubWorld goodStub) [("a", ⟨0⟩), ("b", ⟨0⟩)]
          uuidNil maxUUID 1000).trace =
          [.Edges uuidNil maxUUID 1000 none, .AddEdge "a" "b" none,
            .AddEdge "c" "a" (some .ErrUnknownEdgeSource), .AddEdge "b" "a" none,
            .EdgeIterClose none] := by rfl
      rw [htr] at hm
      simp at hm
      rw [hm.2.2]
      rfl)
  ⟨rfl, rfl, by decide, h.1, h.2.1⟩

/-! ### The other steps of a pass -/

/-- The loop of `loadLinks` makes one `AddVertex` call per link, in order. -/
theorem loadLinksLoop_trace {ω : Type} (W : World ω) (items : List Link) : ∀ w : ω,
    (loadLinksLoop W w items).trace =
      items.map (fun l => Event.AddVertex (W.uuidString l.ID)) := by
  induction items with
  | nil => intro w; rfl
  | cons link rest ih => intro w; simp [loadLinksLoop, ih]

/-- Every call of `loadLinks` is one of its own: `Links`, `AddVertex`, `Close`. -/
theorem loadLinks_calls {ω : Type} (W : World ω) (w : ω) (fromID toID : UUID)
    (filter : Time) :
    ∀ x ∈ (Service.loadLinks W w fromID toID filter).trace, x.isLoadLinks = true := by
  intro x hx
  simp only [Service.loadLinks] at hx
  split at hx
  · simp only [List.mem_singleton] at hx
    subst hx; rfl
  · simp only [Res.prepend_trace, List.cons_append, List.mem_cons, List.mem_append,
      loadLinksLoop_trace, List.mem_map] at hx
    rcases hx with hx | ⟨l, _, hx⟩ | hx
    · subst hx; rfl
    · subst hx; rfl
    · split at hx <;>
      · simp only [List.mem_singleton] at hx
        subst hx; rfl

/-- The calls of `persistScore` over the vertices are `UpdateRank` calls. -/
theorem scoresLoop_calls {ω : Type} (W : World ω) (vs : List (String × Float64)) :
    ∀ w : ω, ∀ x ∈ (scoresLoop (Service.persistScore W) w vs).trace,
      ∃ id s r, x = Event.UpdateRank id s r := by
  induction vs with
  | nil => intro w x hx; simp [scoresLoop] at hx
  | cons v rest ih =>
    intro w x hx
    simp only [scoresLoop, Res.prepend_trace, List.mem_append] at hx
    rcases hx with hx | hx
    · simp only [Service.persistScore] at hx
      split at hx
      · simp at hx
      · simp only [List.mem_singleton] at hx
        exact ⟨_, _, _, hx⟩
    · split at hx
      · simp at hx
      · exact ih _ x hx

/-- Every call of `Scores` with `persistScore` is `Scores` itself or an `UpdateRank`. -/
theorem CalculatorScores_calls {ω : Type} (W : World ω) (w : ω) :
    ∀ x ∈ (CalculatorScores W (Service.persistScore W) w).trace, x.isPersist = true := by
  intro x hx
  simp only [CalculatorScores, Res.prepend_trace, List.singleton_append, List.mem_cons] at hx
  rcases hx with hx | hx
  · subst hx; rfl
  · obtain ⟨id, s, r, hx⟩ := scoresLoop_calls W _ _ x hx
    subst hx; rfl

/-- The six ways through `updateGraphScores`: the first failing step ends the pass with its
error, after the calls made so far; when no step fails the pass returns nil. -/
theorem updateGraphScores_cases {ω : Type} (W : World ω) (w : ω) :
    (∃ e, (passReset W w).2 = some e ∧ (Service.updateGraphScores W w).val = some e ∧
      (Service.updateGraphScores W w).trace = [.GraphVertices, .Reset (some e)]) ∨
    ((passReset W w).2 = none ∧
      ∃ e, (passLinks W w).val = some e ∧ (Service.updateGraphScores W w).val = some e ∧
        (Service.updateGraphScores W w).trace =
          [.GraphVertices, .Reset none] ++ (passLinks W w).trace) ∨
    ((passReset W w).2 = none ∧ (passLinks W w).val = none ∧
      ∃ e, (passEdges W w).val = some e ∧ (Service.updateGraphScores W w).val = some e ∧
        (Service.updateGraphScores W w).trace =
          [.GraphVertices, .Reset none] ++ (passLinks W w).trace ++ (passEdges W w).trace) ∨
    ((passReset W w).2 = none ∧ (passLinks W w).val = none ∧ (passEdges W w).val = none ∧
      ∃ e, (passRun W w).2 = some e ∧ (Service.updateGraphScores W w).val = some e ∧
        (Service.updateGraphScores W w).trace =
          [.GraphVertices, .Reset none] ++ (passLinks W w).trace ++ (passEdges W w).trace
            ++ [.RunToCompletion (some e)]) ∨
    ((passReset W w).2 = none ∧ (passLinks W w).val = none ∧ (passEdges W w).val = none ∧
      (passRun W w).2 = none ∧
      ∃ e, (passScores W w).val = some e ∧ (Service.updateGraphScores W w).val = some e ∧
        (Service.updateGraphScores W w).trace =
          [.GraphVertices, .Reset none] ++ (passLinks W w).trace ++ (passEdges W w).trace
            ++ [.RunToCompletion none] ++ (passScores W w).trace) ∨
    ((passReset W w).2 = none ∧ (passLinks W w).val = none ∧ (passEdges W w).val = none ∧
      (passRun W w).2 = none ∧ (passScores W w).val = none ∧
      (Service.updateGraphScores W w).val = none ∧
      (Service.updateGraphScores W w).trace =
        [.GraphVertices, .Reset none] ++ (passLinks W w).trace ++ (passEdges W w).trace
          ++ [.RunToCompletion none] ++ (passScores W w).trace ++ [.GraphVertices]) := by
  have h0 : Service.updateGraphScores W w =
      Res.prepend [.GraphVertices, .Reset (passReset W w).2]
        (match (passReset W w).2 with
        | some err => ⟨(passReset W w).1, [], some err⟩
        | none =>
          Res.prepend (passLinks W w).trace
            (match (passLinks W w).val with
            | some err => ⟨(passLinks W w).world, [], some err⟩
            | none =>
              Res.prepend (passEdges W w).trace
                (match (passEdges W w).val with
                | some err => ⟨(passEdges W w).world, [], some err⟩
                | none =>
                  Res.prepend [.RunToCompletion (passRun W w).2]
                    (match (passRun W w).2 with
                    | some err => ⟨(passRun W w).1, [], some err⟩
                    | none =>
                      Res.prepend (passScores W w).trace
                        (match (passScores W w).val with
                        | some err => ⟨(passScores W w).world, [], some err⟩
                        | none => ⟨(passScores W w).world, [.GraphVertices], none⟩))))) := rfl
  rw [h0]
  cases h1 : (passReset W w).2 with
  | some e => exact Or.inl ⟨e, rfl, rfl, rfl⟩
  | none =>
    refine Or.inr ?_
    cases h2 : (passLinks W w).val with
    | some e => exact Or.inl ⟨rfl, e, rfl, rfl, by simp⟩
    | none =>
      refine Or.inr ?_
      cases h3 : (passEdges W w).val with
      | some e => exact Or.inl ⟨rfl, rfl, e, rfl, rfl, by simp⟩
      | none =>
        refine Or.inr ?_
        cases h4 : (passRun W w).2 with
        | some e => exact Or.inl ⟨rfl, rfl, rfl, e, rfl, rfl, by simp⟩
        | none =>
          refine Or.inr ?_
          cases h5 : (passScores W w).val with
          | some e => exact Or.inl ⟨rfl, rfl, rfl, rfl, e, rfl, rfl, by simp⟩
          | none => exact Or.inr ⟨rfl, rfl, rfl, rfl, rfl, rfl, by simp⟩

theorem Event.not_isPersist_of_isLoadLinks (x : Event) (h : x.isLoadLinks = true) :
    x.isPersist = false := by
  cases x <;> simp_all [Event.isLoadLinks, Event.isPersist]

theorem Event.not_isPersist_of_isLoadEdges (x : Event) (h : x.isLoadEdges = true) :
    x.isPersist = false := by
  cases x <;> simp_all [Event.isLoadEdges, Event.isPersist]

/-- A trace without persisting calls contains neither `Scores` nor an `UpdateRank`. -/
theorem no_persist_of_forall (tr : List Event) (h : ∀ x ∈ tr, x.isPersist = false) :
    Event.Scores ∉ tr ∧ ∀ id s r, Event.UpdateRank id s r ∉ tr := by
  refine ⟨fun hm => ?_, fun id s r hm => ?_⟩
  · exact absurd (h _ hm) (by simp [Event.isPersist])
  · exact absurd (h _ hm) (by simp [Event.isPersist])

/-- C2: no persistence after a failed or cancelled run.  In a pass in which `Reset`,
`loadLinks`, `loadEdges` or `RunToCompletion` (cancellation included) returns the error `e`,
`updateGraphScores` returns `e`, and the pass neither invokes `Calculator.Scores` nor calls
`IndexAPI.UpdateRank`. -/
theorem C2_no_persistence_after_failed_run {ω : Type} (W : World ω) (w : ω) (e : GoError)
    (hfail : (passReset W w).2 = some e ∨
      ((passReset W w).2 = none ∧ (passLinks W w).val = some e) ∨
      ((passReset W w).2 = none ∧ (passLinks W w).val = none ∧
        (passEdges W w).val = some e) ∨
      ((passReset W w).2 = none ∧ (passLinks W w).val = none ∧
        (passEdges W w).val = none ∧ (passRun W w).2 = some e)) :
    (Service.updateGraphScores W w).val = some e ∧
      Event.Scores ∉ (Service.updateGraphScores W w).trace ∧
      ∀ id s r, Event.UpdateRank id s r ∉ (Service.updateGraphScores W w).trace := by
  have hl := fun x hx => Event.not_isPersist_of_isLoadLinks x
    (loadLinks_calls W (passReset W w).1 uuidNil maxUUID (W.Now w).2 x hx)
  have he := fun x hx => Event.not_isPersist_of_isLoadEdges x
    (loadEdges_calls W (passLinks W w).world uuidNil maxUUID (W.Now w).2 x hx)
  rcases updateGraphScores_cases W w with
    ⟨e1, h1, hv, ht⟩ | ⟨h1, e1, h2, hv, ht⟩ | ⟨h1, h2, e1, h3, hv, ht⟩ |
    ⟨h1, h2, h3, e1, h4, hv, ht⟩ | ⟨h1, h2, h3, h4, -⟩ | ⟨h1, h2, h3, h4, -⟩
  · have hee : e1 = e := by
      rcases hfail with h | ⟨h, -⟩ | ⟨h, -⟩ | ⟨h, -⟩ <;> simp_all
    subst hee
    refine ⟨hv, no_persist_of_forall _ ?_⟩
    rw [ht]
    intro x hx
    simp only [List.mem_cons, List.mem_singleton, List.not_mem_nil, or_false] at hx
    rcases hx with hx | hx <;> subst hx <;> rfl
  · have hee : e1 = e := by
      rcases hfail with h | ⟨-, h⟩ | ⟨-, h, -⟩ | ⟨-, h, -⟩ <;> simp_all
    subst hee
    refine ⟨hv, no_persist_of_forall _ ?_⟩
    rw [ht]
    intro x hx
    simp only [List.mem_append, List.mem_cons, List.mem_singleton, List.not_mem_nil,
      or_false] at hx
    rcases hx with (hx | hx) | hx
    · subst hx; rfl
    · subst hx; rfl
    · exact hl x hx
  · have hee : e1 = e := by
      rcases hfail with h | ⟨-, h⟩ | ⟨-, -, h⟩ | ⟨-, -, h, -⟩ <;> simp_all
    subst hee
    refine ⟨hv, no_persist_of_forall _ ?_⟩
    rw [ht]
    intro x hx
    simp only [List.mem_append, List.mem_cons, List.mem_singleton, List.not_mem_nil,
      or_false] at hx
    rcases hx with ((hx | hx) | hx) | hx
    · subst hx; rfl
    · subst hx; rfl
    · exact hl x hx
    · exact he x hx
  · have hee : e1 = e := by
      rcases hfail with h | ⟨-, h⟩ | ⟨-, -, h⟩ | ⟨-, -, -, h⟩ <;> simp_all
    subst hee
    refine ⟨hv, no_persist_of_forall _ ?_⟩
    rw [ht]
    intro x hx
    simp only [List.mem_append, List.mem_cons, List.mem_singleton, List.not_mem_nil,
      or_false] at hx
    rcases hx with (((hx | hx) | hx) | hx) | hx
    · subst hx; rfl
    · subst hx; rfl
    · exact hl x hx
    · exact he x hx
    · subst hx; rfl
  · rcases hfail with h | ⟨-, h⟩ | ⟨-, -, h⟩ | ⟨-, -, -, h⟩ <;> simp_all
  · rcases hfail with h | ⟨-, h⟩ | ⟨-, -, h⟩ | ⟨-, -, -, h⟩ <;> simp_all

/-- A pass whose executor is cancelled returns the cancellation and persists nothing. -/
theorem C2_witness :
    ((passReset (stubWorld cancelledStub) []).2 = none ∧
        (passLinks (stubWorld cancelledStub) []).val = none ∧
        (passEdges (stubWorld cancelledStub) []).val = none ∧
        (passRun (stubWorld cancelledStub) []).2 = some (.other "context canceled")) ∧
      (Service.updateGraphScores (stubWorld cancelledStub) []).val
        = some (.other "context canceled") ∧
      Event.Scores ∉ (Service.updateGraphScores (stubWorld cancelledStub) []).trace ∧
      ∀ id s r, Event.UpdateRank id s r ∉
        (Service.updateGraphScores (stubWorld cancelledStub) []).trace :=
  ⟨⟨rfl, rfl, rfl, rfl⟩,
    C2_no_persistence_after_failed_run (stubWorld cancelledStub) [] (.other "context canceled")
      (Or.inr (Or.inr (Or.inr ⟨rfl, rfl, rfl, rfl⟩)))⟩

/-- A fatal `AddEdge` failure in `loadEdges`: that call is the last `AddEdge`, the iterator
is closed right after it and `loadEdges` returns its error. -/
theorem loadEdges_fatal {ω : Type} (W : World ω) (w : ω) (fromID toID : UUID)
    (filter : Time) (src dst : String) (e : GoError)
    (hf : errorsIs e .ErrUnknownEdgeSource = false)
    (hIn : Event.AddEdge src dst (some e) ∈ (Service.loadEdges W w fromID toID filter).trace) :
    (Service.loadEdges W w fromID toID filter).val = some e ∧
      ∃ pre c, (Service.loadEdges W w fromID toID filter).trace =
          pre ++ [Event.AddEdge src dst (some e), Event.EdgeIterClose c] ∧
        ∀ s d r, Event.AddEdge s d r ∈ pre →
          r = none ∨ ∃ e2, r = some e2 ∧ errorsIs e2 .ErrUnknownEdgeSource = true := by
  simp only [Service.loadEdges] at hIn ⊢
  cases hE : (W.Edges w fromID toID filter).2 with
  | inl err => simp [hE] at hIn
  | inr edgeIt =>
    simp only [hE, Res.prepend_trace, Res.prepend_val, List.cons_append, List.mem_cons,
      List.mem_append] at hIn ⊢
    have hloop : Event.AddEdge src dst (some e) ∈
        (loadEdgesLoop W edgeIt.closeErr (W.Edges w fromID toID filter).1 edgeIt.items).trace := by
      rcases hIn with hIn | hIn | hIn
      · simp at hIn
      · exact hIn
      · split at hIn
        · simp at hIn
        · split at hIn <;> simp at hIn
    obtain ⟨hv, pre, htr, hpre, -⟩ := loadEdgesLoop_fatal W edgeIt.closeErr src dst e hf
      edgeIt.items _ hloop
    simp only [hv]
    refine ⟨trivial, Event.Edges fromID toID filter none :: pre, edgeIt.closeErr, ?_, ?_⟩
    · rw [htr]; simp
    · intro s d r hm
      rcases List.mem_cons.mp hm with hm | hm
      · simp at hm
      · exact hpre s d r hm

/-- C4: any other edge-insertion failure is fatal.  When `AddEdge` returns, for some yielded
edge, an error `e` that is not (and does not wrap) `bspgraph.ErrUnknownEdgeSource`, then in
`loadEdges` that call is the last `AddEdge` call (every earlier one succeeded or was
tolerated, so it is the first fatal one), only the `Close` of the iterator follows it, and
`loadEdges` returns exactly `e`; and a pass in which this happens ends there:
`updateGraphScores` returns `e`, and the pass contains no `RunToCompletion`, no `Scores`
and no `UpdateRank`. -/
theorem C4_other_edge_failure_is_fatal {ω : Type} (W : World ω) (w : ω) (src dst : String)
    (e : GoError) (hf : errorsIs e .ErrUnknownEdgeSource = false)
    (hIn : Event.AddEdge src dst (some e) ∈ (Service.updateGraphScores W w).trace) :
    ((passEdges W w).val = some e ∧
      ∃ pre c, (passEdges W w).trace =
          pre ++ [Event.AddEdge src dst (some e), Event.EdgeIterClose c] ∧
        ∀ s d r, Event.AddEdge s d r ∈ pre →
          r = none ∨ ∃ e2, r = some e2 ∧ errorsIs e2 .ErrUnknownEdgeSource = true) ∧
    (Service.updateGraphScores W w).val = some e ∧
    (∃ pre c, (Service.updateGraphScores W w).trace =
        pre ++ [Event.AddEdge src dst (some e), Event.EdgeIterClose c]) ∧
    (∀ r, Event.RunToCompletion r ∉ (Service.updateGraphScores W w).trace) ∧
    Event.Scores ∉ (Service.updateGraphScores W w).trace ∧
    (∀ id s r, Event.UpdateRank id s r ∉ (Service.updateGraphScores W w).trace) ∧
    ∀ (w2 : ω) (fromID toID : UUID) (filter : Time),
      Event.AddEdge src dst (some e) ∈ (Service.loadEdges W w2 fromID toID filter).trace →
      (Service.loadEdges W w2 fromID toID filter).val = some e ∧
        ∃ pre c, (Service.loadEdges W w2 fromID toID filter).trace =
            pre ++ [Event.AddEdge src dst (some e), Event.EdgeIterClose c] ∧
          ∀ s d r, Event.AddEdge s d r ∈ pre →
            r = none ∨ ∃ e2, r = some e2 ∧ errorsIs e2 .ErrUnknownEdgeSource = true := by
  have hl := loadLinks_calls W (passReset W w).1 uuidNil maxUUID (W.Now w).2
  have hed := loadEdges_calls W (passLinks W w).world uuidNil maxUUID (W.Now w).2
  have hsc := CalculatorScores_calls W (passRun W w).1
  -- the failing call belongs to the `loadEdges` step
  have hnl : Event.AddEdge src dst (some e) ∉ (passLinks W w).trace :=
    fun h => absurd (hl _ h) (by simp [Event.isLoadLinks])
  have hns : Event.AddEdge src dst (some e) ∉ (passScores W w).trace :=
    fun h => absurd (hsc _ h) (by simp [Event.isPersist])
  have hmem : Event.AddEdge src dst (some e) ∈ (passEdges W w).trace := by
    rcases updateGraphScores_cases W w with
      ⟨e1, -, -, ht⟩ | ⟨-, e1, -, -, ht⟩ | ⟨-, -, e1, -, -, ht⟩ |
      ⟨-, -, -, e1, -, -, ht⟩ | ⟨-, -, -, -, e1, -, -, ht⟩ | ⟨-, -, -, -, -, -, ht⟩
    · rw [ht] at hIn
      simp at hIn
    · rw [ht] at hIn
      simp [hnl] at hIn
    · rw [ht] at hIn
      simpa [hnl] using hIn
    · rw [ht] at hIn
      simpa [hnl] using hIn
    · rw [ht] at hIn
      simpa [hnl, hns] using hIn
    · rw [ht] at hIn
      simpa [hnl, hns] using hIn
  have hfat := loadEdges_fatal W (passLinks W w).world uuidNil maxUUID (W.Now w).2 src dst e
    hf hmem
  obtain ⟨hv, pre, c, htr, hpre⟩ := hfat
  have hpass : (Service.updateGraphScores W w).val = some e ∧
      (Service.updateGraphScores W w).trace =
        [.GraphVertices, .Reset none] ++ (passLinks W w).trace ++ (passEdges W w).trace := by
    have hv2 : (passEdges W w).val = some e := hv
    rcases updateGraphScores_cases W w with
      ⟨e1, h1, -, ht⟩ | ⟨h1, e1, h2, -, ht⟩ | ⟨h1, h2, e1, h3, hval, ht⟩ |
      ⟨-, -, h3, -⟩ | ⟨-, -, h3, -⟩ | ⟨-, -, h3, -⟩
    · rw [ht] at hIn
      simp at hIn
    · rw [ht] at hIn
      simp only [List.mem_append, List.mem_cons, List.mem_singleton, List.not_mem_nil,
        or_false, reduceCtorEq, false_or] at hIn
      exact absurd (hl _ hIn) (by simp [Event.isLoadLinks])
    · rw [hv2] at h3
      cases h3
      exact ⟨hval, ht⟩
    · rw [hv2] at h3; cases h3
    · rw [hv2] at h3; cases h3
    · rw [hv2] at h3; cases h3
  have hkinds : ∀ x ∈ (Service.updateGraphScores W w).trace,
      (∀ r, x ≠ Event.RunToCompletion r) ∧ x.isPersist = false := by
    rw [hpass.2]
    intro x hx
    simp only [List.mem_append, List.mem_cons, List.mem_singleton, List.not_mem_nil,
      or_false] at hx
    rcases hx with ((hx | hx) | hx) | hx
    · subst hx; exact ⟨fun r => by simp, rfl⟩
    · subst hx; exact ⟨fun r => by simp, rfl⟩
    · have := hl x hx
      refine ⟨fun r hr => ?_, Event.not_isPersist_of_isLoadLinks x this⟩
      subst hr; simp [Event.isLoadLinks] at this
    · have := hed x hx
      refine ⟨fun r hr => ?_, Event.not_isPersist_of_isLoadEdges x this⟩
      subst hr; simp [Event.isLoadEdges] at this
  refine ⟨⟨hv, pre, c, htr, hpre⟩, hpass.1, ?_, ?_, ?_, ?_, ?_⟩
  · refine ⟨[.GraphVertices, .Reset none] ++ (passLinks W w).trace ++ pre, c, ?_⟩
    have htr2 : (passEdges W w).trace =
        pre ++ [Event.AddEdge src dst (some e), Event.EdgeIterClose c] := htr
    rw [hpass.2, htr2]
    simp
  · intro r hm
    exact (hkinds _ hm).1 r rfl
  · exact (no_persist_of_forall _ (fun x hx => (hkinds x hx).2)).1
  · exact (no_persist_of_forall _ (fun x hx => (hkinds x hx).2)).2
  · intro w2 fromID toID filter hm
    exact loadEdges_fatal W w2 fromID toID filter src dst e hf hm

/-- Three edges, the second failing with another error: the third is never tried and the pass ends. -/
theorem C4_witness :
    errorsIs (.other "no memory") .ErrUnknownEdgeSource = false ∧
      Event.AddEdge "c" "a" (some (.other "no memory")) ∈
        (Service.updateGraphScores (stubWorld fatalEdgeStub) []).trace ∧
      (passEdges (stubWorld fatalEdgeStub) []).val = some (.other "no memory") ∧
      (Service.updateGraphScores (stubWorld fatalEdgeStub) []).val
        = some (.other "no memory") ∧
      (∀ r, Event.RunToCompletion r ∉
        (Service.updateGraphScores (stubWorld fatalEdgeStub) []).trace) ∧
      Event.Scores ∉ (Service.updateGraphScores (stubWorld fatalEdgeStub) []).trace ∧
      addEdgeCalls (Service.updateGraphScores (stubWorld fatalEdgeStub) []).trace
        = [("a", "b"), ("c", "a")] :=
  have h := C4_other_edge_failure_is_fatal (stubWorld fatalEdgeStub) [] "c" "a"
    (.other "no memory") (by decide) (by decide)
  ⟨by decide, by decide, h.1.1, h.2.1, h.2.2.2.1, h.2.2.2.2.1, by decide⟩

/-! ### A pass in which every step succeeds -/

/-- A successful `loadLinks`: `Links`, one `AddVertex` per link, `Close`. -/
theorem loadLinks_ok {ω : Type} (W : World ω) (w : ω) (fromID toID : UUID) (filter : Time)
    (h : (Service.loadLinks W w fromID toID filter).val = none) :
    ∃ linkIt, (W.Links w fromID toID filter).2 = .inr linkIt ∧
      (Service.loadLinks W w fromID toID filter).trace =
        Event.Links fromID toID filter none ::
          linkIt.items.map (fun l => Event.AddVertex (W.uuidString l.ID)) ++
            [Event.LinkIterClose none] := by
  simp only [Service.loadLinks] at h ⊢
  cases hL : (W.Links w fromID toID filter).2 with
  | inl err => simp [hL] at h
  | inr linkIt =>
    simp only [hL, Res.prepend_val] at h
    refine ⟨linkIt, rfl, ?_⟩
    simp only [Res.prepend_trace, loadLinksLoop_trace]
    cases hE : linkIt.err with
    | some err => simp [hE] at h
    | none =>
      simp only [hE] at h
      simp [h]

/-- A loop of `loadEdges` that reaches the end of the iterator: one `AddEdge` per edge. -/
theorem loadEdgesLoop_ok {ω : Type} (W : World ω) (c : Option GoError) (items : List Edge) :
    ∀ w : ω, (loadEdgesLoop W c w items).val = none →
      List.Forall₂
        (fun ed ev => ∃ r, ev = Event.AddEdge (W.uuidString ed.Src) (W.uuidString ed.Dst) r)
        items (loadEdgesLoop W c w items).trace := by
  induction items with
  | nil => intro w _; simp [loadEdgesLoop]
  | cons edge rest ih =>
    intro w h
    simp only [loadEdgesLoop, Res.prepend_val, Res.prepend_trace, List.singleton_append] at h ⊢
    refine List.Forall₂.cons ⟨_, rfl⟩ ?_
    cases ha : (W.AddEdge w (W.uuidString edge.Src) (W.uuidString edge.Dst)).2 with
    | none =>
      simp only [ha] at h ⊢
      exact ih _ h
    | some err =>
      simp only [ha] at h ⊢
      cases htol : errorsIs err .ErrUnknownEdgeSource with
      | false => simp [htol] at h
      | true =>
        simp only [htol, Bool.not_true, Bool.false_eq_true, if_false] at h ⊢
        exact ih _ h

/-- A successful `loadEdges`: `Edges`, one `AddEdge` per edge, `Close`. -/
theorem loadEdges_ok {ω : Type} (W : World ω) (w : ω) (fromID toID : UUID) (filter : Time)
    (h : (Service.loadEdges W w fromID toID filter).val = none) :
    ∃ edgeIt adds, (W.Edges w fromID toID filter).2 = .inr edgeIt ∧
      List.Forall₂
        (fun ed ev => ∃ r, ev = Event.AddEdge (W.uuidString ed.Src) (W.uuidString ed.Dst) r)
        edgeIt.items adds ∧
      (Service.loadEdges W w fromID toID filter).trace =
        Event.Edges fromID toID filter none :: adds ++ [Event.EdgeIterClose none] := by
  simp only [Service.loadEdges] at h ⊢
  cases hE : (W.Edges w fromID toID filter).2 with
  | inl err => simp [hE] at h
  | inr edgeIt =>
    simp only [hE, Res.prepend_val] at h
    cases hv : (loadEdgesLoop W edgeIt.closeErr (W.Edges w fromID toID filter).1
        edgeIt.items).val with
    | some err => simp [hv] at h
    | none =>
      simp only [hv] at h
      refine ⟨edgeIt, _, rfl, loadEdgesLoop_ok W _ _ _ hv, ?_⟩
      simp only [Res.prepend_trace, hv]
      cases hErr : edgeIt.err with
      | some err => simp [hErr] at h
      | none =>
        simp only [hErr] at h
        simp [h]

/-- A `Scores` loop with `persistScore` that visits every vertex: one successful
`UpdateRank` per vertex, for the parsed identity and with the score of the vertex. -/
theorem scoresLoop_ok {ω : Type} (W : World ω) (vs : List (String × Float64)) :
    ∀ w : ω, (scoresLoop (Service.persistScore W) w vs).val = none →
      List.Forall₂
        (fun v ev => ∃ id, W.uuidParse v.1 = .inr id ∧ ev = Event.UpdateRank id v.2 none)
        vs (scoresLoop (Service.persistScore W) w vs).trace := by
  induction vs with
  | nil => intro w _; simp [scoresLoop]
  | cons v rest ih =>
    intro w h
    simp only [scoresLoop, Res.prepend_val, Res.prepend_trace] at h ⊢
    cases hp : W.uuidParse v.1 with
    | inl err => simp [Service.persistScore, hp] at h
    | inr id =>
      cases hu : (W.UpdateRank w id v.2).2 with
      | some err => simp [Service.persistScore, hp, hu] at h
      | none =>
        have hps : Service.persistScore W w v.1 v.2 =
            ⟨(W.UpdateRank w id v.2).1, [Event.UpdateRank id v.2 none], none⟩ := by
          simp [Service.persistScore, hp, hu]
        rw [hps] at h ⊢
        exact List.Forall₂.cons ⟨id, hp, rfl⟩ (ih _ h)

/-- C5: order of a pass.  In a pass in which every step succeeds (so that
`updateGraphScores` returns nil) the calls are exactly, in this order: the `Vertices` read
of the opening log line, `Reset`, `Links` with the bounds `uuid.Nil` and `maxUUID` and the
start time, one `AddVertex` per yielded link, the `Close` of the link iterator, `Edges`
with the same arguments, one `AddEdge` per yielded edge, the `Close` of the edge iterator,
`RunToCompletion` returning nil, `Scores`, one successful `UpdateRank` per vertex (through
`persistScore`), and the `Vertices` read of the closing log line.  In particular no
`AddVertex` or `AddEdge` comes before `Reset` and no `UpdateRank` before `RunToCompletion`
has returned nil. -/
theorem C5_order_of_a_pass {ω : Type} (W : World ω) (w : ω)
    (h : (Service.updateGraphScores W w).val = none) :
    ∃ linkIt edgeIt adds ups,
      (W.Links (passReset W w).1 uuidNil maxUUID (W.Now w).2).2 = .inr linkIt ∧
      (W.Edges (passLinks W w).world uuidNil maxUUID (W.Now w).2).2 = .inr edgeIt ∧
      List.Forall₂
        (fun ed ev => ∃ r, ev = Event.AddEdge (W.uuidString ed.Src) (W.uuidString ed.Dst) r)
        edgeIt.items adds ∧
      List.Forall₂
        (fun v ev => ∃ id, W.uuidParse v.1 = .inr id ∧ ev = Event.UpdateRank id v.2 none)
        (W.Vertices (passRun W w).1) ups ∧
      (Service.updateGraphScores W w).trace =
        [.GraphVertices, .Reset none, .Links uuidNil maxUUID (W.Now w).2 none] ++
          linkIt.items.map (fun l => Event.AddVertex (W.uuidString l.ID)) ++
          [.LinkIterClose none, .Edges uuidNil maxUUID (W.Now w).2 none] ++ adds ++
          [.EdgeIterClose none, .RunToCompletion none, .Scores] ++ ups ++
          [.GraphVertices] := by
  rcases updateGraphScores_cases W w with
    ⟨e1, -, hv, -⟩ | ⟨-, e1, -, hv, -⟩ | ⟨-, -, e1, -, hv, -⟩ |
    ⟨-, -, -, e1, -, hv, -⟩ | ⟨-, -, -, -, e1, -, hv, -⟩ | ⟨-, h2, h3, -, h5, -, ht⟩
  · rw [hv] at h; cases h
  · rw [hv] at h; cases h
  · rw [hv] at h; cases h
  · rw [hv] at h; cases h
  · rw [hv] at h; cases h
  · obtain ⟨linkIt, hL, hLt⟩ := loadLinks_ok W (passReset W w).1 uuidNil maxUUID (W.Now w).2 h2
    obtain ⟨edgeIt, adds, hE, hF, hEt⟩ :=
      loadEdges_ok W (passLinks W w).world uuidNil maxUUID (W.Now w).2 h3
    have hS : (scoresLoop (Service.persistScore W) (passRun W w).1
        (W.Vertices (passRun W w).1)).val = none := h5
    refine ⟨linkIt, edgeIt, adds, _, hL, hE, hF, scoresLoop_ok W _ _ hS, ?_⟩
    have hLt2 : (passLinks W w).trace = _ := hLt
    have hEt2 : (passEdges W w).trace = _ := hEt
    have hSt : (passScores W w).trace = Event.Scores ::
        (scoresLoop (Service.persistScore W) (passRun W w).1
          (W.Vertices (passRun W w).1)).trace := rfl
    rw [ht, hLt2, hEt2, hSt]
    simp

/-- The pass of the healthy leader succeeds, in the stated order. -/
theorem C5_witness :
    (Service.updateGraphScores (stubWorld goodStub) []).val = none ∧
      ∃ linkIt edgeIt adds ups,
        ((stubWorld goodStub).Links (passReset (stubWorld goodStub) []).1 uuidNil maxUUID
          ((stubWorld goodStub).Now []).2).2 = .inr linkIt ∧
        ((stubWorld goodStub).Edges (passLinks (stubWorld goodStub) []).world uuidNil maxUUID
          ((stubWorld goodStub).Now []).2).2 = .inr edgeIt ∧
        List.Forall₂
          (fun ed ev => ∃ r, ev = Event.AddEdge ((stubWorld goodStub).uuidString ed.Src)
            ((stubWorld goodStub).uuidString ed.Dst) r)
          edgeIt.items adds ∧
        List.Forall₂
          (fun v ev => ∃ id, (stubWorld goodStub).uuidParse v.1 = .inr id ∧
            ev = Event.UpdateRank id v.2 none)
          ((stubWorld goodStub).Vertices (passRun (stubWorld goodStub) []).1) ups ∧
        (Service.updateGraphScores (stubWorld goodStub) []).trace =
          [.GraphVertices, .Reset none,
              .Links uuidNil maxUUID ((stubWorld goodStub).Now []).2 none] ++
            linkIt.items.map (fun l => Event.AddVertex ((stubWorld goodStub).uuidString l.ID)) ++
            [.LinkIterClose none, .Edges uuidNil maxUUID ((stubWorld goodStub).Now []).2 none] ++
            adds ++ [.EdgeIterClose none, .RunToCompletion none, .Scores] ++ ups ++
            [.GraphVertices] :=
  ⟨rfl, C5_order_of_a_pass (stubWorld goodStub) [] rfl⟩

/-! ### The loop of `Run` -/

theorem runDeferred_idle (err : Option GoError) : runDeferred .idle err = .returned err := rfl

/-- A tick cannot arrive while the timer is idle. -/
theorem runLoop_idle_tick {ω : Type} (W : World ω) (w : ω) (rest : List Wake) :
    runLoop W .idle w (.tick :: rest) = runLoop W .idle w rest := by
  simp [runLoop]

/-- With the timer idle, ticks never wake the loop up. -/
theorem runLoop_idle_ticks {ω : Type} (W : World ω) (w : ω) (n : Nat) :
    runLoop W .idle w (List.replicate n .tick) = ⟨w, [], .waiting .idle⟩ := by
  induction n with
  | zero => simp [runLoop]
  | succ k ih => rw [List.replicate_succ, runLoop_idle_tick, ih]

/-- The body of the case `<-timer.C`, for a timer that can deliver a tick. -/
theorem runLoop_tick {ω : Type} (W : World ω) (timer : TimerState) (ht : timer ≠ .idle)
    (w : ω) (rest : List Wake) :
    runLoop W timer w (.tick :: rest) =
      Res.prepend [.PartitionInfo (W.PartitionInfo w).2]
        (match (W.PartitionInfo w).2 with
        | .inl err =>
          if errorsIs err .ErrNoPartitionDataAvailableYet then
            runLoop W .idle (W.PartitionInfo w).1 rest
          else ⟨(W.PartitionInfo w).1, [], runDeferred .idle (some err)⟩
        | .inr (curPartition, _) =>
          if curPartition ≠ 0 then ⟨(W.PartitionInfo w).1, [], runDeferred .idle none⟩
          else
            Res.prepend (Service.updateGraphScores W (W.PartitionInfo w).1).trace
              (match (Service.updateGraphScores W (W.PartitionInfo w).1).val with
              | some err =>
                ⟨(Service.updateGraphScores W (W.PartitionInfo w).1).world, [],
                  runDeferred .idle (some err)⟩
              | none =>
                Res.prepend [.TimerReset]
                  (runLoop W .active (Service.updateGraphScores W (W.PartitionInfo w).1).world
                    rest))) := by
  cases timer with
  | idle => exact absurd rfl ht
  | active => simp only [runLoop]
  | fired => simp only [runLoop]

/-- C9: PartitionUnavailable is not an error.  On a tick on which `PartitionInfo` fails
with `e`: when `e` is (or wraps) `partition.ErrNoPartitionDataAvailableYet`, `Run` does not
return on that tick and starts no pass: the only call of the tick is `PartitionInfo`, and
the loop goes on to wait in its `select`; for every other `e`, `Run` returns exactly `e`,
again with `PartitionInfo` as the only call. -/
theorem C9_partition_unavailable_is_not_an_error {ω : Type} (W : World ω)
    (timer : TimerState) (w : ω) (rest : List Wake) (e : GoError)
    (ht : timer ≠ .idle) (hE : (W.PartitionInfo w).2 = .inl e) :
    (errorsIs e .ErrNoPartitionDataAvailableYet = true →
      runLoop W timer w (.tick :: rest) =
          Res.prepend [.PartitionInfo (.inl e)] (runLoop W .idle (W.PartitionInfo w).1 rest) ∧
        runLoop W timer w [.tick] =
          ⟨(W.PartitionInfo w).1, [.PartitionInfo (.inl e)], .waiting .idle⟩) ∧
    (errorsIs e .ErrNoPartitionDataAvailableYet = false →
      runLoop W timer w (.tick :: rest) =
        ⟨(W.PartitionInfo w).1, [.PartitionInfo (.inl e)], .returned (some e)⟩) := by
  refine ⟨fun hn => ⟨?_, ?_⟩, fun hn => ?_⟩
  · rw [runLoop_tick W timer ht]
    simp only [hE, hn, if_true]
  · rw [runLoop_tick W timer ht]
    simp only [hE, hn, if_true]
    rfl
  · rw [runLoop_tick W timer ht]
    simp only [hE, hn, Bool.false_eq_true, if_false]
    rfl

/-- A detector without data leaves `Run` waiting; a broken detector makes `Run` return its error. -/
theorem C9_witness :
    TimerState.active ≠ .idle ∧
      ((stubWorld notReadyStub).PartitionInfo []).2 = .inl .ErrNoPartitionDataAvailableYet ∧
      ((stubWorld brokenDetectorStub).PartitionInfo []).2 = .inl (.other "detector down") ∧
      Service.Run (stubWorld notReadyStub) [] [.tick] =
        ⟨[], [.PartitionInfo (.inl .ErrNoPartitionDataAvailableYet)], .waiting .idle⟩ ∧
      Service.Run (stubWorld brokenDetectorStub) [] [.tick, .tick] =
        ⟨[], [.PartitionInfo (.inl (.other "detector down"))],
          .returned (some (.other "detector down"))⟩ :=
  ⟨by decide, rfl, rfl,
    ((C9_partition_unavailable_is_not_an_error (stubWorld notReadyStub) .active [] []
      .ErrNoPartitionDataAvailableYet (by decide) rfl).1 rfl).2,
    (C9_partition_unavailable_is_not_an_error (stubWorld brokenDetectorStub) .active []
      [.tick] (.other "detector down") (by decide) rfl).2 rfl⟩

/-- C10: the timer is not armed again after a deferred tick.  When the first tick finds
`PartitionInfo` failing with `partition.ErrNoPartitionDataAvailableYet`, the `continue`
skips `timer.Reset`: `Run` then waits in its `select` with an idle timer, no tick is
delivered any more (however many would be due, the leadership check is never retried), and
a cancellation finds `timer.Stop()` false and blocks for ever in `<-timer.C`. -/
theorem C10_timer_not_rearmed_after_deferral {ω : Type} (W : World ω) (w : ω) (e : GoError)
    (hE : (W.PartitionInfo w).2 = .inl e)
    (hN : errorsIs e .ErrNoPartitionDataAvailableYet = true) (n : Nat) :
    Service.Run W w (.tick :: List.replicate n .tick) =
        ⟨(W.PartitionInfo w).1, [.PartitionInfo (.inl e)], .waiting .idle⟩ ∧
      ∀ expired, (Service.Run W w [.tick, .ctxDone expired]).val = .blocked := by
  refine ⟨?_, fun expired => ?_⟩
  · unfold Service.Run
    rw [runLoop_tick W .active (by decide)]
    simp only [hE, hN, if_true, runLoop_idle_ticks]
    rfl
  · unfold Service.Run
    rw [runLoop_tick W .active (by decide)]
    simp only [hE, hN, if_true, Res.prepend_val]
    cases expired <;> rfl

/-- After a deferred tick three more due ticks change nothing, and a cancellation blocks. -/
theorem C10_witness :
    ((stubWorld notReadyStub).PartitionInfo []).2 = .inl .ErrNoPartitionDataAvailableYet ∧
      errorsIs .ErrNoPartitionDataAvailableYet .ErrNoPartitionDataAvailableYet = true ∧
      Service.Run (stubWorld notReadyStub) [] [.tick, .tick, .tick, .tick] =
        ⟨[], [.PartitionInfo (.inl .ErrNoPartitionDataAvailableYet)], .waiting .idle⟩ ∧
      (Service.Run (stubWorld notReadyStub) [] [.tick, .ctxDone false]).val = .blocked :=
  have h := C10_timer_not_rearmed_after_deferral (stubWorld notReadyStub) []
    .ErrNoPartitionDataAvailableYet rfl rfl 3
  ⟨rfl, rfl, h.1, h.2 false⟩

/-! ### The leadership gate -/

theorem Event.isPassCall_of_isLoadLinks (x : Event) (h : x.isLoadLinks = true) :
    x.isPassCall = true := by
  cases x <;> simp_all [Event.isLoadLinks, Event.isPassCall]

theorem Event.isPassCall_of_isLoadEdges (x : Event) (h : x.isLoadEdges = true) :
    x.isPassCall = true := by
  cases x <;> simp_all [Event.isLoadEdges, Event.isPassCall]

theorem Event.isPassCall_of_isPersist (x : Event) (h : x.isPersist = true) :
    x.isPassCall = true := by
  cases x <;> simp_all [Event.isPersist, Event.isPassCall]

/-- Every call of `updateGraphScores` is a call of the pass: it neither asks for the
partition nor touches the timer. -/
theorem updateGraphScores_calls {ω : Type} (W : World ω) (w : ω) :
    ∀ x ∈ (Service.updateGraphScores W w).trace, x.isPassCall = true := by
  have hl := fun x hx => Event.isPassCall_of_isLoadLinks x
    (loadLinks_calls W (passReset W w).1 uuidNil maxUUID (W.Now w).2 x hx)
  have he := fun x hx => Event.isPassCall_of_isLoadEdges x
    (loadEdges_calls W (passLinks W w).world uuidNil maxUUID (W.Now w).2 x hx)
  have hs := fun x hx => Event.isPassCall_of_isPersist x
    (CalculatorScores_calls W (passRun W w).1 x hx)
  intro x hx
  rcases updateGraphScores_cases W w with
    ⟨e1, -, -, ht⟩ | ⟨-, e1, -, -, ht⟩ | ⟨-, -, e1, -, -, ht⟩ |
    ⟨-, -, -, e1, -, -, ht⟩ | ⟨-, -, -, -, e1, -, -, ht⟩ | ⟨-, -, -, -, -, -, ht⟩ <;>
  · rw [ht] at hx
    simp only [List.mem_append, List.mem_cons, List.mem_singleton, List.not_mem_nil,
      or_false] at hx
    casesm* _ ∨ _
    all_goals first
      | exact hl x (by assumption)
      | exact he x (by assumption)
      | exact hs x (by assumption)
      | (subst_vars; rfl)

/-- The calls of a pass keep the gate open. -/
theorem gateScan_pass_append (out : Outcome) (mid tr : List Event)
    (hmid : ∀ x ∈ mid, x.isPassCall = true) :
    gateScan out true (mid ++ tr) = gateScan out true tr := by
  induction mid with
  | nil => rfl
  | cons x xs ih =>
    have hx : x.isPassCall = true := hmid x (List.mem_cons_self _ _)
    have ih2 := ih (fun y hy => hmid y (List.mem_cons_of_mem _ hy))
    cases x <;> simp_all [gateScan, Event.isPassCall]

/-- An accepted trace stays accepted, under some flag, after its first call. -/
theorem gateScan_tail (out : Outcome) (b : Bool) (x : Event) (tr : List Event)
    (h : gateScan out b (x :: tr) = true) (hne : tr ≠ []) :
    ∃ b2, gateScan out b2 tr = true := by
  cases x with
  | PartitionInfo res =>
    cases res with
    | inl err => exact ⟨false, by simpa [gateScan] using h⟩
    | inr pn =>
      obtain ⟨p, n⟩ := pn
      by_cases hp : p = 0
      · exact ⟨true, by simpa [gateScan, hp] using h⟩
      · simp only [gateScan, hp, if_false, Bool.and_eq_true, List.isEmpty_iff] at h
        exact absurd h.1 hne
  | TimerReset => exact ⟨false, by simpa [gateScan] using h⟩
  | GraphVertices => exact ⟨b, by simp [gateScan] at h; exact h.2⟩
  | Reset _ => exact ⟨b, by simp [gateScan] at h; exact h.2⟩
  | Links _ _ _ _ => exact ⟨b, by simp [gateScan] at h; exact h.2⟩
  | AddVertex _ => exact ⟨b, by simp [gateScan] at h; exact h.2⟩
  | LinkIterClose _ => exact ⟨b, by simp [gateScan] at h; exact h.2⟩
  | Edges _ _ _ _ => exact ⟨b, by simp [gateScan] at h; exact h.2⟩
  | AddEdge _ _ _ => exact ⟨b, by simp [gateScan] at h; exact h.2⟩
  | EdgeIterClose _ => exact ⟨b, by simp [gateScan] at h; exact h.2⟩
  | RunToCompletion _ => exact ⟨b, by simp [gateScan] at h; exact h.2⟩
  | Scores => exact ⟨b, by simp [gateScan] at h; exact h.2⟩
  | UpdateRank _ _ _ => exact ⟨b, by simp [gateScan] at h; exact h.2⟩

/-- In an accepted trace, a `PartitionInfo` that reports a partition other than 0 is the
last call, and `Run` returned nil. -/
theorem gateScan_follower (out : Outcome) (p n : Int) (hp : p ≠ 0) (post : List Event) :
    ∀ (tr : List Event) (b : Bool) (pre : List Event), gateScan out b tr = true →
      tr = pre ++ Event.PartitionInfo (.inr (p, n)) :: post →
      post = [] ∧ out = .returned none := by
  intro tr
  induction tr with
  | nil => intro b pre _ h; simp at h
  | cons x xs ih =>
    intro b pre hg h
    cases pre with
    | nil =>
      simp only [List.nil_append, List.cons.injEq] at h
      obtain ⟨hx, hxs⟩ := h
      subst hx hxs
      simpa [gateScan, hp] using hg
    | cons y ys =>
      simp only [List.cons_append, List.cons.injEq] at h
      obtain ⟨-, hxs⟩ := h
      obtain ⟨b2, hb2⟩ := gateScan_tail out b x xs hg (by rw [hxs]; simp)
      exact ih b2 ys hb2 hxs

/-- A call of a pass is accepted only while the flag is set. -/
theorem gateScan_head_pass (out : Outcome) (b : Bool) (ev : Event) (tr : List Event)
    (hev : ev.isPassCall = true) (hg : gateScan out b (ev :: tr) = true) : b = true := by
  cases ev with
  | PartitionInfo res => simp [Event.isPassCall] at hev
  | TimerReset => simp [Event.isPassCall] at hev
  | GraphVertices => simp only [gateScan, Bool.and_eq_true] at hg; exact hg.1
  | Reset _ => simp only [gateScan, Bool.and_eq_true] at hg; exact hg.1
  | Links _ _ _ _ => simp only [gateScan, Bool.and_eq_true] at hg; exact hg.1
  | AddVertex _ => simp only [gateScan, Bool.and_eq_true] at hg; exact hg.1
  | LinkIterClose _ => simp only [gateScan, Bool.and_eq_true] at hg; exact hg.1
  | Edges _ _ _ _ => simp only [gateScan, Bool.and_eq_true] at hg; exact hg.1
  | AddEdge _ _ _ => simp only [gateScan, Bool.and_eq_true] at hg; exact hg.1
  | EdgeIterClose _ => simp only [gateScan, Bool.and_eq_true] at hg; exact hg.1
  | RunToCompletion _ => simp only [gateScan, Bool.and_eq_true] at hg; exact hg.1
  | Scores => simp only [gateScan, Bool.and_eq_true] at hg; exact hg.1
  | UpdateRank _ _ _ => simp only [gateScan, Bool.and_eq_true] at hg; exact hg.1

/-- In an accepted trace, a call of a pass comes after a `PartitionInfo` that reported
partition 0, with only calls of that pass in between; or the flag was set at the start and
only calls of a pass came so far. -/
theorem gateScan_pass (out : Outcome) (ev : Event) (hev : ev.isPassCall = true)
    (post : List Event) :
    ∀ (tr : List Event) (b : Bool) (pre : List Event), gateScan out b tr = true →
      tr = pre ++ ev :: post →
      (∃ pre1 n mid, pre = pre1 ++ Event.PartitionInfo (.inr (0, n)) :: mid ∧
        ∀ x ∈ mid, x.isPassCall = true) ∨
      (b = true ∧ ∀ x ∈ pre, x.isPassCall = true) := by
  intro tr
  induction tr with
  | nil => intro b pre _ h; simp at h
  | cons x xs ih =>
    intro b pre hg h
    cases pre with
    | nil =>
      simp only [List.nil_append, List.cons.injEq] at h
      obtain ⟨hx, -⟩ := h
      rw [hx] at hg
      exact Or.inr ⟨gateScan_head_pass out b ev xs hev hg, by simp⟩
    | cons y ys =>
      simp only [List.cons_append, List.cons.injEq] at h
      obtain ⟨hxy, hxs⟩ := h
      subst hxy
      have hpre : ∀ (b2 : Bool), gateScan out b2 xs = true →
          (b2 = true → (x.isPassCall = true ∧ b = true) ∨ ∃ n, x = .PartitionInfo (.inr (0, n))) →
          (∃ pre1 n mid, x :: ys = pre1 ++ Event.PartitionInfo (.inr (0, n)) :: mid ∧
            ∀ z ∈ mid, z.isPassCall = true) ∨
          (b = true ∧ ∀ z ∈ x :: ys, z.isPassCall = true) := by
        intro b2 hb2 hflag
        rcases ih b2 ys hb2 hxs with ⟨pre1, n, mid, hys, hmid⟩ | ⟨hb, hall⟩
        · exact Or.inl ⟨x :: pre1, n, mid, by rw [hys]; rfl, hmid⟩
        · rcases hflag hb with ⟨hx, hbb⟩ | ⟨n, hx⟩
          · refine Or.inr ⟨hbb, ?_⟩
            intro z hz
            rcases List.mem_cons.mp hz with hz | hz
            · rw [hz]; exact hx
            · exact hall z hz
          · exact Or.inl ⟨[], n, ys, by rw [hx]; rfl, hall⟩
      cases x with
      | PartitionInfo res =>
        cases res with
        | inl err =>
          exact hpre false (by simpa [gateScan] using hg) (by simp)
        | inr pn =>
          obtain ⟨p, n⟩ := pn
          by_cases hp : p = 0
          · subst hp
            exact hpre true (by simpa [gateScan] using hg) (fun _ => Or.inr ⟨n, rfl⟩)
          · simp only [gateScan, hp, if_false, Bool.and_eq_true, List.isEmpty_iff] at hg
            rw [hg.1] at hxs
            simp at hxs
      | TimerReset => exact hpre false (by simpa [gateScan] using hg) (by simp)
      | GraphVertices =>
        simp only [gateScan, Bool.and_eq_true] at hg
        exact hpre b hg.2 (fun _ => Or.inl ⟨rfl, hg.1⟩)
      | Reset _ =>
        simp only [gateScan, Bool.and_eq_true] at hg
        exact hpre b hg.2 (fun _ => Or.inl ⟨rfl, hg.1⟩)
      | Links _ _ _ _ =>
        simp only [gateScan, Bool.and_eq_true] at hg
        exact hpre b hg.2 (fun _ => Or.inl ⟨rfl, hg.1⟩)
      | AddVertex _ =>
        simp only [gateScan, Bool.and_eq_true] at hg
        exact hpre b hg.2 (fun _ => Or.inl ⟨rfl, hg.1⟩)
      | LinkIterClose _ =>
        simp only [gateScan, Bool.and_eq_true] at hg
        exact hpre b hg.2 (fun _ => Or.inl ⟨rfl, hg.1⟩)
      | Edges _ _ _ _ =>
        simp only [gateScan, Bool.and_eq_true] at hg
        exact hpre b hg.2 (fun _ => Or.inl ⟨rfl, hg.1⟩)
      | AddEdge _ _ _ =>
        simp only [gateScan, Bool.and_eq_true] at hg
        exact hpre b hg.2 (fun _ => Or.inl ⟨rfl, hg.1⟩)
      | EdgeIterClose _ =>
        simp only [gateScan, Bool.and_eq_true] at hg
        exact hpre b hg.2 (fun _ => Or.inl ⟨rfl, hg.1⟩)
      | RunToCompletion _ =>
        simp only [gateScan, Bool.and_eq_true] at hg
        exact hpre b hg.2 (fun _ => Or.inl ⟨rfl, hg.1⟩)
      | Scores =>
        simp only [gateScan, Bool.and_eq_true] at hg
        exact hpre b hg.2 (fun _ => Or.inl ⟨rfl, hg.1⟩)
      | UpdateRank _ _ _ =>
        simp only [gateScan, Bool.and_eq_true] at hg
        exact hpre b hg.2 (fun _ => Or.inl ⟨rfl, hg.1⟩)

/-- The case `<-ctx.Done()` makes no call. -/
theorem runLoop_ctxDone_trace {ω : Type} (W : World ω) (timer : TimerState) (w : ω)
    (expired : Bool) (rest : List Wake) :
    (runLoop W timer w (.ctxDone expired :: rest)).trace = [] := by
  cases timer <;> cases expired <;> rfl

/-- The monitor accepts every trace of the loop of `Run`. -/
theorem runLoop_gateScan {ω : Type} (W : World ω) (wakes : List Wake) :
    ∀ (timer : TimerState) (w : ω),
      gateScan (runLoop W timer w wakes).val false (runLoop W timer w wakes).trace = true := by
  induction wakes with
  | nil => intro timer w; simp [runLoop, gateScan]
  | cons wake rest ih =>
    intro timer w
    cases wake with
    | ctxDone expired => rw [runLoop_ctxDone_trace]; rfl
    | tick =>
      by_cases ht : timer = .idle
      · subst ht
        rw [runLoop_idle_tick]
        exact ih _ _
      · rw [runLoop_tick W timer ht]
        cases hp : (W.PartitionInfo w).2 with
        | inl err =>
          simp only [Res.prepend_trace, Res.prepend_val, List.singleton_append, gateScan]
          split
          · exact ih _ _
          · rfl
        | inr pn =>
          obtain ⟨p, n⟩ := pn
          simp only [Res.prepend_trace, Res.prepend_val, List.singleton_append, gateScan]
          by_cases hp0 : p = 0
          · subst hp0
            simp only [ne_eq, not_true_eq_false, if_false, if_true, Res.prepend_trace,
              Res.prepend_val]
            have key : ∀ r : Res ω Outcome, gateScan r.val true r.trace = true →
                gateScan r.val true
                  ((Service.updateGraphScores W (W.PartitionInfo w).1).trace ++ r.trace)
                  = true := by
              intro r hr
              rw [gateScan_pass_append _ _ _ (updateGraphScores_calls W _)]
              exact hr
            refine key _ ?_
            cases hu : (Service.updateGraphScores W (W.PartitionInfo w).1).val with
            | some err => rfl
            | none =>
              simp only [Res.prepend_trace, Res.prepend_val, List.singleton_append, gateScan]
              exact ih _ _
          · simp [hp0, runDeferred_idle]

/-- C1: the leadership gate of `Run`.  In every run, whatever the wake-ups: a
`PartitionInfo` that returns `(p, n, nil)` with `p != 0` is the last call `Run` makes (no
`Reset`, no `Links` or `Edges`, no `RunToCompletion`, no `UpdateRank` follows) and `Run`
returns nil; and every call of a pass (`updateGraphScores`: each call other than
`PartitionInfo` and the timer reset) comes after a `PartitionInfo` that returned partition 0
without error, with only calls of that same pass in between. -/
theorem C1_leadership_gate {ω : Type} (W : World ω) (w : ω) (wakes : List Wake)
    (pre post : List Event) (ev : Event)
    (h : (Service.Run W w wakes).trace = pre ++ ev :: post) :
    (∀ p n, ev = Event.PartitionInfo (.inr (p, n)) → p ≠ 0 →
      post = [] ∧ (Service.Run W w wakes).val = .returned none) ∧
    (ev.isPassCall = true →
      ∃ pre1 n mid, pre = pre1 ++ Event.PartitionInfo (.inr (0, n)) :: mid ∧
        ∀ x ∈ mid, x.isPassCall = true) := by
  have hg := runLoop_gateScan W wakes .active w
  refine ⟨fun p n hev hp => ?_, fun hev => ?_⟩
  · subst hev
    exact gateScan_follower _ p n hp post _ false pre hg h
  · rcases gateScan_pass _ ev hev post _ false pre hg h with hgood | ⟨hb, -⟩
    · exact hgood
    · cases hb

/-- A follower (partition 1 of 2) stops at the first tick with nil; on the leader the `Reset` of the first pass comes after `PartitionInfo` reported partition 0. -/
theorem C1_witness :
    (Service.Run (stubWorld followerStub) [] [.tick, .tick]).trace =
        [] ++ Event.PartitionInfo (.inr (1, 2)) :: [] ∧
      (Service.Run (stubWorld followerStub) [] [.tick, .tick]).val = .returned none ∧
      (Service.Run (stubWorld goodStub) [] [.tick]).trace =
        [Event.PartitionInfo (.inr (0, 1)), .GraphVertices] ++ Event.Reset none ::
          ((Service.Run (stubWorld goodStub) [] [.tick]).trace.drop 3) ∧
      ∃ pre1 n mid, [Event.PartitionInfo (.inr (0, 1)), .GraphVertices] =
          pre1 ++ Event.PartitionInfo (.inr (0, n)) :: mid ∧
        ∀ x ∈ mid, x.isPassCall = true :=
  ⟨rfl,
    ((C1_leadership_gate (stubWorld followerStub) [] [.tick, .tick] [] []
      (.PartitionInfo (.inr (1, 2))) rfl).1 1 2 rfl (by decide)).2,
    rfl,
    (C1_leadership_gate (stubWorld goodStub) [] [.tick]
      [Event.PartitionInfo (.inr (0, 1)), .GraphVertices]
      ((Service.Run (stubWorld goodStub) [] [.tick]).trace.drop 3) (.Reset none) rfl).2 rfl⟩

/-! ### A failing pass ends `Run` -/

/-- C11 (as stated, refuted): with the graph API down, the first pass fails in `Links`, and
`Run` returns that error at once: the timer is not reset and the two later wake-ups start no
further pass. -/
theorem C11_store_error_stops_run :
    (Service.Run (stubWorld linksDownStub) [] [.tick, .tick, .tick]).val =
        .returned (some (.other "connection refused")) ∧
      (Service.Run (stubWorld linksDownStub) [] [.tick, .tick, .tick]).trace =
        [.PartitionInfo (.inr (0, 1)), .GraphVertices, .Reset none,
          .Links uuidNil maxUUID 1000 (some (.other "connection refused"))] ∧
      Event.TimerReset ∉ (Service.Run (stubWorld linksDownStub) [] [.tick, .tick, .tick]).trace ∧
      (Service.Run (stubWorld indexDownStub) [] [.tick, .tick, .tick]).val =
        .returned (some (.other "connection refused")) := by
  refine ⟨rfl, rfl, by decide, rfl⟩

/-- C11 (amended): a failing pass ends the service loop.  On a tick of the leader on which
`updateGraphScores` returns the error `e` (an error of the graph API or of the index API
included), `Run` returns exactly `e` after the calls of that pass: the timer is not reset
and no later wake-up starts a pass. -/
theorem C11_pass_error_is_returned_by_run {ω : Type} (W : World ω) (timer : TimerState)
    (w : ω) (rest : List Wake) (n : Int) (e : GoError)
    (ht : timer ≠ .idle) (hP : (W.PartitionInfo w).2 = .inr (0, n))
    (hU : (Service.updateGraphScores W (W.PartitionInfo w).1).val = some e) :
    runLoop W timer w (.tick :: rest) =
        ⟨(Service.updateGraphScores W (W.PartitionInfo w).1).world,
          .PartitionInfo (.inr (0, n)) ::
            (Service.updateGraphScores W (W.PartitionInfo w).1).trace,
          .returned (some e)⟩ ∧
      Event.TimerReset ∉ (runLoop W timer w (.tick :: rest)).trace := by
  have hrun : runLoop W timer w (.tick :: rest) =
      ⟨(Service.updateGraphScores W (W.PartitionInfo w).1).world,
        .PartitionInfo (.inr (0, n)) ::
          (Service.updateGraphScores W (W.PartitionInfo w).1).trace,
        .returned (some e)⟩ := by
    rw [runLoop_tick W timer ht]
    simp only [hP, hU, ne_eq, not_true_eq_false, if_false, Res.prepend, runDeferred_idle,
      List.append_nil, List.singleton_append]
  refine ⟨hrun, ?_⟩
  rw [hrun]
  intro hm
  rcases List.mem_cons.mp hm with hm | hm
  · cases hm
  · exact absurd (updateGraphScores_calls W _ _ hm) (by simp [Event.isPassCall])

/-- With the index API down the leader's pass fails in `UpdateRank`, and `Run` returns. -/
theorem C11_witness :
    TimerState.active ≠ .idle ∧
      ((stubWorld indexDownStub).PartitionInfo []).2 = .inr (0, 1) ∧
      (Service.updateGraphScores (stubWorld indexDownStub)
        ((stubWorld indexDownStub).PartitionInfo []).1).val = some (.other "connection refused") ∧
      (Service.Run (stubWorld indexDownStub) [] [.tick, .tick]).val =
        .returned (some (.other "connection refused")) :=
  ⟨by decide, rfl, rfl,
    congrArg Res.val (C11_pass_error_is_returned_by_run (stubWorld indexDownStub) .active []
      [.tick] 1 (.other "connection refused") (by decide) rfl rfl).1⟩

/-! ### The scan of the link store -/

open linkpostgre in
/-- C12 (as stated, refuted): a stored link with the identity
ffffffff-ffff-ffff-ffff-ffffffffffff, retrieved before the pass starts, is not selected by
the links query under the bounds of the pass, and the pass adds no vertex for it. -/
theorem C12_last_id_is_not_scanned :
    (⟨maxUUID, "http://last", 0⟩ : LinkRow) ∈ lastIdDB.links ∧
      (0 : Time) < ((storeWorld lastIdDB goodStub).Now []).2 ∧
      linksIterationQuery lastIdDB uuidNil maxUUID ((storeWorld lastIdDB goodStub).Now []).2
        = [] ∧
      (Service.updateGraphScores (storeWorld lastIdDB goodStub) []).trace =
        [.GraphVertices, .Reset none, .Links uuidNil maxUUID 1000 none, .LinkIterClose none,
          .Edges uuidNil maxUUID 1000 none, .EdgeIterClose none, .RunToCompletion none,
          .Scores, .GraphVertices] := by
  refine ⟨by decide, by decide, by decide, rfl⟩

/-- The vertices of the links that the iterator yields are added by `loadLinks`, whatever
the iterator reports at its end. -/
theorem loadLinks_adds_items {ω : Type} (W : World ω) (w : ω) (fromID toID : UUID)
    (filter : Time) (linkIt : LinkIterator)
    (hL : (W.Links w fromID toID filter).2 = .inr linkIt) :
    ∀ l ∈ linkIt.items,
      Event.AddVertex (W.uuidString l.ID) ∈ (Service.loadLinks W w fromID toID filter).trace := by
  intro l hl
  simp only [Service.loadLinks, hL, Res.prepend_trace, loadLinksLoop_trace,
    List.cons_append, List.mem_cons, List.mem_append, List.mem_map]
  exact Or.inr (Or.inl ⟨l, hl, rfl⟩)

/-- Once `Reset` has succeeded, the calls of `loadLinks` are part of the pass. -/
theorem updateGraphScores_has_links {ω : Type} (W : World ω) (w : ω)
    (hR : (passReset W w).2 = none) :
    ∀ x ∈ (passLinks W w).trace, x ∈ (Service.updateGraphScores W w).trace := by
  intro x hx
  rcases updateGraphScores_cases W w with
    ⟨e1, h1, -, -⟩ | ⟨-, e1, -, -, ht⟩ | ⟨-, -, e1, -, -, ht⟩ |
    ⟨-, -, -, e1, -, -, ht⟩ | ⟨-, -, -, -, e1, -, -, ht⟩ | ⟨-, -, -, -, -, -, ht⟩
  · rw [hR] at h1; cases h1
  all_goals
    rw [ht]
    simp only [List.mem_append, List.mem_cons]
    tauto

open linkpostgre in
/-- C12 (amended): the scan covers every identity below the upper bound.  Under the bounds
`uuid.Nil` and ffffffff-ffff-ffff-ffff-ffffffffffff the links query selects exactly the
stored links whose id is not ffffffff-ffff-ffff-ffff-ffffffffffff and whose `retrieved_at` is
earlier than the time given (the edges query: the edges whose `src` is not that id), and no
id drawn by `gen_random_uuid()` is that id.  So in a pass whose `Reset` succeeds and whose
`Links` call returns an iterator over the rows of that query, a vertex is added for every
stored link with another id that was retrieved before the pass started. -/
theorem C12_full_scan_below_upper_bound {ω : Type} (W : World ω) (w : ω) (db : DB)
    (linkIt : LinkIterator)
    (hR : (passReset W w).2 = none)
    (hL : (W.Links (passReset W w).1 uuidNil maxUUID (W.Now w).2).2 = .inr linkIt)
    (hItems : linkIt.items =
      (linksIterationQuery db uuidNil maxUUID (W.Now w).2).map
        (fun r => ⟨r.id, r.url, r.retrieved_at⟩)) :
    (∀ r ∈ db.links, r.id ≠ maxUUID → r.retrieved_at < (W.Now w).2 →
      Event.AddVertex (W.uuidString r.id) ∈ (Service.updateGraphScores W w).trace) ∧
    (∀ (t : Time) (r : LinkRow), r ∈ linksIterationQuery db uuidNil maxUUID t ↔
      r ∈ db.links ∧ r.id ≠ maxUUID ∧ r.retrieved_at < t) ∧
    (∀ (t : Time) (e : EdgeRow), e ∈ edgesIterationQuery db uuidNil maxUUID t ↔
      e ∈ db.edges ∧ e.src ≠ maxUUID ∧ e.update_at < t) ∧
    (∀ u : UUID, isRandomUUID u = true → u ≠ maxUUID) := by
  have hnil : ∀ u : UUID, uuidNil ≤ u := fun u => Nat.zero_le _
  have hmax : ∀ u : UUID, u < maxUUID ↔ u ≠ maxUUID := by
    intro u
    constructor
    · intro h heq
      rw [heq] at h
      exact lt_irrefl _ h
    · intro h
      have h1 : u.val < 2 ^ 128 := u.isLt
      have h2 : u.val ≠ 2 ^ 128 - 1 := fun hv => h (Fin.ext hv)
      show u.val < 2 ^ 128 - 1
      omega
  have hq : ∀ (t : Time) (r : LinkRow), r ∈ linksIterationQuery db uuidNil maxUUID t ↔
      r ∈ db.links ∧ r.id ≠ maxUUID ∧ r.retrieved_at < t := by
    intro t r
    simp only [linksIterationQuery, List.mem_filter, decide_eq_true_eq, hnil, true_and, hmax]
  refine ⟨?_, hq, ?_, ?_⟩
  · intro r hr hid ht
    apply updateGraphScores_has_links W w hR
    have := loadLinks_adds_items W (passReset W w).1 uuidNil maxUUID (W.Now w).2 linkIt hL
      ⟨r.id, r.url, r.retrieved_at⟩ (by
        rw [hItems]
        exact List.mem_map.mpr ⟨r, (hq _ r).mpr ⟨hr, hid, ht⟩, rfl⟩)
    exact this
  · intro t e
    simp only [edgesIterationQuery, List.mem_filter, decide_eq_true_eq, hnil, true_and, hmax]
  · intro u hu heq
    rw [heq] at hu
    exact absurd hu (by decide)

open linkpostgre in
/-- Over the store with the links 0 and 1, the pass adds the vertices "a" and "b". -/
theorem C12_witness :
    (passReset (storeWorld smallDB goodStub) []).2 = none ∧
      (⟨⟨1, by decide⟩, "http://b", 20⟩ : LinkRow) ∈ smallDB.links ∧
      Event.AddVertex "b" ∈ (Service.updateGraphScores (storeWorld smallDB goodStub) []).trace :=
  ⟨rfl, by decide,
    (C12_full_scan_below_upper_bound (storeWorld smallDB goodStub) [] smallDB
      (⟨[⟨⟨0, by decide⟩, "http://a", 10⟩, ⟨⟨1, by decide⟩, "http://b", 20⟩], none, none⟩)
      rfl rfl rfl).1 ⟨⟨1, by decide⟩, "http://b", 20⟩ (by decide) (by decide) (by decide)⟩

/-! ### The iterators of the link store -/

open linkpostgre in
/-- A link iterator over rows that all scan: the loop of a client sees every row, in order,
and `Next` never sets `lastErr`, whatever `rows.Err()` would report. -/
theorem linkIterator_drain_ok (fuel : Nat) : ∀ (l : List LinkRow) (it : linkIterator),
    it.rows.pending = l.map .ok → it.lastErr = none →
    (it.drain fuel).1.Error = none ∧ (it.drain fuel).1.rows.err = it.rows.err ∧
      (it.drain fuel).1.rows.closeErr = it.rows.closeErr ∧
      (l.length < fuel →
        (it.drain fuel).1.rows.pending = [] ∧
          (it.drain fuel).2 = l.map (fun r => ⟨r.id, r.url, r.retrieved_at⟩)) := by
  induction fuel with
  | zero =>
    intro l it _ hE
    exact ⟨hE, rfl, rfl, fun h => absurd h (Nat.not_lt_zero _)⟩
  | succ k ih =>
    intro l it hp hE
    cases l with
    | nil =>
      have hp2 : it.rows.pending = [] := hp
      have hd : it.drain (k + 1) = (it, []) := by
        simp only [linkIterator.drain, linkIterator.Next, hp2]
      rw [hd]
      exact ⟨hE, rfl, rfl, fun _ => ⟨hp2, rfl⟩⟩
    | cons r rest =>
      have hp2 : it.rows.pending = .ok r :: rest.map .ok := hp
      simp only [linkIterator.drain, linkIterator.Next, hp2]
      obtain ⟨h1, h2, h3, h4⟩ := ih rest
        { rows := { it.rows with pending := rest.map .ok }, lastErr := none,
          link := some ⟨r.id, r.url, r.retrieved_at⟩ } rfl rfl
      refine ⟨h1, h2, h3, fun hlen => ?_⟩
      obtain ⟨h5, h6⟩ := h4 (by simpa using hlen)
      exact ⟨h5, by simp [linkIterator.Link, h6]⟩

open linkpostgre in
/-- An edge iterator over rows that all scan: the loop of a client sees every row, in order,
and `Next` never sets `lastErr`, whatever `rows.Err()` would report. -/
theorem edgeIterator_drain_ok (fuel : Nat) : ∀ (l : List EdgeRow) (it : edgeIterator),
    it.rows.pending = l.map .ok → it.lastErr = none →
    (it.drain fuel).1.Error = none ∧ (it.drain fuel).1.rows.err = it.rows.err ∧
      (it.drain fuel).1.rows.closeErr = it.rows.closeErr ∧
      (l.length < fuel →
        (it.drain fuel).1.rows.pending = [] ∧
          (it.drain fuel).2 = l.map (fun r => ⟨r.id, r.src, r.dst, r.update_at⟩)) := by
  induction fuel with
  | zero =>
    intro l it _ hE
    exact ⟨hE, rfl, rfl, fun h => absurd h (Nat.not_lt_zero _)⟩
  | succ k ih =>
    intro l it hp hE
    cases l with
    | nil =>
      have hp2 : it.rows.pending = [] := hp
      have hd : it.drain (k + 1) = (it, []) := by
        simp only [edgeIterator.drain, edgeIterator.Next, hp2]
      rw [hd]
      exact ⟨hE, rfl, rfl, fun _ => ⟨hp2, rfl⟩⟩
    | cons r rest =>
      have hp2 : it.rows.pending = .ok r :: rest.map .ok := hp
      simp only [edgeIterator.drain, edgeIterator.Next, hp2]
      obtain ⟨h1, h2, h3, h4⟩ := ih rest
        { rows := { it.rows with pending := rest.map .ok }, lastErr := none,
          edge := some ⟨r.id, r.src, r.dst, r.update_at⟩ } rfl rfl
      refine ⟨h1, h2, h3, fun hlen => ?_⟩
      obtain ⟨h5, h6⟩ := h4 (by simpa using hlen)
      exact ⟨h5, by simp [edgeIterator.Edge, h6]⟩

open linkpostgre in
/-- C13: an error that ends the row stream is not surfaced.  When the stream of a `Links`
or `Edges` query is cut with the error `e` after `n` rows, the iterator yields the rows it
got, `Next` then returns false, `rows.Err()` holds `e`, and yet `Error()` returns nil:
`Next` returns on `!ok` without reading `rows.Err()`. -/
theorem C13_stream_error_is_not_surfaced (db : DB) (n : Nat) (e : DBError)
    (fromID toID : UUID) (before : Time) :
    (∃ it, postgre.Links db (.cut n e) fromID toID before = .ok it ∧
      ∀ fuel, n < fuel →
        ((it.drain fuel).1.Next).2 = false ∧ (it.drain fuel).1.rows.err = some e ∧
          (it.drain fuel).1.Error = none) ∧
    (∃ it, postgre.Edges db (.cut n e) fromID toID before = .ok it ∧
      ∀ fuel, n < fuel →
        ((it.drain fuel).1.Next).2 = false ∧ (it.drain fuel).1.rows.err = some e ∧
          (it.drain fuel).1.Error = none) := by
  constructor
  · refine ⟨_, rfl, fun fuel hf => ?_⟩
    obtain ⟨h1, h2, -, h4⟩ := linkIterator_drain_ok fuel
      ((linksIterationQuery db fromID toID (toTimestamp before)).take n)
      { rows := ⟨((linksIterationQuery db fromID toID (toTimestamp before)).take n).map .ok,
          some e, none⟩,
        link := none, lastErr := none } rfl rfl
    obtain ⟨h5, -⟩ := h4 (lt_of_le_of_lt (List.length_take_le _ _) hf)
    refine ⟨?_, h2, h1⟩
    simp only [linkIterator.Next, h5]
  · refine ⟨_, rfl, fun fuel hf => ?_⟩
    obtain ⟨h1, h2, -, h4⟩ := edgeIterator_drain_ok fuel
      ((edgesIterationQuery db fromID toID (toTimestamp before)).take n)
      { rows := ⟨((edgesIterationQuery db fromID toID (toTimestamp before)).take n).map .ok,
          some e, none⟩,
        edge := none, lastErr := none } rfl rfl
    obtain ⟨h5, -⟩ := h4 (lt_of_le_of_lt (List.length_take_le _ _) hf)
    refine ⟨?_, h2, h1⟩
    simp only [edgeIterator.Next, h5]

open linkpostgre in
/-- A client whose loop has ended makes no further step. -/
theorem linkClient_step_done (k : Nat) (c : linkClient) (hd : c.done = true) :
    linkClient.step^[k] c = c := by
  induction k with
  | zero => rfl
  | succ n ih =>
    rw [Function.iterate_succ_apply]
    have hs : c.step = c := by simp only [linkClient.step, hd, if_true]
    rw [hs, ih]

open linkpostgre in
/-- A client of a link iterator over rows that all scan: once it has had more turns than
there are rows, its loop has ended and it has seen every row, in order. -/
theorem linkClient_run_ok : ∀ (l : List LinkRow) (k : Nat) (c : linkClient),
    c.done = false → c.it.rows.pending = l.map .ok → l.length < k →
    (linkClient.step^[k] c).done = true ∧
      (linkClient.step^[k] c).seen =
        c.seen ++ l.map (fun r => (⟨r.id, r.url, r.retrieved_at⟩ : Link)) := by
  intro l
  induction l with
  | nil =>
    intro k c hd hp hk
    obtain ⟨n, rfl⟩ : ∃ n, k = n + 1 := ⟨k - 1, by simp at hk; omega⟩
    rw [Function.iterate_succ_apply]
    have hp2 : c.it.rows.pending = [] := hp
    have hs : c.step = ⟨c.it, true, c.seen⟩ := by
      simp only [linkClient.step, hd, Bool.false_eq_true, if_false, linkIterator.Next, hp2]
    rw [hs, linkClient_step_done n _ rfl]
    simp
  | cons r rest ih =>
    intro k c hd hp hk
    obtain ⟨n, rfl⟩ : ∃ n, k = n + 1 := ⟨k - 1, by simp at hk; omega⟩
    rw [Function.iterate_succ_apply]
    have hp2 : c.it.rows.pending = .ok r :: rest.map .ok := hp
    have hs : c.step =
        ⟨{ rows := { c.it.rows with pending := rest.map .ok }, lastErr := none,
           link := some ⟨r.id, r.url, r.retrieved_at⟩ }, false,
          c.seen ++ [⟨r.id, r.url, r.retrieved_at⟩]⟩ := by
      simp only [linkClient.step, hd, Bool.false_eq_true, if_false, linkIterator.Next, hp2,
        linkIterator.Link]
    rw [hs]
    have hlen : rest.length < n := by simp at hk; omega
    obtain ⟨h1, h2⟩ := ih n
      ⟨{ rows := { c.it.rows with pending := rest.map .ok }, lastErr := none,
         link := some ⟨r.id, r.url, r.retrieved_at⟩ }, false,
        c.seen ++ [⟨r.id, r.url, r.retrieved_at⟩]⟩ rfl rfl hlen
    refine ⟨h1, ?_⟩
    rw [h2]
    simp

open linkpostgre in
/-- Two clients on their own iterators do not disturb each other: after any schedule, each
is where its own turns alone have brought it. -/
theorem interleave_eq : ∀ (sched : List Bool) (a b : linkClient),
    interleave sched (a, b) =
      (linkClient.step^[sched.count true] a, linkClient.step^[sched.count false] b) := by
  intro sched
  induction sched with
  | nil => intro a b; rfl
  | cons x rest ih =>
    intro a b
    cases x with
    | true =>
      rw [interleave, ih]
      simp [Function.iterate_succ_apply]
    | false =>
      rw [interleave, ih]
      simp [Function.iterate_succ_apply]

open linkpostgre in
/-- C14, counterexample: the link "http://b" is stored with `retrieved_at` 20 microseconds
after the epoch and its id lies in the range, and `accessBefore` is 300 nanoseconds later:
`retrieved_at < accessBefore`, and yet the iterator yields the link "http://a" alone.  The
query compares with the `TIMESTAMP` of `accessBefore`, which is the instant of the link. -/
theorem C14_counterexample :
    (⟨⟨1, by decide⟩, "http://b", 20000⟩ : LinkRow) ∈ stampedDB.links ∧
      (⟨0, by decide⟩ : UUID) ≤ ⟨1, by decide⟩ ∧ (⟨1, by decide⟩ : UUID) < ⟨2, by decide⟩ ∧
      (20000 : Time) < 20300 ∧
      ∃ it, postgre.Links stampedDB .healthy ⟨0, by decide⟩ ⟨2, by decide⟩ 20300 = .ok it ∧
        (it.drain 5).2 = [⟨⟨0, by decide⟩, "http://a", 10000⟩] ∧
        ((it.drain 5).1.Next).2 = false ∧ (it.drain 5).1.Error = none :=
  ⟨by decide, by decide, by decide, by decide, _, rfl, rfl, rfl, rfl⟩

open linkpostgre in
/-- C14, amended: `Links(fromID, toID, accessBefore)` yields exactly the stored links with
`fromID <= id < toID` and `retrieved_at` earlier than `accessBefore` as a `TIMESTAMP`, that
is, cut to the microsecond.  Over a healthy connection, the client loop run to the end of
the iterator sees a link exactly when it is stored and lies in that range, no link twice
(the ids are a primary key), and `Error()` is nil; for an `accessBefore` with nothing below
the microsecond these are the links with `retrieved_at < accessBefore`.  A second iterator,
from its own call of `Links` over the same store, run at the same time in any interleaving
of the two loops, sees the links of its own query and leaves the first with the links of
the first: the same links when the two times are the same `TIMESTAMP`. -/
theorem C14_links_yields_exactly_the_range (db : DB) (fromID toID : UUID) (before : Time)
    (hpk : (db.links.map (·.id)).Nodup) :
    ∃ it, postgre.Links db .healthy fromID toID before = .ok it ∧
      (∀ fuel, (linksIterationQuery db fromID toID (toTimestamp before)).length < fuel →
        (it.drain fuel).1.Error = none ∧ ((it.drain fuel).1.Next).2 = false ∧
        (∀ l : Link, l ∈ (it.drain fuel).2 ↔
          (⟨l.ID, l.URL, l.RetrievedAt⟩ : LinkRow) ∈ db.links ∧
            fromID ≤ l.ID ∧ l.ID < toID ∧ l.RetrievedAt < toTimestamp before) ∧
        (toTimestamp before = before → ∀ l : Link, l ∈ (it.drain fuel).2 ↔
          (⟨l.ID, l.URL, l.RetrievedAt⟩ : LinkRow) ∈ db.links ∧
            fromID ≤ l.ID ∧ l.ID < toID ∧ l.RetrievedAt < before) ∧
        ((it.drain fuel).2.map (·.ID)).Nodup ∧
        (it.drain fuel).2 = (linksIterationQuery db fromID toID (toTimestamp before)).map
          (fun r => ⟨r.id, r.url, r.retrieved_at⟩)) ∧
      ∀ (before2 : Time) (sched : List Bool),
        ∃ it2, postgre.Links db .healthy fromID toID before2 = .ok it2 ∧
          ((linksIterationQuery db fromID toID (toTimestamp before)).length <
              sched.count true →
            (linksIterationQuery db fromID toID (toTimestamp before2)).length <
              sched.count false →
            (interleave sched (⟨it, false, []⟩, ⟨it2, false, []⟩)).1.done = true ∧
            (interleave sched (⟨it, false, []⟩, ⟨it2, false, []⟩)).2.done = true ∧
            (interleave sched (⟨it, false, []⟩, ⟨it2, false, []⟩)).1.seen =
              (linksIterationQuery db fromID toID (toTimestamp before)).map
                (fun r => ⟨r.id, r.url, r.retrieved_at⟩) ∧
            (interleave sched (⟨it, false, []⟩, ⟨it2, false, []⟩)).2.seen =
              (linksIterationQuery db fromID toID (toTimestamp before2)).map
                (fun r => ⟨r.id, r.url, r.retrieved_at⟩) ∧
            (toTimestamp before2 = toTimestamp before →
              (interleave sched (⟨it, false, []⟩, ⟨it2, false, []⟩)).2.seen =
                (interleave sched (⟨it, false, []⟩, ⟨it2, false, []⟩)).1.seen)) := by
  have key : ∀ fuel, (linksIterationQuery db fromID toID (toTimestamp before)).length < fuel →
      ((⟨⟨(linksIterationQuery db fromID toID (toTimestamp before)).map .ok, none, none⟩,
          none, none⟩ : linkIterator).drain fuel).1.Error = none ∧
        ((⟨⟨(linksIterationQuery db fromID toID (toTimestamp before)).map .ok, none, none⟩,
          none, none⟩ : linkIterator).drain fuel).1.rows.pending = [] ∧
        ((⟨⟨(linksIterationQuery db fromID toID (toTimestamp before)).map .ok, none, none⟩,
          none, none⟩ : linkIterator).drain fuel).2 =
          (linksIterationQuery db fromID toID (toTimestamp before)).map
            (fun r => ⟨r.id, r.url, r.retrieved_at⟩) := by
    intro fuel hf
    obtain ⟨h1, -, -, h4⟩ := linkIterator_drain_ok fuel
      (linksIterationQuery db fromID toID (toTimestamp before))
      ⟨⟨(linksIterationQuery db fromID toID (toTimestamp before)).map .ok, none, none⟩,
        none, none⟩ rfl rfl
    exact ⟨h1, (h4 hf).1, (h4 hf).2⟩
  have hmem : ∀ (t : Time) (l : Link),
      l ∈ (linksIterationQuery db fromID toID t).map
          (fun r => (⟨r.id, r.url, r.retrieved_at⟩ : Link)) ↔
        (⟨l.ID, l.URL, l.RetrievedAt⟩ : LinkRow) ∈ db.links ∧
          fromID ≤ l.ID ∧ l.ID < toID ∧ l.RetrievedAt < t := by
    intro t l
    simp only [List.mem_map, linksIterationQuery, List.mem_filter, decide_eq_true_eq]
    constructor
    · rintro ⟨r, ⟨hr, hrange⟩, rfl⟩
      exact ⟨hr, hrange⟩
    · rintro ⟨hr, hrange⟩
      exact ⟨⟨l.ID, l.URL, l.RetrievedAt⟩, ⟨hr, hrange⟩, rfl⟩
  refine ⟨_, rfl, fun fuel hf => ?_, fun before2 sched => ⟨_, rfl, fun hA hB => ?_⟩⟩
  · obtain ⟨h1, h2, h3⟩ := key fuel hf
    refine ⟨h1, by simp only [linkIterator.Next, h2], ?_, ?_, ?_, h3⟩
    · intro l
      rw [h3]
      exact hmem _ l
    · intro hb l
      rw [h3, hmem, hb]
    · rw [h3, List.map_map]
      have hsub : ((linksIterationQuery db fromID toID (toTimestamp before)).map
          (·.id)).Sublist (db.links.map (·.id)) :=
        List.Sublist.map _ (List.filter_sublist _)
      exact hpk.sublist hsub
  · rw [interleave_eq]
    obtain ⟨a1, a2⟩ := linkClient_run_ok
      (linksIterationQuery db fromID toID (toTimestamp before)) (sched.count true)
      ⟨⟨⟨(linksIterationQuery db fromID toID (toTimestamp before)).map .ok, none, none⟩,
        none, none⟩, false, []⟩ rfl rfl hA
    obtain ⟨b1, b2⟩ := linkClient_run_ok
      (linksIterationQuery db fromID toID (toTimestamp before2)) (sched.count false)
      ⟨⟨⟨(linksIterationQuery db fromID toID (toTimestamp before2)).map .ok, none, none⟩,
        none, none⟩, false, []⟩ rfl rfl hB
    rw [List.nil_append] at a2 b2
    refine ⟨a1, b1, a2, b2, fun heq => ?_⟩
    show (linkClient.step^[sched.count false] _).seen = (linkClient.step^[sched.count true] _).seen
    rw [a2, b2, heq]

open linkpostgre in
/-- The two links of the store, asked for with the range [0, 1) and a time after both: only
the link 0, also for a second iterator that runs between the turns of the first. -/
theorem C14_witness :
    (stampedDB.links.map (·.id)).Nodup ∧
      ∃ it, postgre.Links stampedDB .healthy ⟨0, by decide⟩ ⟨1, by decide⟩ 1000000 = .ok it ∧
        (it.drain 5).1.Error = none ∧
        ((it.drain 5).2.map (·.ID)).Nodup ∧
        (it.drain 5).2 = [⟨⟨0, by decide⟩, "http://a", 10000⟩] ∧
        ∃ it2, postgre.Links stampedDB .healthy ⟨0, by decide⟩ ⟨1, by decide⟩ 2000000
            = .ok it2 ∧
          (interleave [true, false, false, true] (⟨it, false, []⟩, ⟨it2, false, []⟩)).2.seen =
            [⟨⟨0, by decide⟩, "http://a", 10000⟩] :=
  ⟨by decide,
    (C14_links_yields_exactly_the_range stampedDB ⟨0, by decide⟩ ⟨1, by decide⟩ 1000000
      (by decide)).imp (fun it h =>
        ⟨h.1, (h.2.1 5 (by decide)).1, (h.2.1 5 (by decide)).2.2.2.2.1,
          (h.2.1 5 (by decide)).2.2.2.2.2.trans rfl,
          (h.2.2 2000000 [true, false, false, true]).imp (fun it2 h2 =>
            ⟨h2.1, (h2.2 (by decide) (by decide)).2.2.2.1.trans rfl⟩)⟩)⟩

/-! ### Upserts of the link store -/

/-- In a list without two rows of the same key, the first row with the key of a member is
that member. -/
theorem find?_of_nodup_key {α κ : Type} (k : α → κ) (p : α → Bool) (r0 : α) :
    ∀ l : List α, (l.map k).Nodup → r0 ∈ l → (∀ r, p r = true ↔ k r = k r0) →
      l.find? p = some r0 := by
  intro l
  induction l with
  | nil => intro _ h; simp at h
  | cons x xs ih =>
    intro hnd hmem hp
    rw [List.map_cons, List.nodup_cons] at hnd
    by_cases hx : p x = true
    · have hk : k x = k r0 := (hp x).mp hx
      have : r0 = x := by
        rcases List.mem_cons.mp hmem with h | h
        · exact h
        · exact absurd (hk ▸ List.mem_map_of_mem k h) hnd.1
      rw [List.find?_cons_of_pos _ hx, this]
    · have hne : r0 ≠ x := fun h => hx ((hp x).mpr (by rw [h]))
      have hmem2 : r0 ∈ xs := by
        rcases List.mem_cons.mp hmem with h | h
        · exact absurd h hne
        · exact h
      rw [List.find?_cons_of_neg _ hx]
      exact ih hnd.2 hmem2 hp

/-- In a list without two rows of the same key, the rows with the key of a member are that
member alone. -/
theorem filter_of_nodup_key {α κ : Type} (k : α → κ) (p : α → Bool) (r0 : α) :
    ∀ l : List α, (l.map k).Nodup → r0 ∈ l → (∀ r, p r = true ↔ k r = k r0) →
      l.filter p = [r0] := by
  intro l
  induction l with
  | nil => intro _ h; simp at h
  | cons x xs ih =>
    intro hnd hmem hp
    rw [List.map_cons, List.nodup_cons] at hnd
    by_cases hx : p x = true
    · have hk : k x = k r0 := (hp x).mp hx
      have hr : r0 = x := by
        rcases List.mem_cons.mp hmem with h | h
        · exact h
        · exact absurd (hk ▸ List.mem_map_of_mem k h) hnd.1
      have hnone : xs.filter p = [] := by
        rw [List.filter_eq_nil_iff]
        intro y hy hpy
        exact hnd.1 (((hp y).mp hpy).trans hk.symm ▸ List.mem_map_of_mem k hy)
      rw [List.filter_cons_of_pos hx, hnone, hr]
    · have hne : r0 ≠ x := fun h => hx ((hp x).mpr (by rw [h]))
      have hmem2 : r0 ∈ xs := by
        rcases List.mem_cons.mp hmem with h | h
        · exact absurd h hne
        · exact h
      rw [List.filter_cons_of_neg hx]
      exact ih hnd.2 hmem2 hp

open linkpostgre in
/-- The link upsert on a URL that is stored: the row keeps its id and gets the later of the
two times; nothing else changes. -/
theorem linkUpsertQuery_existing (db : DB) (gen : UUID) (url : String) (t : Time)
    (r0 : LinkRow) (hurl : (db.links.map (·.url)).Nodup) (hr0 : r0 ∈ db.links)
    (hu : r0.url = url) :
    linkUpsertQuery db gen url t =
      .ok ({ db with links := db.links.map (fun x =>
              if x.url = url then { x with retrieved_at := max x.retrieved_at t } else x) },
          (r0.id, max r0.retrieved_at t)) := by
  have hfind : db.links.find? (fun r => decide (r.url = url)) = some r0 :=
    find?_of_nodup_key (·.url) _ r0 db.links hurl hr0 (by intro r; simp [hu])
  simp only [linkUpsertQuery, hfind]

open linkpostgre in
/-- The link upsert on a URL that is not stored, with a fresh draw: one row is added. -/
theorem linkUpsertQuery_new (db : DB) (gen : UUID) (url : String) (t : Time)
    (habs : ∀ r ∈ db.links, r.url ≠ url) (hfresh : ∀ r ∈ db.links, r.id ≠ gen) :
    linkUpsertQuery db gen url t =
      .ok ({ db with links := db.links ++ [⟨gen, url, t⟩] }, (gen, t)) := by
  have hfind : db.links.find? (fun r => decide (r.url = url)) = none := by
    rw [List.find?_eq_none]
    intro r hr
    simpa using habs r hr
  have hany : db.links.any (fun r => decide (r.id = gen)) = false := by
    rw [List.any_eq_false]
    intro r hr
    simpa using hfresh r hr
  simp only [linkUpsertQuery, hfind, hany, Bool.false_eq_true, if_false]

open linkpostgre in
theorem smallDB_wellFormed : smallDB.wellFormed := by
  refine ⟨by decide, by decide, by decide, by decide, ?_⟩
  intro e he
  have he2 : e = ⟨⟨7, by decide⟩, ⟨0, by decide⟩, ⟨1, by decide⟩, 30⟩ := by
    simpa [smallDB] using he
  subst he2
  exact ⟨⟨⟨⟨0, by decide⟩, "http://a", 10⟩, by decide, rfl⟩,
    ⟨⟨⟨1, by decide⟩, "http://b", 20⟩, by decide, rfl⟩⟩

/-- A time as a `TIMESTAMP` is not later than the time. -/
theorem toTimestamp_le (t : Int) : toTimestamp t ≤ t := by
  show (t / 1000 * 1000 : Int) ≤ t
  omega

/-- A `TIMESTAMP` that is not later than a time is not later than that time as a
`TIMESTAMP`. -/
theorem le_toTimestamp (s t : Int) (hs : toTimestamp s = s) (h : s ≤ t) :
    s ≤ toTimestamp t := by
  have hs2 : (s / 1000 * 1000 : Int) = s := hs
  show s ≤ (t / 1000 * 1000 : Int)
  omega

open linkpostgre in
/-- C15, counterexample: the link "http://a" is stored with the time 10 microseconds after
the epoch.  An upsert of its URL with a time 300 nanoseconds after the 50th microsecond
stores, writes back and lets `LookupLink` return the 50th microsecond, which is not the
later of the two times; and an upsert with a time 300 nanoseconds after the stored one,
which is newer, leaves the stored time as it is. -/
theorem C15_counterexample :
    (⟨⟨0, by decide⟩, "http://a", 10000⟩ : LinkRow) ∈ stampedDB.links ∧
      (postgre.UpsertLink stampedDB none ⟨9, by decide⟩ ⟨uuidNil, "http://a", 50300⟩).2.2
        = none ∧
      (postgre.UpsertLink stampedDB none ⟨9, by decide⟩
        ⟨uuidNil, "http://a", 50300⟩).2.1.RetrievedAt = 50000 ∧
      postgre.LookupLink
          (postgre.UpsertLink stampedDB none ⟨9, by decide⟩ ⟨uuidNil, "http://a", 50300⟩).1
          none ⟨0, by decide⟩ = .ok ⟨⟨0, by decide⟩, "http://a", 50000⟩ ∧
      max (10000 : Time) 50300 = 50300 ∧
      postgre.LookupLink
          (postgre.UpsertLink stampedDB none ⟨9, by decide⟩ ⟨uuidNil, "http://a", 10300⟩).1
          none ⟨0, by decide⟩ = .ok ⟨⟨0, by decide⟩, "http://a", 10000⟩ ∧
      max (10000 : Time) 10300 = 10300 := by
  refine ⟨by decide, rfl, rfl, rfl, by decide, rfl, by decide⟩

open linkpostgre in
/-- The store with the two stamped links meets the constraints of its tables. -/
theorem stampedDB_wellFormed : stampedDB.wellFormed := by
  refine ⟨by decide, by decide, by decide, by decide, ?_⟩
  intro e he
  simp [stampedDB] at he

open linkpostgre in
/-- C15, amended: `UpsertLink` never moves a link's retrieval time backwards.  For a stored
link with the time `t_old` and an upsert of its URL with the time `t_new`, the call
succeeds, and the time written back into `link.RetrievedAt` and the time `LookupLink` then
returns are both the later of `t_old` and `t_new` as a `TIMESTAMP` (cut to the microsecond).
That time is never earlier than `t_old`; an older `t_new` leaves the stored value as it is;
a newer one replaces it, a stored value being a `TIMESTAMP`, by `t_new` as a `TIMESTAMP`;
and for a `t_new` with nothing below the microsecond it is `max(t_old, t_new)`. -/
theorem C15_upsert_link_keeps_latest_time (db : DB) (gen : UUID) (link : Link) (r0 : LinkRow)
    (hwf : db.wellFormed) (hr0 : r0 ∈ db.links) (hu : r0.url = link.URL) :
    (postgre.UpsertLink db none gen link).2.2 = none ∧
      (postgre.UpsertLink db none gen link).2.1.RetrievedAt =
        max r0.retrieved_at (toTimestamp link.RetrievedAt) ∧
      postgre.LookupLink (postgre.UpsertLink db none gen link).1 none r0.id =
        .ok ⟨r0.id, r0.url, max r0.retrieved_at (toTimestamp link.RetrievedAt)⟩ ∧
      r0.retrieved_at ≤ max r0.retrieved_at (toTimestamp link.RetrievedAt) ∧
      (link.RetrievedAt ≤ r0.retrieved_at →
        max r0.retrieved_at (toTimestamp link.RetrievedAt) = r0.retrieved_at) ∧
      (toTimestamp r0.retrieved_at = r0.retrieved_at → r0.retrieved_at ≤ link.RetrievedAt →
        max r0.retrieved_at (toTimestamp link.RetrievedAt) = toTimestamp link.RetrievedAt) ∧
      (toTimestamp link.RetrievedAt = link.RetrievedAt →
        max r0.retrieved_at (toTimestamp link.RetrievedAt) =
          max r0.retrieved_at link.RetrievedAt) := by
  obtain ⟨hid, hurl, -⟩ := hwf
  have hq := linkUpsertQuery_existing db gen link.URL (toTimestamp link.RetrievedAt) r0
    hurl hr0 hu
  have hup : postgre.UpsertLink db none gen link =
      ({ db with links := db.links.map (fun x =>
            if x.url = link.URL then
              { x with retrieved_at := max x.retrieved_at (toTimestamp link.RetrievedAt) }
            else x) },
        { link with ID := r0.id,
                    RetrievedAt := max r0.retrieved_at (toTimestamp link.RetrievedAt) },
        none) := by
    simp only [postgre.UpsertLink, QueryRowx, hq]
  rw [hup]
  refine ⟨rfl, rfl, ?_, le_max_left _ _, fun h => ?_, fun hg h => ?_, fun h => by rw [h]⟩
  · have hfilter : db.links.filter (fun r => decide (r.id = r0.id)) = [r0] :=
      filter_of_nodup_key (·.id) _ r0 db.links hid hr0 (by intro r; simp)
    have hlook : lookupLinkQuery
        { db with links := db.links.map (fun x =>
            if x.url = link.URL then
              { x with retrieved_at := max x.retrieved_at (toTimestamp link.RetrievedAt) }
            else x) } r0.id =
        [⟨r0.id, r0.url, max r0.retrieved_at (toTimestamp link.RetrievedAt)⟩] := by
      simp only [lookupLinkQuery, List.filter_map]
      have hcomp : ((fun r : LinkRow => decide (r.id = r0.id)) ∘ fun x : LinkRow =>
          if x.url = link.URL then
            { x with retrieved_at := max x.retrieved_at (toTimestamp link.RetrievedAt) }
          else x) =
          fun r => decide (r.id = r0.id) := by
        funext x
        simp only [Function.comp]
        split <;> rfl
      rw [hcomp, hfilter]
      simp [hu]
    simp only [postgre.LookupLink, QueryRowx, hlook]
  · exact max_eq_left (le_trans (toTimestamp_le _) h)
  · exact max_eq_right (le_toTimestamp _ _ hg h)

open linkpostgre in
/-- The link "http://a" was retrieved at the 10th microsecond: an upsert with the older
time of the 5th microsecond leaves it, an upsert with a time 300 nanoseconds after the 50th
microsecond stores the 50th microsecond. -/
theorem C15_witness :
    stampedDB.wellFormed ∧
      (⟨⟨0, by decide⟩, "http://a", 10000⟩ : LinkRow) ∈ stampedDB.links ∧
      postgre.LookupLink
          (postgre.UpsertLink stampedDB none ⟨9, by decide⟩ ⟨uuidNil, "http://a", 5000⟩).1
          none ⟨0, by decide⟩ = .ok ⟨⟨0, by decide⟩, "http://a", 10000⟩ ∧
      postgre.LookupLink
          (postgre.UpsertLink stampedDB none ⟨9, by decide⟩ ⟨uuidNil, "http://a", 50300⟩).1
          none ⟨0, by decide⟩ = .ok ⟨⟨0, by decide⟩, "http://a", 50000⟩ :=
  ⟨stampedDB_wellFormed, by decide,
    (C15_upsert_link_keeps_latest_time stampedDB ⟨9, by decide⟩ ⟨uuidNil, "http://a", 5000⟩
      ⟨⟨0, by decide⟩, "http://a", 10000⟩ stampedDB_wellFormed (by decide) rfl).2.2.1,
    (C15_upsert_link_keeps_latest_time stampedDB ⟨9, by decide⟩ ⟨uuidNil, "http://a", 50300⟩
      ⟨⟨0, by decide⟩, "http://a", 10000⟩ stampedDB_wellFormed (by decide) rfl).2.2.1⟩

open linkpostgre in
/-- C16: the identity of `UpsertLink` is keyed by URL.  For a URL that is stored, the call
(whatever `link.ID` was) succeeds, sets `link.ID` to the id of the stored record, and leaves
the table with the same ids and exactly one record of that URL.  For a URL that is not
stored (and a fresh draw of `gen_random_uuid()`), it adds exactly one record and sets
`link.ID` to its id, which is not `uuid.Nil`. -/
theorem C16_upsert_link_is_keyed_by_url (db : DB) (gen : UUID) (link : Link)
    (hwf : db.wellFormed) (hgen : isRandomUUID gen = true)
    (hfresh : ∀ r ∈ db.links, r.id ≠ gen) :
    (∀ r0 ∈ db.links, r0.url = link.URL →
      (postgre.UpsertLink db none gen link).2.2 = none ∧
        (postgre.UpsertLink db none gen link).2.1.ID = r0.id ∧
        (postgre.UpsertLink db none gen link).1.links.map (·.id) = db.links.map (·.id) ∧
        ((postgre.UpsertLink db none gen link).1.links.filter
          (fun r => r.url = link.URL)).length = 1) ∧
    ((∀ r ∈ db.links, r.url ≠ link.URL) →
      (postgre.UpsertLink db none gen link).2.2 = none ∧
        (postgre.UpsertLink db none gen link).2.1.ID = gen ∧
        (postgre.UpsertLink db none gen link).2.1.ID ≠ uuidNil ∧
        (postgre.UpsertLink db none gen link).1.links =
          db.links ++ [⟨gen, link.URL, toTimestamp link.RetrievedAt⟩]) := by
  obtain ⟨hid, hurl, -⟩ := hwf
  constructor
  · intro r0 hr0 hu
    have hq := linkUpsertQuery_existing db gen link.URL (toTimestamp link.RetrievedAt) r0
      hurl hr0 hu
    have hup : postgre.UpsertLink db none gen link =
        ({ db with links := db.links.map (fun x =>
              if x.url = link.URL then
                { x with retrieved_at := max x.retrieved_at (toTimestamp link.RetrievedAt) }
              else x) },
          { link with ID := r0.id,
                      RetrievedAt := max r0.retrieved_at (toTimestamp link.RetrievedAt) },
          none) := by
      simp only [postgre.UpsertLink, QueryRowx, hq]
    rw [hup]
    refine ⟨rfl, rfl, ?_, ?_⟩
    · simp only [List.map_map]
      apply List.map_congr_left
      intro x _
      simp only [Function.comp]
      split <;> rfl
    · simp only [List.filter_map]
      have hcomp : ((fun r : LinkRow => decide (r.url = link.URL)) ∘ fun x : LinkRow =>
          if x.url = link.URL then
            { x with retrieved_at := max x.retrieved_at (toTimestamp link.RetrievedAt) }
          else x) =
          fun r => decide (r.url = link.URL) := by
        funext x
        simp only [Function.comp]
        split <;> rfl
      have hfilter : db.links.filter (fun r => decide (r.url = link.URL)) = [r0] :=
        filter_of_nodup_key (·.url) _ r0 db.links hurl hr0 (by intro r; simp [hu])
      rw [hcomp, hfilter]
      rfl
  · intro habs
    have hq := linkUpsertQuery_new db gen link.URL (toTimestamp link.RetrievedAt) habs hfresh
    have hup : postgre.UpsertLink db none gen link =
        ({ db with links := db.links ++ [⟨gen, link.URL, toTimestamp link.RetrievedAt⟩] },
          { link with ID := gen, RetrievedAt := toTimestamp link.RetrievedAt }, none) := by
      simp only [postgre.UpsertLink, QueryRowx, hq]
    rw [hup]
    refine ⟨rfl, rfl, ?_, rfl⟩
    intro h
    have h2 : gen = uuidNil := h
    rw [h2] at hgen
    exact absurd hgen (by decide)

open linkpostgre in
/-- In the small store, an upsert of "http://b" under another id gets the stored id 1, and an
upsert of the new URL "http://c" is stored under the drawn id. -/
theorem C16_witness :
    smallDB.wellFormed ∧ isRandomUUID randomNine = true ∧
      (postgre.UpsertLink smallDB none randomNine ⟨⟨5, by decide⟩, "http://b", 1⟩).2.1.ID
        = ⟨1, by decide⟩ ∧
      (postgre.UpsertLink smallDB none randomNine ⟨uuidNil, "http://c", 1⟩).2.1.ID
        = randomNine :=
  have hfresh : ∀ r ∈ smallDB.links, r.id ≠ randomNine := by decide
  ⟨smallDB_wellFormed, by decide,
    ((C16_upsert_link_is_keyed_by_url smallDB randomNine ⟨⟨5, by decide⟩, "http://b", 1⟩
      smallDB_wellFormed (by decide) hfresh).1 ⟨⟨1, by decide⟩, "http://b", 20⟩
      (by decide) rfl).2.1,
    ((C16_upsert_link_is_keyed_by_url smallDB randomNine ⟨uuidNil, "http://c", 1⟩
      smallDB_wellFormed (by decide) hfresh).2 (by decide)).2.1⟩

open linkpostgre in
/-- `UpsertEdge` on a pair that is stored: the row keeps its id and gets the time of the
statement; nothing else changes. -/
theorem UpsertEdge_existing (db : DB) (gen : UUID) (now : Time) (edge : Edge) (r0 : EdgeRow)
    (hpair : (db.edges.map (fun e => (e.src, e.dst))).Nodup) (hr0 : r0 ∈ db.edges)
    (hs : r0.src = edge.Src) (hd : r0.dst = edge.Dst) :
    postgre.UpsertEdge db none gen now edge =
      ({ db with edges := db.edges.map (fun x =>
            if x.src = edge.Src ∧ x.dst = edge.Dst then { x with update_at := now } else x) },
        { edge with ID := r0.id, UpdateAt := now }, none) := by
  have hfind : db.edges.find? (fun r => decide (r.src = edge.Src ∧ r.dst = edge.Dst))
      = some r0 :=
    find?_of_nodup_key (fun e => (e.src, e.dst)) _ r0 db.edges hpair hr0 (by
      intro r
      simp only [decide_eq_true_eq, Prod.mk.injEq, hs, hd])
  simp only [postgre.UpsertEdge, QueryRowx, edgeUpsertQuery, hfind]

open linkpostgre in
/-- `UpsertEdge` on a pair that is not stored, between two stored links and with a fresh
draw: one row is added. -/
theorem UpsertEdge_new (db : DB) (gen : UUID) (now : Time) (edge : Edge)
    (habs : ∀ r ∈ db.edges, ¬ (r.src = edge.Src ∧ r.dst = edge.Dst))
    (hfresh : ∀ r ∈ db.edges, r.id ≠ gen)
    (hsrc : ∃ l ∈ db.links, l.id = edge.Src) (hdst : ∃ l ∈ db.links, l.id = edge.Dst) :
    postgre.UpsertEdge db none gen now edge =
      ({ db with edges := db.edges ++ [⟨gen, edge.Src, edge.Dst, now⟩] },
        { edge with ID := gen, UpdateAt := now }, none) := by
  have hfind : db.edges.find? (fun r => decide (r.src = edge.Src ∧ r.dst = edge.Dst))
      = none := by
    rw [List.find?_eq_none]
    intro r hr
    simpa using habs r hr
  have hany : db.edges.any (fun r => decide (r.id = gen)) = false := by
    rw [List.any_eq_false]
    intro r hr
    simpa using hfresh r hr
  have hs : db.links.any (fun l => decide (l.id = edge.Src)) = true := by
    obtain ⟨l, hl, he⟩ := hsrc
    exact List.any_eq_true.mpr ⟨l, hl, by simpa using he⟩
  have hd : db.links.any (fun l => decide (l.id = edge.Dst)) = true := by
    obtain ⟨l, hl, he⟩ := hdst
    exact List.any_eq_true.mpr ⟨l, hl, by simpa using he⟩
  simp only [postgre.UpsertEdge, QueryRowx, edgeUpsertQuery, hfind, hany, hs, hd,
    Bool.false_eq_true, if_false, and_self, not_true_eq_false]

open linkpostgre in
/-- C17: edges have set semantics.  For a pair of stored links, two calls of `UpsertEdge`
with that pair (whatever id the second argument carries) both succeed; afterwards there is
exactly one edge record for the pair, the second call returns the edge id of the first, and
all it changes in the store is the `update_at` of that record, set to the time of the
second statement. -/
theorem C17_upsert_edge_twice_keeps_one_edge (db : DB) (gen1 gen2 : UUID) (now1 now2 : Time)
    (edge1 edge2 : Edge) (hwf : db.wellFormed)
    (hsrc : ∃ l ∈ db.links, l.id = edge1.Src) (hdst : ∃ l ∈ db.links, l.id = edge1.Dst)
    (hS : edge2.Src = edge1.Src) (hD : edge2.Dst = edge1.Dst)
    (hfresh : ∀ r ∈ db.edges, r.id ≠ gen1) :
    (postgre.UpsertEdge db none gen1 now1 edge1).2.2 = none ∧
      (postgre.UpsertEdge (postgre.UpsertEdge db none gen1 now1 edge1).1 none gen2 now2
        edge2).2.2 = none ∧
      (postgre.UpsertEdge (postgre.UpsertEdge db none gen1 now1 edge1).1 none gen2 now2
        edge2).2.1.ID = (postgre.UpsertEdge db none gen1 now1 edge1).2.1.ID ∧
      (postgre.UpsertEdge (postgre.UpsertEdge db none gen1 now1 edge1).1 none gen2 now2
        edge2).2.1.UpdateAt = now2 ∧
      ((postgre.UpsertEdge (postgre.UpsertEdge db none gen1 now1 edge1).1 none gen2 now2
        edge2).1.edges.filter (fun r => r.src = edge1.Src ∧ r.dst = edge1.Dst)).length = 1 ∧
      (postgre.UpsertEdge (postgre.UpsertEdge db none gen1 now1 edge1).1 none gen2 now2
        edge2).1 =
        { (postgre.UpsertEdge db none gen1 now1 edge1).1 with
          edges := (postgre.UpsertEdge db none gen1 now1 edge1).1.edges.map (fun x =>
            if x.src = edge1.Src ∧ x.dst = edge1.Dst then { x with update_at := now2 }
            else x) } := by
  obtain ⟨-, -, -, hpair, -⟩ := hwf
  -- after the first call a record of the pair is stored, under the id the call returned
  have hfirst : ∃ r1 : EdgeRow,
      (postgre.UpsertEdge db none gen1 now1 edge1).2.2 = none ∧
      r1 ∈ (postgre.UpsertEdge db none gen1 now1 edge1).1.edges ∧
      r1.src = edge1.Src ∧ r1.dst = edge1.Dst ∧
      r1.id = (postgre.UpsertEdge db none gen1 now1 edge1).2.1.ID ∧
      ((postgre.UpsertEdge db none gen1 now1 edge1).1.edges.map
        (fun e => (e.src, e.dst))).Nodup := by
    by_cases hex : ∃ r0 ∈ db.edges, r0.src = edge1.Src ∧ r0.dst = edge1.Dst
    · obtain ⟨r0, hr0, hs, hd⟩ := hex
      rw [UpsertEdge_existing db gen1 now1 edge1 r0 hpair hr0 hs hd]
      refine ⟨{ r0 with update_at := now1 }, rfl, ?_, hs, hd, rfl, ?_⟩
      · exact List.mem_map.mpr ⟨r0, hr0, by simp [hs, hd]⟩
      · have hm : (db.edges.map (fun x =>
            if x.src = edge1.Src ∧ x.dst = edge1.Dst then { x with update_at := now1 }
            else x)).map (fun e => (e.src, e.dst)) = db.edges.map (fun e => (e.src, e.dst)) := by
          rw [List.map_map]
          apply List.map_congr_left
          intro x _
          simp only [Function.comp]
          split <;> rfl
        show ((db.edges.map _).map _).Nodup
        rw [hm]
        exact hpair
    · have habs : ∀ r ∈ db.edges, ¬ (r.src = edge1.Src ∧ r.dst = edge1.Dst) :=
        fun r hr h => hex ⟨r, hr, h⟩
      rw [UpsertEdge_new db gen1 now1 edge1 habs hfresh hsrc hdst]
      refine ⟨⟨gen1, edge1.Src, edge1.Dst, now1⟩, rfl, ?_, rfl, rfl, rfl, ?_⟩
      · exact List.mem_append_right _ (List.mem_singleton_self _)
      · show ((db.edges ++ [_]).map _).Nodup
        rw [List.map_append, List.nodup_append]
        refine ⟨hpair, by simp, ?_⟩
        intro a ha hb
        simp only [List.map_cons, List.map_nil, List.mem_singleton] at hb
        subst hb
        obtain ⟨r, hr, hrp⟩ := List.mem_map.mp ha
        simp only [Prod.mk.injEq] at hrp
        exact habs r hr hrp
  obtain ⟨r1, h1, hr1, hs1, hd1, hid1, hnd1⟩ := hfirst
  have hsecond := UpsertEdge_existing (postgre.UpsertEdge db none gen1 now1 edge1).1 gen2 now2
    edge2 r1 hnd1 hr1 (by rw [hS]; exact hs1) (by rw [hD]; exact hd1)
  rw [hS, hD] at hsecond
  refine ⟨h1, ?_, ?_, ?_, ?_, ?_⟩
  · rw [hsecond]
  · rw [hsecond]; exact hid1
  · rw [hsecond]
  · rw [hsecond]
    simp only [List.filter_map]
    have hcomp : ((fun r : EdgeRow => decide (r.src = edge1.Src ∧ r.dst = edge1.Dst)) ∘
        fun x : EdgeRow =>
          if x.src = edge1.Src ∧ x.dst = edge1.Dst then { x with update_at := now2 } else x) =
        fun r => decide (r.src = edge1.Src ∧ r.dst = edge1.Dst) := by
      funext x
      simp only [Function.comp]
      split <;> rfl
    have hfilter : (postgre.UpsertEdge db none gen1 now1 edge1).1.edges.filter
        (fun r => decide (r.src = edge1.Src ∧ r.dst = edge1.Dst)) = [r1] :=
      filter_of_nodup_key (fun e => (e.src, e.dst)) _ r1 _ hnd1 hr1 (by
        intro r
        simp only [decide_eq_true_eq, Prod.mk.injEq, hs1, hd1])
    rw [hcomp, hfilter]
    rfl
  · rw [hsecond]

open linkpostgre in
/-- In the small store the edge from 1 to 0 is new: the first upsert stores it under the
drawn id, the second returns that id again and the store holds the pair once. -/
theorem C17_witness :
    smallDB.wellFormed ∧
      (postgre.UpsertEdge smallDB none randomNine 40
        ⟨uuidNil, ⟨1, by decide⟩, ⟨0, by decide⟩, 0⟩).2.1.ID = randomNine ∧
      (postgre.UpsertEdge
        (postgre.UpsertEdge smallDB none randomNine 40
          ⟨uuidNil, ⟨1, by decide⟩, ⟨0, by decide⟩, 0⟩).1
        none ⟨3, by decide⟩ 50 ⟨randomNine, ⟨1, by decide⟩, ⟨0, by decide⟩, 0⟩).2.1.ID
        = (postgre.UpsertEdge smallDB none randomNine 40
          ⟨uuidNil, ⟨1, by decide⟩, ⟨0, by decide⟩, 0⟩).2.1.ID ∧
      (postgre.UpsertEdge
        (postgre.UpsertEdge smallDB none randomNine 40
          ⟨uuidNil, ⟨1, by decide⟩, ⟨0, by decide⟩, 0⟩).1
        none ⟨3, by decide⟩ 50 ⟨randomNine, ⟨1, by decide⟩, ⟨0, by decide⟩, 0⟩).1.edges
        = [⟨⟨7, by decide⟩, ⟨0, by decide⟩, ⟨1, by decide⟩, 30⟩,
           ⟨randomNine, ⟨1, by decide⟩, ⟨0, by decide⟩, 50⟩] :=
  ⟨smallDB_wellFormed, rfl,
    (C17_upsert_edge_twice_keeps_one_edge smallDB randomNine ⟨3, by decide⟩ 40 50
      ⟨uuidNil, ⟨1, by decide⟩, ⟨0, by decide⟩, 0⟩
      ⟨randomNine, ⟨1, by decide⟩, ⟨0, by decide⟩, 0⟩ smallDB_wellFormed
      ⟨⟨⟨1, by decide⟩, "http://b", 20⟩, by decide, rfl⟩
      ⟨⟨⟨0, by decide⟩, "http://a", 10⟩, by decide, rfl⟩ rfl rfl (by decide)).2.2.1,
    rfl⟩

open linkpostgre in
/-- C18: `UpsertEdge` with an unknown link.  In a store that satisfies its constraints, an
edge whose `Src` or `Dst` is not the id of a stored link is refused (with a fresh draw for
the edge id): the call returns `linkgraph.ErrUnknownEdgeLinks` and the store is unchanged.
And under any failure of the call, the result is `ErrUnknownEdgeLinks` exactly when the
database reported a `PgError` with SQLSTATE 23503; every other database error `err` comes
back as `fmt.Errorf("edge upsert: %v", err)`, which is another error, and the store is
unchanged. -/
theorem C18_upsert_edge_unknown_link (db : DB) (gen : UUID) (now : Time) (edge : Edge)
    (hwf : db.wellFormed) (hfresh : ∀ r ∈ db.edges, r.id ≠ gen)
    (hunknown : (∀ l ∈ db.links, l.id ≠ edge.Src) ∨ (∀ l ∈ db.links, l.id ≠ edge.Dst)) :
    postgre.UpsertEdge db none gen now edge = (db, edge, some .ErrUnknownEdgeLinks) ∧
    (∀ (db2 : DB) (fault : Option DBError) (gen2 : UUID) (now2 : Time) (edge2 : Edge),
      ((postgre.UpsertEdge db2 fault gen2 now2 edge2).2.2 = some .ErrUnknownEdgeLinks ↔
        ∃ msg, QueryRowx fault (edgeUpsertQuery db2 gen2 now2 edge2.Src edge2.Dst) =
          .error (.pg "23503" msg)) ∧
      ∀ err, QueryRowx fault (edgeUpsertQuery db2 gen2 now2 edge2.Src edge2.Dst) = .error err →
        (∀ msg, err ≠ .pg "23503" msg) →
        postgre.UpsertEdge db2 fault gen2 now2 edge2 =
            (db2, edge2, some (errorfV "edge upsert: " err "")) ∧
          errorfV "edge upsert: " err "" ≠ .ErrUnknownEdgeLinks) := by
  constructor
  · obtain ⟨-, -, -, -, hfk⟩ := hwf
    have hfind : db.edges.find? (fun r => decide (r.src = edge.Src ∧ r.dst = edge.Dst))
        = none := by
      rw [List.find?_eq_none]
      intro r hr
      simp only [decide_eq_true_eq, not_and]
      intro hs hd
      obtain ⟨⟨l1, hl1, he1⟩, ⟨l2, hl2, he2⟩⟩ := hfk r hr
      rcases hunknown with h | h
      · exact h l1 hl1 (he1.trans hs)
      · exact h l2 hl2 (he2.trans hd)
    have hany : db.edges.any (fun r => decide (r.id = gen)) = false := by
      rw [List.any_eq_false]
      intro r hr
      simpa using hfresh r hr
    have hlinks : ¬ (db.links.any (fun l => decide (l.id = edge.Src)) = true ∧
        db.links.any (fun l => decide (l.id = edge.Dst)) = true) := by
      rintro ⟨hs, hd⟩
      obtain ⟨l1, hl1, he1⟩ := List.any_eq_true.mp hs
      obtain ⟨l2, hl2, he2⟩ := List.any_eq_true.mp hd
      rcases hunknown with h | h
      · exact h l1 hl1 (by simpa using he1)
      · exact h l2 hl2 (by simpa using he2)
    simp only [postgre.UpsertEdge, QueryRowx, edgeUpsertQuery, hfind, hany, hlinks,
      Bool.false_eq_true, if_false, not_false_eq_true, if_true]
  · intro db2 fault gen2 now2 edge2
    constructor
    · cases hq : QueryRowx fault (edgeUpsertQuery db2 gen2 now2 edge2.Src edge2.Dst) with
      | ok v =>
        simp only [postgre.UpsertEdge, hq]
        constructor
        · intro h; cases h
        · rintro ⟨msg, h⟩; cases h
      | error err =>
        cases err with
        | pg code message =>
          by_cases hc : code = "23503"
          · subst hc
            simp only [postgre.UpsertEdge, hq, if_true, true_iff]
            exact ⟨message, rfl⟩
          · simp only [postgre.UpsertEdge, hq, hc, if_false, errorfV]
            constructor
            · intro h; cases h
            · rintro ⟨msg, h⟩
              simp only [Except.error.injEq, DBError.pg.injEq] at h
              exact absurd h.1 hc
        | noRows =>
          simp only [postgre.UpsertEdge, hq, errorfV]
          constructor
          · intro h; cases h
          · rintro ⟨msg, h⟩; cases h
        | other m =>
          simp only [postgre.UpsertEdge, hq, errorfV]
          constructor
          · intro h; cases h
          · rintro ⟨msg, h⟩; cases h
    · intro err hq hne
      refine ⟨?_, by simp [errorfV]⟩
      cases err with
      | pg code message =>
        have hc : code ≠ "23503" := fun h => hne message (by rw [h])
        simp only [postgre.UpsertEdge, hq, hc, if_false]
      | noRows => simp only [postgre.UpsertEdge, hq]
      | other m => simp only [postgre.UpsertEdge, hq]

open linkpostgre in
/-- In the small store there is no link 5: an edge from 0 to 5 is refused with
`ErrUnknownEdgeLinks`; with the connection lost the call returns another error. -/
theorem C18_witness :
    smallDB.wellFormed ∧
      postgre.UpsertEdge smallDB none randomNine 40
          ⟨uuidNil, ⟨0, by decide⟩, ⟨5, by decide⟩, 0⟩ =
        (smallDB, ⟨uuidNil, ⟨0, by decide⟩, ⟨5, by decide⟩, 0⟩, some .ErrUnknownEdgeLinks) ∧
      postgre.UpsertEdge smallDB (some (.other "connection lost")) randomNine 40
          ⟨uuidNil, ⟨0, by decide⟩, ⟨5, by decide⟩, 0⟩ =
        (smallDB, ⟨uuidNil, ⟨0, by decide⟩, ⟨5, by decide⟩, 0⟩,
          some (.other "edge upsert: connection lost")) :=
  have h := C18_upsert_edge_unknown_link smallDB randomNine 40
    ⟨uuidNil, ⟨0, by decide⟩, ⟨5, by decide⟩, 0⟩ smallDB_wellFormed (by decide)
    (Or.inr (by decide))
  ⟨smallDB_wellFormed, h.1,
    ((h.2 smallDB (some (.other "connection lost")) randomNine 40
      ⟨uuidNil, ⟨0, by decide⟩, ⟨5, by decide⟩, 0⟩).2 (.other "connection lost") rfl
      (fun msg hm => by cases hm)).1⟩

/-! ### The index store -/

/-- A function that leaves every member of a list as it is maps the list to itself. -/
theorem map_eq_self_of_forall {α : Type} (f : α → α) :
    ∀ l : List α, (∀ x ∈ l, f x = x) → l.map f = l := by
  intro l
  induction l with
  | nil => intro _; rfl
  | cons x xs ih =>
    intro h
    rw [List.map_cons, h x (List.mem_cons_self _ _),
      ih (fun y hy => h y (List.mem_cons_of_mem _ hy))]

open indexpostgre in
/-- C19: `UpdateRank` and `Find` round trip.  For a stored document with the link id `id` and
any score `s`, `UpdateRank(id, s)` succeeds, and `Find(id)` then returns the document with
`Pagerank` equal to `s` and with its `LinkID`, `URL`, `Title`, `Content` and `IndexedAt`
as before; `Find` of every other link id returns what it returned before, so no other
pagerank has changed. -/
theorem C19_update_rank_find_round_trip (db : DB) (id : UUID) (s : Float64) (d0 : DocRow)
    (hpk : (db.documents.map (·.linkID)).Nodup) (hd0 : d0 ∈ db.documents)
    (hid : d0.linkID = id) :
    (indexer.UpdateRank db none id s).2 = none ∧
      indexer.Find (indexer.UpdateRank db none id s).1 none id =
        .ok ⟨d0.linkID, d0.url, d0.title, d0.content, d0.indexed_at, s⟩ ∧
      (∀ id2, id2 ≠ id →
        indexer.Find (indexer.UpdateRank db none id s).1 none id2 = indexer.Find db none id2) ∧
      ∀ r ∈ db.documents, r.linkID ≠ id → r ∈ (indexer.UpdateRank db none id s).1.documents := by
  have hup : indexer.UpdateRank db none id s =
      ({ db with documents := db.documents.map (fun r =>
          if r.linkID = id then { r with pagerank := s } else r) }, none) := rfl
  rw [hup]
  have hcomp : ∀ id2 : UUID, ((fun r : DocRow => decide (r.linkID = id2)) ∘ fun r : DocRow =>
      if r.linkID = id then { r with pagerank := s } else r) =
      fun r => decide (r.linkID = id2) := by
    intro id2
    funext x
    simp only [Function.comp]
    split <;> rfl
  refine ⟨rfl, ?_, ?_, ?_⟩
  · have hfilter : db.documents.filter (fun r => decide (r.linkID = id)) = [d0] :=
      filter_of_nodup_key (·.linkID) _ d0 db.documents hpk hd0 (by intro r; simp [hid])
    simp only [indexer.Find, linkpostgre.QueryRowx, findDocumentQuery, List.filter_map,
      hcomp, hfilter, List.map_cons, List.map_nil, hid, if_true]
  · intro id2 hne
    have hsame : (db.documents.filter (fun r => decide (r.linkID = id2))).map (fun r : DocRow =>
        if r.linkID = id then { r with pagerank := s } else r) =
        db.documents.filter (fun r => decide (r.linkID = id2)) := by
      apply map_eq_self_of_forall
      intro x hx
      have hx2 : x.linkID = id2 := by simpa using (List.mem_filter.mp hx).2
      have hx3 : ¬ x.linkID = id := fun h => hne (hx2.symm.trans h)
      simp only [hx3, if_false]
    simp only [indexer.Find, findDocumentQuery, List.filter_map, hcomp, hsame]
  · intro r hr hne
    exact List.mem_map.mpr ⟨r, hr, by simp only [hne, if_false]⟩

open indexpostgre in
/-- The first of the two documents gets the score 0.5 (bits 0x3FE0000000000000); the second
document keeps its pagerank. -/
theorem C19_witness :
    (twoDocs.documents.map (·.linkID)).Nodup ∧
      indexer.Find (indexer.UpdateRank twoDocs none ⟨1, by decide⟩ ⟨0x3FE0000000000000⟩).1 none
          ⟨1, by decide⟩ =
        .ok ⟨⟨1, by decide⟩, "www.one.com", "a", "example", 0, ⟨0x3FE0000000000000⟩⟩ ∧
      indexer.Find (indexer.UpdateRank twoDocs none ⟨1, by decide⟩ ⟨0x3FE0000000000000⟩).1 none
          ⟨2, by decide⟩ = indexer.Find twoDocs none ⟨2, by decide⟩ :=
  have h := C19_update_rank_find_round_trip twoDocs ⟨1, by decide⟩ ⟨0x3FE0000000000000⟩
    ⟨⟨1, by decide⟩, "www.one.com", "a", "example", 0, ⟨0x3FF0000000000000⟩⟩
    (by decide) (by decide) rfl
  ⟨by decide, h.2.1, h.2.2.1 ⟨2, by decide⟩ (by decide)⟩

open indexpostgre in
/-- An index iterator over rows that all scan, on a stream that is not cut: the loop of a
client sees every row, in order, and `Error()` stays nil. -/
theorem iterator_drain_ok (fuel : Nat) : ∀ (l : List DocRow) (it : iterator),
    it.rows.pending = l.map .ok → it.rows.err = none → it.latchedErr = none →
    (it.drain fuel).1.Error = none ∧
      (l.length < fuel →
        (it.drain fuel).2 =
          l.map (fun r => ⟨r.linkID, r.url, r.title, r.content, r.indexed_at, r.pagerank⟩)) := by
  induction fuel with
  | zero =>
    intro l it _ _ hE
    exact ⟨hE, fun h => absurd h (Nat.not_lt_zero _)⟩
  | succ k ih =>
    intro l it hp herr hE
    cases l with
    | nil =>
      have hp2 : it.rows.pending = [] := hp
      have hd : it.drain (k + 1) = ({ it with latchedErr := none }, []) := by
        simp only [iterator.drain, iterator.Next, iterator.fecthDoc, hp2, herr, Option.map_none']
      rw [hd]
      exact ⟨rfl, fun _ => rfl⟩
    | cons r rest =>
      have hp2 : it.rows.pending = .ok r :: rest.map .ok := hp
      simp only [iterator.drain, iterator.Next, iterator.fecthDoc, hp2]
      obtain ⟨h1, h4⟩ := ih rest
        { it with rows := { it.rows with pending := rest.map .ok },
                  latchedDoc := some ⟨r.linkID, r.url, r.title, r.content, r.indexed_at,
                    r.pagerank⟩ } rfl herr hE
      refine ⟨h1, fun hlen => ?_⟩
      have h6 := h4 (by simpa using hlen)
      simp [iterator.Document, h6]

open indexpostgre in
/-- The rows of a search query are ordered by `searchOrder`. -/
theorem searchQuery_sorted {Q ρ : Type} [LinearOrder ρ] (ts : TextSearch Q ρ) (db : DB) (q : Q)
    (offset limit : Nat) :
    (searchQuery ts db q offset limit).Pairwise (searchOrder ts q) := by
  haveI : IsTotal DocRow (searchOrder ts q) := ⟨by
    intro a b
    rcases lt_trichotomy (ts.ts_rank (tsText a) q) (ts.ts_rank (tsText b) q) with h | h | h
    · exact Or.inl (Or.inl h)
    · rcases le_total b.pagerank.key a.pagerank.key with hk | hk
      · exact Or.inl (Or.inr ⟨h, hk⟩)
      · exact Or.inr (Or.inr ⟨h.symm, hk⟩)
    · exact Or.inr (Or.inl h)⟩
  haveI : IsTrans DocRow (searchOrder ts q) := ⟨by
    intro a b c hab hbc
    rcases hab with h1 | ⟨h1, k1⟩ <;> rcases hbc with h2 | ⟨h2, k2⟩
    · exact Or.inl (lt_trans h1 h2)
    · exact Or.inl (h2 ▸ h1)
    · exact Or.inl (h1 ▸ h2)
    · exact Or.inr ⟨h1.trans h2, le_trans k2 k1⟩⟩
  have hs : ((db.documents.filter (fun r => ts.tsMatch (tsText r) q)).insertionSort
      (searchOrder ts q)).Pairwise (searchOrder ts q) := List.sorted_insertionSort _ _
  exact (hs.sublist (List.drop_sublist _ _)).sublist (List.take_sublist _ _)

open indexpostgre in
/-- C20 (as stated, refuted): two documents match "example", the first with one occurrence
and the pagerank 1.0, the second with three occurrences and the pagerank 2.0.  `Search`
yields them in the order of their rank, which is ascending: the document with the pagerank
1.0 comes right before the one with the pagerank 2.0, for the match query and for the phrase
query. -/
theorem C20_results_not_ordered_by_pagerank :
    (∃ it, indexer.Search toySearch twoDocs none .healthy ⟨0, "example", 0⟩ = .ok it ∧
      (it.drain 11).2.map (·.Pagerank) = [⟨0x3FF0000000000000⟩, ⟨0x4000000000000000⟩]) ∧
    (∃ it, indexer.Search toySearch twoDocs none .healthy ⟨1, "example", 0⟩ = .ok it ∧
      (it.drain 11).2.map (·.Pagerank) = [⟨0x3FF0000000000000⟩, ⟨0x4000000000000000⟩]) ∧
    ¬ ((⟨0x4000000000000000⟩ : Float64).key ≤ (⟨0x3FF0000000000000⟩ : Float64).key) := by
  refine ⟨⟨_, rfl, rfl⟩, ⟨_, rfl, rfl⟩, by decide⟩

open indexpostgre in
/-- C20 (amended): among documents of equal rank the order is by PageRank.  For a non-empty
expression (match or phrase query) over a healthy connection, the iterator returned by
`Search` runs to its end without error, and any two consecutive documents `a`, `b` it
yields that have the same text-search rank for the query satisfy `a.Pagerank >= b.Pagerank`
(in the ordering of the database, `Float64.key`). -/
theorem C20_equal_rank_ordered_by_pagerank {Q ρ : Type} [LinearOrder ρ] (ts : TextSearch Q ρ)
    (db : DB) (query : Query) (hne : query.Expression ≠ "") :
    ∃ it, indexer.Search ts db none .healthy query = .ok it ∧
      ∀ fuel, batchSize < fuel →
        (it.drain fuel).1.Error = none ∧
        List.Chain'
          (fun a b =>
            ts.ts_rank a.text (if query.QueryType = 1 then ts.phraseto_tsquery query.Expression
              else ts.websearch_to_tsquery query.Expression) =
            ts.ts_rank b.text (if query.QueryType = 1 then ts.phraseto_tsquery query.Expression
              else ts.websearch_to_tsquery query.Expression) →
            b.Pagerank.key ≤ a.Pagerank.key)
          (it.drain fuel).2 := by
  have hS : indexer.Search ts db none .healthy query =
      .ok { rows := ⟨(searchQuery ts db (if query.QueryType = 1 then
                  ts.phraseto_tsquery query.Expression
                else ts.websearch_to_tsquery query.Expression) query.Offset batchSize).map .ok,
              none, none⟩,
            latchedDoc := none, latchedErr := none, expression := query.Expression,
            totalMatched := searchCountQuery ts db (if query.QueryType = 1 then
                  ts.phraseto_tsquery query.Expression
                else ts.websearch_to_tsquery query.Expression) } := by
    simp only [indexer.Search, hne, if_false, linkpostgre.QueryRowx, Queryx]
  refine ⟨_, hS, fun fuel hf => ?_⟩
  obtain ⟨h1, h2⟩ := iterator_drain_ok fuel _
    { rows := ⟨(searchQuery ts db (if query.QueryType = 1 then
                  ts.phraseto_tsquery query.Expression
                else ts.websearch_to_tsquery query.Expression) query.Offset batchSize).map .ok,
              none, none⟩,
      latchedDoc := none, latchedErr := none, expression := query.Expression,
      totalMatched := searchCountQuery ts db (if query.QueryType = 1 then
                  ts.phraseto_tsquery query.Expression
                else ts.websearch_to_tsquery query.Expression) } rfl rfl rfl
  refine ⟨h1, ?_⟩
  have hlen : (searchQuery ts db (if query.QueryType = 1 then
      ts.phraseto_tsquery query.Expression
      else ts.websearch_to_tsquery query.Expression) query.Offset batchSize).length < fuel :=
    lt_of_le_of_lt (by simp only [searchQuery]; exact List.length_take_le _ _) hf
  rw [h2 hlen, List.chain'_map]
  refine (searchQuery_sorted ts db _ query.Offset batchSize).chain'.imp ?_
  intro a b hab heq
  rcases hab with h | ⟨-, hk⟩
  · exact absurd heq (ne_of_lt h)
  · exact hk

open indexpostgre in
/-- The search for "example" over two documents of equal rank yields the pagerank 2.0 before
the pagerank 1.0. -/
theorem C20_witness :
    (⟨0, "example", 0⟩ : Query).Expression ≠ "" ∧
      ∃ it, indexer.Search toySearch tieDocs none .healthy ⟨0, "example", 0⟩ = .ok it ∧
        (it.drain 11).1.Error = none ∧
        (it.drain 11).2.map (·.Pagerank) = [⟨0x4000000000000000⟩, ⟨0x3FF0000000000000⟩] :=
  ⟨by decide,
    (C20_equal_rank_ordered_by_pagerank toySearch tieDocs ⟨0, "example", 0⟩ (by decide)).imp
      (fun it h => ⟨h.1, (h.2 11 (by decide)).1, by
        have h1 := h.1
        have h2 : ∃ it0, indexer.Search toySearch tieDocs none .healthy ⟨0, "example", 0⟩ =
            .ok it0 ∧
            (it0.drain 11).2.map (·.Pagerank) =
              [⟨0x4000000000000000⟩, ⟨0x3FF0000000000000⟩] := ⟨_, rfl, rfl⟩
        obtain ⟨it0, h3, h4⟩ := h2
        rw [h1] at h3
        cases h3
        exact h4⟩)⟩

/-! ### The front end -/

open frontend in
/-- C21: the documented front-end defaults.  After `validate`, `ResultsPerPage` is 10 when it
was `<= 0` and unchanged otherwise, `MaxSummaryLength` is 256 when it was `<= 0` and unchanged
otherwise, and nothing else changes.  The returned error does not depend on these two
fields: it is nil exactly when `ListenAddr` is not empty and neither `IndexAPI` nor
`GraphAPI` is nil. -/
theorem C21_frontend_defaults {G I : Type} (cfg : frontend.Config G I) :
    cfg.validate.1.ResultsPerPage =
        (if cfg.ResultsPerPage ≤ 0 then 10 else cfg.ResultsPerPage) ∧
      cfg.validate.1.MaxSummaryLength =
        (if cfg.MaxSummaryLength ≤ 0 then 256 else cfg.MaxSummaryLength) ∧
      cfg.validate.1.ListenAddr = cfg.ListenAddr ∧
      cfg.validate.1.IndexAPI = cfg.IndexAPI ∧
      cfg.validate.1.GraphAPI = cfg.GraphAPI ∧
      (cfg.validate.2 = none ↔
        cfg.ListenAddr ≠ "" ∧ cfg.IndexAPI ≠ none ∧ cfg.GraphAPI ≠ none) ∧
      (∀ r m : Int,
        ({ cfg with ResultsPerPage := r, MaxSummaryLength := m } : frontend.Config G I).validate.2
          = cfg.validate.2) := by
  have hfields : cfg.validate.1 =
      { cfg with
        ResultsPerPage := if cfg.ResultsPerPage ≤ 0 then 10 else cfg.ResultsPerPage
        MaxSummaryLength := if cfg.MaxSummaryLength ≤ 0 then 256 else cfg.MaxSummaryLength } := by
    unfold frontend.Config.validate
    by_cases h1 : cfg.ResultsPerPage ≤ 0 <;> by_cases h2 : cfg.MaxSummaryLength ≤ 0 <;>
      simp only [h1, h2, if_true, if_false, defaultResultsPerPage, defaultMaxSummaryLength]
  have herr : ∀ c : frontend.Config G I, c.validate.2 =
      (if c.GraphAPI.isNone then
        multierrAppend
          (if c.IndexAPI.isNone then
            multierrAppend
              (if c.ListenAddr = "" then
                multierrAppend none (some (.other "listen address has not been specified"))
              else none)
              (some (.other "index API has not been provided"))
          else
            (if c.ListenAddr = "" then
              multierrAppend none (some (.other "listen address has not been specified"))
            else none))
          (some (.other "graph API has not been provided"))
      else
        (if c.IndexAPI.isNone then
          multierrAppend
            (if c.ListenAddr = "" then
              multierrAppend none (some (.other "listen address has not been specified"))
            else none)
            (some (.other "index API has not been provided"))
        else
          (if c.ListenAddr = "" then
            multierrAppend none (some (.other "listen address has not been specified"))
          else none))) := by
    intro c
    unfold frontend.Config.validate
    by_cases h1 : c.ResultsPerPage ≤ 0 <;> by_cases h2 : c.MaxSummaryLength ≤ 0 <;>
      simp only [h1, h2, if_true, if_false]
  refine ⟨by rw [hfields], by rw [hfields], by rw [hfields], by rw [hfields], by rw [hfields],
    ?_, ?_⟩
  · rw [← Option.not_isSome_iff_eq_none, herr]
    simp only [validate_step_isSome]
    simp [Option.isNone_iff_eq_none, multierrAppend]
    tauto
  · intro r m
    rw [herr, herr]

/-! ### The graph of the calculator -/

open bspgraph in
/-- Adding vertices to a graph adds exactly their identities. -/
theorem Graph_foldl_AddVertex_mem (ids : List String) : ∀ (g : Graph) (id : String),
    (ids.foldl Graph.AddVertex g).hasVertex id = true ↔ g.hasVertex id = true ∨ id ∈ ids := by
  induction ids with
  | nil => intro g id; simp
  | cons x xs ih =>
    intro g id
    rw [List.foldl_cons, ih]
    have hadd : (g.AddVertex x).hasVertex id = true ↔ g.hasVertex id = true ∨ id = x := by
      by_cases hx : g.hasVertex x = true
      · simp only [Graph.AddVertex, hx, if_true]
        constructor
        · exact Or.inl
        · rintro (h | h)
          · exact h
          · rw [h]; exact hx
      · have hg : g.AddVertex x =
            { g with vertices := g.vertices ++ [⟨x, ⟨0⟩, [], [], false⟩] } := if_neg hx
        rw [hg]
        simp only [Graph.hasVertex, List.any_append,
          List.any_cons, List.any_nil, Bool.or_false, Bool.or_eq_true, decide_eq_true_eq]
        constructor
        · rintro (h | h)
          · exact Or.inl h
          · exact Or.inr h.symm
        · rintro (h | h)
          · exact Or.inl h
          · exact Or.inr h.symm
    rw [hadd, List.mem_cons]
    tauto

open bspgraph in
/-- C22: `Graph.AddEdge` and the unknown source.  On a graph in which `src` is not a vertex,
`AddEdge(src, dst)` fails with `ErrUnknownEdgeSource` (the error `loadEdges` tolerates) and
leaves the graph as it is; after `AddVertex(src)` the same call succeeds and records `dst`
among the edges of `src`, whether or not `dst` is a vertex. -/
theorem C22_add_edge_unknown_source (g : bspgraph.Graph) (src dst : String)
    (hsrc : g.hasVertex src = false) :
    g.AddEdge src dst = (g, some .ErrUnknownEdgeSource) ∧
      errorsIs .ErrUnknownEdgeSource .ErrUnknownEdgeSource = true ∧
      ((g.AddVertex src).AddEdge src dst).2 = none ∧
      (∃ v ∈ ((g.AddVertex src).AddEdge src dst).1.vertices, v.id = src ∧ dst ∈ v.edges) ∧
      ((g.AddVertex src).AddEdge src dst).1.Vertices = (g.AddVertex src).Vertices := by
  have hadd : g.AddVertex src = { g with vertices := g.vertices ++ [⟨src, ⟨0⟩, [], [], false⟩] } := by
    simp only [Graph.AddVertex, hsrc, Bool.false_eq_true, if_false]
  have hhas : (g.AddVertex src).hasVertex src = true := by
    rw [hadd]
    simp [Graph.hasVertex]
  refine ⟨by simp only [Graph.AddEdge, hsrc, Bool.false_eq_true, if_false], rfl, ?_, ?_, ?_⟩
  · simp only [Graph.AddEdge, hhas, if_true]
  · simp only [Graph.AddEdge, hhas, if_true]
    rw [hadd]
    refine ⟨⟨src, ⟨0⟩, [dst], [], false⟩, ?_, rfl, by simp⟩
    simp only [List.map_append, List.map_cons, List.map_nil, List.mem_append,
      List.mem_singleton]
    right
    simp
  · simp only [Graph.AddEdge, hhas, if_true, Graph.Vertices, List.map_map]
    apply List.map_congr_left
    intro v _
    simp only [Function.comp]
    split
    · split <;> rfl
    · rfl

open bspgraph in
/-- In the used graph "c" is no vertex: the edge from "c" to "z" is refused, and accepted once
"c" has been added, although "z" is still no vertex. -/
theorem C22_witness :
    usedGraph.hasVertex "c" = false ∧
      usedGraph.AddEdge "c" "z" = (usedGraph, some .ErrUnknownEdgeSource) ∧
      ((usedGraph.AddVertex "c").AddEdge "c" "z").2 = none ∧
      ((usedGraph.AddVertex "c").AddEdge "c" "z").1.hasVertex "z" = false :=
  have h := C22_add_edge_unknown_source usedGraph "c" "z" (by decide)
  ⟨by decide, h.1, h.2.2.1, by decide⟩

open bspgraph in
/-- C23: after `Reset` the graph is empty.  For every graph, `Reset` succeeds and `Vertices()`
is then empty (so are the edges, with the vertices, and the superstep counter is 0); the
vertices of the graph after the vertices `ids` of a pass have been added are exactly
`ids`. -/
theorem C23_reset_empties_the_graph (g : bspgraph.Graph) :
    g.Reset.2 = none ∧ g.Reset.1.Vertices = [] ∧ g.Reset.1.vertices = [] ∧
      g.Reset.1.superstep = 0 ∧
      (∀ (ids : List String) (id : String),
        id ∈ ((ids.foldl Graph.AddVertex g.Reset.1).Vertices.map (·.1)) ↔ id ∈ ids) ∧
      (∀ s : Stub, ((graphWorld s).Vertices (passReset (graphWorld s) g).1) = []) := by
  refine ⟨rfl, rfl, rfl, rfl, ?_, fun s => rfl⟩
  intro ids id
  have h := Graph_foldl_AddVertex_mem ids g.Reset.1 id
  have hv : ∀ g2 : Graph, id ∈ g2.Vertices.map (·.1) ↔ g2.hasVertex id = true := by
    intro g2
    simp only [Graph.Vertices, List.map_map, List.mem_map, Function.comp, Graph.hasVertex,
      List.any_eq_true, decide_eq_true_eq]
  rw [hv, h]
  have hempty : g.Reset.1.hasVertex id = false := rfl
  rw [hempty]
  simp

open indexpostgre in
/-- C26: re-indexing preserves the PageRank.  For a document stored under a link id with the
pagerank `r`, `Index` with that link id (any URL, title, content and `Pagerank` field)
succeeds, and the stored document then has the URL, title and content of the argument, the
time of the statement as `indexed_at`, and still the pagerank `r`.  For a link id that is
not stored, the document is inserted with the `Pagerank` of the argument and its `IndexedAt`
as a `TIMESTAMP`. -/
theorem C26_reindex_preserves_pagerank (db : DB) (now : Time) (doc : Document) (d0 : DocRow)
    (hpk : (db.documents.map (·.linkID)).Nodup) (hd0 : d0 ∈ db.documents)
    (hid : d0.linkID = doc.LinkID) (hnil : doc.LinkID ≠ uuidNil) :
    (indexer.Index db none now doc).2 = none ∧
      indexer.Find (indexer.Index db none now doc).1 none doc.LinkID =
        .ok ⟨doc.LinkID, doc.URL, doc.Title, doc.Content, now, d0.pagerank⟩ ∧
      ∀ (db2 : DB) (doc2 : Document), (∀ r ∈ db2.documents, r.linkID ≠ doc2.LinkID) →
        doc2.LinkID ≠ uuidNil →
        (indexer.Index db2 none now doc2).2 = none ∧
          indexer.Find (indexer.Index db2 none now doc2).1 none doc2.LinkID =
            .ok ⟨doc2.LinkID, doc2.URL, doc2.Title, doc2.Content,
              toTimestamp doc2.IndexedAt, doc2.Pagerank⟩ := by
  refine ⟨?_, ?_, ?_⟩
  · simp only [indexer.Index, hnil, if_false]
  · have hany : db.documents.any (fun r => decide (r.linkID = doc.LinkID)) = true :=
      List.any_eq_true.mpr ⟨d0, hd0, by simpa using hid⟩
    have hI : indexer.Index db none now doc =
        ({ db with documents := db.documents.map (fun r =>
            if r.linkID = doc.LinkID then
              { r with url := doc.URL, title := doc.Title, content := doc.Content,
                       indexed_at := now }
            else r) }, none) := by
      simp only [indexer.Index, hnil, if_false, insertDocumentQuery, hany, if_true]
    rw [hI]
    have hcomp : ((fun r : DocRow => decide (r.linkID = doc.LinkID)) ∘ fun r : DocRow =>
        if r.linkID = doc.LinkID then
          { r with url := doc.URL, title := doc.Title, content := doc.Content,
                   indexed_at := now }
        else r) = fun r => decide (r.linkID = doc.LinkID) := by
      funext x
      simp only [Function.comp]
      split <;> rfl
    have hfilter : db.documents.filter (fun r => decide (r.linkID = doc.LinkID)) = [d0] :=
      filter_of_nodup_key (·.linkID) _ d0 db.documents hpk hd0 (by intro r; simp [hid])
    simp only [indexer.Find, linkpostgre.QueryRowx, findDocumentQuery, List.filter_map,
      hcomp, hfilter, List.map_cons, List.map_nil, hid, if_true]
  · intro db2 doc2 habs hnil2
    have hany : db2.documents.any (fun r => decide (r.linkID = doc2.LinkID)) = false := by
      rw [List.any_eq_false]
      intro r hr
      simpa using habs r hr
    have hI : indexer.Index db2 none now doc2 =
        ({ db2 with documents := db2.documents ++
            [⟨doc2.LinkID, doc2.URL, doc2.Title, doc2.Content, toTimestamp doc2.IndexedAt,
              doc2.Pagerank⟩] }, none) := by
      simp only [indexer.Index, hnil2, if_false, insertDocumentQuery, hany,
        Bool.false_eq_true]
    rw [hI]
    have hnone : db2.documents.filter (fun r => decide (r.linkID = doc2.LinkID)) = [] := by
      rw [List.filter_eq_nil_iff]
      intro r hr
      simpa using habs r hr
    refine ⟨rfl, ?_⟩
    simp only [indexer.Find, linkpostgre.QueryRowx, findDocumentQuery, List.filter_append,
      hnone, List.nil_append, List.filter_cons, decide_True, if_true, List.filter_nil]

open indexpostgre in
/-- The first of the two documents (pagerank 1.0) is indexed again with a pagerank field of
2.0: the stored pagerank stays 1.0. -/
theorem C26_witness :
    (twoDocs.documents.map (·.linkID)).Nodup ∧
      indexer.Find
          (indexer.Index twoDocs none 77
            ⟨⟨1, by decide⟩, "www.new.com", "t", "c", 5, ⟨0x4000000000000000⟩⟩).1 none
          ⟨1, by decide⟩ =
        .ok ⟨⟨1, by decide⟩, "www.new.com", "t", "c", 77, ⟨0x3FF0000000000000⟩⟩ :=
  ⟨by decide,
    (C26_reindex_preserves_pagerank twoDocs 77
      ⟨⟨1, by decide⟩, "www.new.com", "t", "c", 5, ⟨0x4000000000000000⟩⟩
      ⟨⟨1, by decide⟩, "www.one.com", "a", "example", 0, ⟨0x3FF0000000000000⟩⟩
      (by decide) (by decide) rfl (by decide)).2.1⟩

/-- `closeCalls` of two traces one after the other. -/
theorem closeCalls_append (a b : List Event) :
    closeCalls (a ++ b) = closeCalls a + closeCalls b := by
  induction a with
  | nil => simp [closeCalls]
  | cons e rest ih =>
    have ih2 : closeCalls (rest.append b) = closeCalls rest + closeCalls b := ih
    cases e <;> simp only [List.cons_append, closeCalls] <;> omega

/-- Asking for the links is not a `Close` call. -/
theorem closeCalls_cons_Links (fromID toID : UUID) (filter : Time) (res : Option GoError)
    (rest : List Event) :
    closeCalls (.Links fromID toID filter res :: rest) = closeCalls rest := rfl

/-- Asking for the edges is not a `Close` call. -/
theorem closeCalls_cons_Edges (fromID toID : UUID) (filter : Time) (res : Option GoError)
    (rest : List Event) :
    closeCalls (.Edges fromID toID filter res :: rest) = closeCalls rest := rfl

/-- The loop of `loadLinks` never closes the iterator. -/
theorem loadLinksLoop_closeCalls {ω : Type} (W : World ω) (items : List Link) (w : ω) :
    closeCalls (loadLinksLoop W w items).trace = 0 := by
  induction items generalizing w with
  | nil => rfl
  | cons l rest ih =>
    simp only [loadLinksLoop, Res.prepend, List.singleton_append, closeCalls]
    exact ih _

/-- The loop of `loadEdges` closes the iterator once when it returns from the function (a
fatal `AddEdge` error), as its last call, and not at all when it runs to the end. -/
theorem loadEdgesLoop_closeCalls {ω : Type} (W : World ω) (closeErr : Option GoError)
    (items : List Edge) (w : ω) :
    (∀ e, (loadEdgesLoop W closeErr w items).val = some e →
      closeCalls (loadEdgesLoop W closeErr w items).trace = 1 ∧
        ∃ pre, (loadEdgesLoop W closeErr w items).trace = pre ++ [.EdgeIterClose closeErr]) ∧
      ((loadEdgesLoop W closeErr w items).val = none →
        closeCalls (loadEdgesLoop W closeErr w items).trace = 0) := by
  induction items generalizing w with
  | nil =>
    refine ⟨fun e h => ?_, fun _ => rfl⟩
    simp [loadEdgesLoop] at h
  | cons edge rest ih =>
    simp only [loadEdgesLoop]
    cases ha : (W.AddEdge w (W.uuidString edge.Src) (W.uuidString edge.Dst)).2 with
    | none =>
      simp only [Res.prepend, List.singleton_append, closeCalls]
      refine ⟨fun e h => ⟨((ih _).1 e h).1, ?_⟩, (ih _).2⟩
      obtain ⟨pre, hpre⟩ := ((ih _).1 e h).2
      exact ⟨_ :: pre, by rw [hpre]; rfl⟩
    | some err =>
      by_cases hf : errorsIs err .ErrUnknownEdgeSource = true
      · simp only [hf, Bool.not_true, Bool.false_eq_true, if_false, Res.prepend,
          List.singleton_append, closeCalls]
        refine ⟨fun e h => ⟨((ih _).1 e h).1, ?_⟩, (ih _).2⟩
        obtain ⟨pre, hpre⟩ := ((ih _).1 e h).2
        exact ⟨_ :: pre, by rw [hpre]; rfl⟩
      · have hf2 : errorsIs err .ErrUnknownEdgeSource = false := by
          cases h : errorsIs err .ErrUnknownEdgeSource
          · rfl
          · exact absurd h hf
        simp only [hf2, Bool.not_false, if_true, Res.prepend, List.singleton_append,
          closeCalls]
        refine ⟨fun e _ => ⟨trivial, ⟨[_], rfl⟩⟩, fun h => ?_⟩
        simp at h

/-- C27: iterators are closed exactly once.  When `GraphAPI.Links` returned the iterator
`linkIt`, `loadLinks` calls `Close` exactly once, as its last call, whether the iterator
reports an error or not, and returns the error of the iterator when there is one (the result
of `Close` otherwise).  When `GraphAPI.Edges` returned the iterator `edgeIt`, `loadEdges`
calls `Close` exactly once, as its last call, on every path: a fatal `AddEdge` error (which is
what it returns then), an iterator error (returned in preference to the result of `Close`),
and normal exhaustion (the result of `Close` is returned). -/
theorem C27_iterators_closed_exactly_once {ω : Type} (W : World ω) (w w2 : ω)
    (fromID toID : UUID) (filter : Time) (linkIt : LinkIterator) (edgeIt : EdgeIterator)
    (hL : (W.Links w fromID toID filter).2 = .inr linkIt)
    (hE : (W.Edges w2 fromID toID filter).2 = .inr edgeIt) :
    (closeCalls (Service.loadLinks W w fromID toID filter).trace = 1 ∧
      (∃ pre, (Service.loadLinks W w fromID toID filter).trace =
        pre ++ [.LinkIterClose linkIt.closeErr]) ∧
      (∀ e, linkIt.err = some e →
        (Service.loadLinks W w fromID toID filter).val = some e) ∧
      (linkIt.err = none →
        (Service.loadLinks W w fromID toID filter).val = linkIt.closeErr)) ∧
    (closeCalls (Service.loadEdges W w2 fromID toID filter).trace = 1 ∧
      (∃ pre, (Service.loadEdges W w2 fromID toID filter).trace =
        pre ++ [.EdgeIterClose edgeIt.closeErr]) ∧
      (∀ e, (loadEdgesLoop W edgeIt.closeErr (W.Edges w2 fromID toID filter).1
          edgeIt.items).val = some e →
        (Service.loadEdges W w2 fromID toID filter).val = some e) ∧
      ((loadEdgesLoop W edgeIt.closeErr (W.Edges w2 fromID toID filter).1
          edgeIt.items).val = none →
        (∀ e, edgeIt.err = some e →
          (Service.loadEdges W w2 fromID toID filter).val = some e) ∧
        (edgeIt.err = none →
          (Service.loadEdges W w2 fromID toID filter).val = edgeIt.closeErr))) := by
  have hLR : Service.loadLinks W w fromID toID filter =
      ⟨(loadLinksLoop W (W.Links w fromID toID filter).1 linkIt.items).world,
        .Links fromID toID filter none ::
          ((loadLinksLoop W (W.Links w fromID toID filter).1 linkIt.items).trace ++
            [.LinkIterClose linkIt.closeErr]),
        match linkIt.err with
        | some err => some err
        | none => linkIt.closeErr⟩ := by
    simp only [Service.loadLinks, hL]
    cases linkIt.err <;> rfl
  have h0 := loadLinksLoop_closeCalls W linkIt.items (W.Links w fromID toID filter).1
  have hloop := loadEdgesLoop_closeCalls W edgeIt.closeErr edgeIt.items
    (W.Edges w2 fromID toID filter).1
  refine ⟨⟨?_, ?_, ?_, ?_⟩, ?_⟩
  · rw [hLR]
    show closeCalls (_ :: (_ ++ [Event.LinkIterClose linkIt.closeErr])) = 1
    rw [closeCalls_cons_Links, closeCalls_append, h0]
    rfl
  · rw [hLR]
    exact ⟨_ :: _, rfl⟩
  · intro e he
    rw [hLR, he]
  · intro he
    rw [hLR, he]
  · cases hv : (loadEdgesLoop W edgeIt.closeErr (W.Edges w2 fromID toID filter).1
        edgeIt.items).val with
    | some err =>
      obtain ⟨hc, pre, hpre⟩ := hloop.1 err hv
      have hER : Service.loadEdges W w2 fromID toID filter =
          ⟨(loadEdgesLoop W edgeIt.closeErr (W.Edges w2 fromID toID filter).1
              edgeIt.items).world,
            .Edges fromID toID filter none ::
              ((loadEdgesLoop W edgeIt.closeErr (W.Edges w2 fromID toID filter).1
                edgeIt.items).trace ++ []), some err⟩ := by
        simp only [Service.loadEdges, hE, hv]
        rfl
      refine ⟨?_, ?_, ?_, ?_⟩
      · rw [hER]
        show closeCalls (_ :: (_ ++ [])) = 1
        rw [closeCalls_cons_Edges, List.append_nil, hc]
      · rw [hER, List.append_nil, hpre]
        exact ⟨_ :: pre, rfl⟩
      · intro e he
        rw [hER]
        exact he
      · intro h
        exact absurd h (by simp)
    | none =>
      have hc := hloop.2 hv
      have hER : Service.loadEdges W w2 fromID toID filter =
          ⟨(loadEdgesLoop W edgeIt.closeErr (W.Edges w2 fromID toID filter).1
              edgeIt.items).world,
            .Edges fromID toID filter none ::
              ((loadEdgesLoop W edgeIt.closeErr (W.Edges w2 fromID toID filter).1
                edgeIt.items).trace ++ [.EdgeIterClose edgeIt.closeErr]),
            match edgeIt.err with
            | some err => some err
            | none => edgeIt.closeErr⟩ := by
        simp only [Service.loadEdges, hE, hv]
        cases edgeIt.err <;> rfl
      refine ⟨?_, ?_, ?_, ?_⟩
      · rw [hER]
        show closeCalls (_ :: (_ ++ [Event.EdgeIterClose edgeIt.closeErr])) = 1
        rw [closeCalls_cons_Edges, closeCalls_append, hc]
        rfl
      · rw [hER]
        exact ⟨_ :: _, rfl⟩
      · intro e he
        exact absurd he (by simp)
      · intro _
        refine ⟨?_, ?_⟩
        · intro e he
          rw [hER, he]
        · intro he
          rw [hER, he]

/-- Both iterators report "stream cut" after their items and fail to close: each is closed
once and "stream cut" is what `loadLinks` and `loadEdges` return. -/
theorem C27_witness :
    closeCalls (Service.loadLinks
        (stubWorld { goodStub with links := .inr brokenLinks, edges := .inr brokenEdges })
        [] uuidNil maxUUID 1000).trace = 1 ∧
      (Service.loadLinks
        (stubWorld { goodStub with links := .inr brokenLinks, edges := .inr brokenEdges })
        [] uuidNil maxUUID 1000).val = some (.other "stream cut") ∧
      closeCalls (Service.loadEdges
        (stubWorld { goodStub with links := .inr brokenLinks, edges := .inr brokenEdges })
        [] uuidNil maxUUID 1000).trace = 1 ∧
      (Service.loadEdges
        (stubWorld { goodStub with links := .inr brokenLinks, edges := .inr brokenEdges })
        [] uuidNil maxUUID 1000).val = some (.other "stream cut") :=
  have h := C27_iterators_closed_exactly_once
    (stubWorld { goodStub with links := .inr brokenLinks, edges := .inr brokenEdges })
    [] [] uuidNil maxUUID 1000 brokenLinks brokenEdges rfl rfl
  ⟨h.1.1, h.1.2.2.1 _ rfl, h.2.1, (h.2.2.2.2 (by decide)).1 _ rfl⟩

/-- C28: vertex identity round trip into persistence.  `loadLinks` gives the link `id` the
vertex identity `id.String()`.  Where `uuid.Parse` reads that string back as `id`,
`persistScore(id.String(), s)` calls `IndexAPI.UpdateRank` exactly once, with `(id, s)`, makes
no other call, and returns the result of that call unchanged.  For every `vertexID` that
`uuid.Parse` rejects, `persistScore` returns the non-nil error of `uuid.Parse` and calls
nothing, `UpdateRank` included. -/
theorem C28_persist_round_trip {ω : Type} (W : World ω) (w : ω) (id : UUID) (s : Float64)
    (hRT : W.uuidParse (W.uuidString id) = .inr id) :
    (∀ (l : Link) (w0 : ω), l.ID = id →
      (loadLinksLoop W w0 [l]).trace = [.AddVertex (W.uuidString id)]) ∧
      (Service.persistScore W w (W.uuidString id) s).trace =
        [.UpdateRank id s (W.UpdateRank w id s).2] ∧
      updateRankCalls (Service.persistScore W w (W.uuidString id) s).trace = [(id, s)] ∧
      (Service.persistScore W w (W.uuidString id) s).val = (W.UpdateRank w id s).2 ∧
      (Service.persistScore W w (W.uuidString id) s).world = (W.UpdateRank w id s).1 ∧
      ∀ (vertexID : String) (e : GoError), W.uuidParse vertexID = .inl e →
        (Service.persistScore W w vertexID s).val = some e ∧
          (Service.persistScore W w vertexID s).trace = [] ∧
          updateRankCalls (Service.persistScore W w vertexID s).trace = [] ∧
          (Service.persistScore W w vertexID s).world = w := by
  refine ⟨?_, ?_, ?_, ?_, ?_, ?_⟩
  · intro l w0 hl
    rw [← hl]
    rfl
  · simp only [Service.persistScore, hRT]
  · simp only [Service.persistScore, hRT, updateRankCalls]
  · simp only [Service.persistScore, hRT]
  · simp only [Service.persistScore, hRT]
  · intro vertexID e he
    simp only [Service.persistScore, he, updateRankCalls, and_self]

/-- The link 1 has the vertex identity "b"; persisting the score of "b" is one `UpdateRank`
call for the link 1, and the identity "not-a-uuid" is refused without any call. -/
theorem C28_witness :
    stubParse (stubString ⟨1, by decide⟩) = .inr ⟨1, by decide⟩ ∧
      updateRankCalls
          (Service.persistScore (stubWorld goodStub) [] "b" ⟨0x3FF0000000000000⟩).trace =
        [(⟨1, by decide⟩, ⟨0x3FF0000000000000⟩)] ∧
      (Service.persistScore (stubWorld goodStub) [] "not-a-uuid"
          ⟨0x3FF0000000000000⟩).trace = [] :=
  have h := C28_persist_round_trip (stubWorld goodStub) [] ⟨1, by decide⟩
    ⟨0x3FF0000000000000⟩ (by decide)
  ⟨by decide, h.2.2.1, (h.2.2.2.2.2 "not-a-uuid" (.other "invalid UUID") (by decide)).2.1⟩

open frontend in
/-- C24: the pagination links do not preserve a phrase query.  The search terms `"go lang"`
(with the quotes) at offset 10 are sent to the index as a phrase query with the expression
`"go lang"`, and the links of the page carry `q=go lang`, without the quotes: they are the
links that the page of the match query `go lang` has.  The terms `go lang` of the link are
sent to the index as a match query with the expression `go lang`. -/
theorem C24_links_drop_the_phrase_quotes :
    (runQueryTerms "\"go lang\"" 10).1 = ⟨QueryTypePhrase, "\"go lang\"", 10⟩ ∧
      (∃ docs, defaultAPI.runQuery (pageIndex 10 25) plainSummary "\"go lang\"" 10 =
        .ok (docs, ⟨11, 20, 25, "/search?q=go lang", "/search?q=go lang&offset=20"⟩)) ∧
      (∃ docs, defaultAPI.runQuery (pageIndex 10 25) plainSummary "go lang" 10 =
        .ok (docs, ⟨11, 20, 25, "/search?q=go lang", "/search?q=go lang&offset=20"⟩)) ∧
      (runQueryTerms "go lang" 20).1 = ⟨QueryTypeMatch, "go lang", 20⟩ ∧
      QueryTypePhrase ≠ QueryTypeMatch := by
  refine ⟨by decide, ⟨_, rfl⟩, ⟨_, rfl⟩, by decide, by decide⟩

open frontend in
/-- C25, counterexample: with the offset `2^63 - 1` (a `uint64` the handler accepts), no
document on the page and 5 matches in all, `From` is `-2^63` and not `o + 1`.  And where an
index returns no document at offset 0 out of 5 matches, the next-page link is there and its
offset is 0, the offset of the page itself. -/
theorem C25_counterexample :
    defaultAPI.runQuery (pageIndex 0 5) plainSummary "x" 9223372036854775807 =
        .ok ([], ⟨-9223372036854775808, 9223372036854775807, 5,
          "/search?q=x&offset=9223372036854775797", ""⟩) ∧
      defaultAPI.runQuery (pageIndex 0 5) plainSummary "x" 0 =
        .ok ([], ⟨1, 0, 5, "", "/search?q=x&offset=0"⟩) := by
  exact ⟨rfl, rfl⟩

/-- An `int` in range is its own 64-bit value. -/
theorem wrapInt_of_lt (x : Int) (h0 : 0 ≤ x) (h : x < 2 ^ 63) : frontend.wrapInt x = x := by
  unfold frontend.wrapInt
  omega

/-- A `uint64` in range is its own 64-bit value. -/
theorem wrapUint64_of_lt (x : Nat) (h : x < 2 ^ 64) : frontend.wrapUint64 x = x := by
  unfold frontend.wrapUint64
  omega

/-- The loop of `runQuery` collects at most as many documents as it may count. -/
theorem runQueryLoop_length_le (summary : String → String) (left : Nat)
    (it : indexpostgre.iterator) :
    (frontend.runQueryLoop summary left it).2.length ≤ left := by
  induction left generalizing it with
  | zero => simp [frontend.runQueryLoop]
  | succ n ih =>
    rw [frontend.runQueryLoop]
    rcases hN : it.Next with ⟨it1, b⟩
    cases b with
    | false => simp
    | true =>
      have h := ih it1
      cases hd : it1.Document with
      | none =>
        simp only [hd, List.nil_append]
        omega
      | some doc =>
        simp only [hd, List.singleton_append, List.length_cons]
        omega

/-- A next-page link is not the empty string. -/
theorem nextLink_ne_empty (terms num : String) :
    frontend.searchEndpoint ++ "?q=" ++ terms ++ "&offset=" ++ num ≠ "" := by
  intro h
  have hl := congrArg String.length h
  simp only [String.length_append, frontend.searchEndpoint] at hl
  have h7 : ("/search" : String).length = 7 := by decide
  have h0 : ("" : String).length = 0 := by decide
  rw [h7, h0] at hl
  omega

open frontend in
/-- C25, amended: the next-page link.  Let `Search` return an iterator for the query of
`runQuery(q, o)`, let the loop over it end without an iterator error with the `k` documents
`r.2` and the total count `T`, and let `o + 1`, `o + k` and `T` be below `2^63` (they are
converted to `int`).  Then `runQuery` returns these `k` documents, at most `ResultsPerPage`
of them, with `From = o + 1`, `To = o + k` and `Total = T`; `NextLink` is non-empty if and
only if `o + k < T`, and is then the search endpoint with the search terms of the function
(the trimmed ones for a phrase query) and the offset `o + k`, which is greater than `o`
exactly when the page has a document. -/
theorem C25_next_page_link {G I : Type} (a : API G I)
    (Search : indexpostgre.Query → Except GoError indexpostgre.iterator)
    (summarize : String → Int → String → String) (q : String) (o : Nat)
    (it : indexpostgre.iterator) (r : indexpostgre.iterator × List matchedDoc)
    (hS : Search (runQueryTerms q o).1 = .ok it)
    (hr : runQueryLoop (summarize (runQueryTerms q o).2 a.cfg.MaxSummaryLength)
      a.cfg.ResultsPerPage.toNat it = r)
    (hE : r.1.Error = none)
    (ho : o + 1 < 2 ^ 63) (hk : o + r.2.length < 2 ^ 63) (hT : r.1.TotalCount < 2 ^ 63) :
    ∃ p, a.runQuery Search summarize q o = .ok (r.2, p) ∧
      r.2.length ≤ a.cfg.ResultsPerPage.toNat ∧
      p.From = (o : Int) + 1 ∧ p.To = (o : Int) + r.2.length ∧
      p.Total = r.1.TotalCount ∧
      (p.NextLink ≠ "" ↔ o + r.2.length < r.1.TotalCount) ∧
      (o + r.2.length < r.1.TotalCount →
        p.NextLink = searchEndpoint ++ "?q=" ++ (runQueryTerms q o).2 ++ "&offset=" ++
          formatInt ((o : Int) + r.2.length)) ∧
      (o < o + r.2.length ↔ 0 < r.2.length) := by
  have hlen : r.2.length ≤ a.cfg.ResultsPerPage.toNat := by
    rw [← hr]
    exact runQueryLoop_length_le _ _ _
  have hw1 : wrapInt ((wrapUint64 (o + 1) : Nat) : Int) = (o : Int) + 1 := by
    rw [wrapUint64_of_lt (o + 1) (by omega), wrapInt_of_lt _ (by omega) (by omega)]
    omega
  have hw2 : wrapInt (o : Int) = (o : Int) := wrapInt_of_lt _ (by omega) (by omega)
  have hw3 : wrapInt ((o : Int) + (r.2.length : Int)) = (o : Int) + r.2.length :=
    wrapInt_of_lt _ (by omega) (by omega)
  have hw4 : wrapInt (r.1.TotalCount : Int) = (r.1.TotalCount : Int) :=
    wrapInt_of_lt _ (by omega) (by omega)
  have hR : a.runQuery Search summarize q o = .ok (r.2,
      { From := (o : Int) + 1
        To := (o : Int) + r.2.length
        Total := r.1.TotalCount
        PrevLink :=
          if o > 0 then
            if wrapInt ((o : Int) - a.cfg.ResultsPerPage) > 0 then
              searchEndpoint ++ "?q=" ++ (runQueryTerms q o).2 ++ "&offset=" ++
                formatInt (wrapInt ((o : Int) - a.cfg.ResultsPerPage))
            else searchEndpoint ++ "?q=" ++ (runQueryTerms q o).2
          else ""
        NextLink :=
          if (o : Int) + r.2.length < r.1.TotalCount then
            searchEndpoint ++ "?q=" ++ (runQueryTerms q o).2 ++ "&offset=" ++
              formatInt ((o : Int) + r.2.length)
          else "" }) := by
    simp only [API.runQuery, hS, hr, hE, hw1, hw2, hw3, hw4]
    by_cases hpos : o > 0 <;>
      by_cases hlt : (o : Int) + (r.2.length : Int) < (r.1.TotalCount : Int) <;>
      simp only [hpos, hlt, if_true, if_false]
  refine ⟨_, hR, hlen, rfl, rfl, rfl, ?_, ?_, by omega⟩
  · by_cases hlt : o + r.2.length < r.1.TotalCount
    · have hlt2 : (o : Int) + (r.2.length : Int) < (r.1.TotalCount : Int) := by omega
      simp only [hlt2, if_true, hlt, iff_true]
      exact nextLink_ne_empty _ _
    · have hlt2 : ¬ (o : Int) + (r.2.length : Int) < (r.1.TotalCount : Int) := by omega
      simp only [hlt2, if_false, hlt, iff_false, ne_eq, not_true_eq_false, not_false_eq_true]
  · intro hlt
    have hlt2 : (o : Int) + (r.2.length : Int) < (r.1.TotalCount : Int) := by omega
    simp only [hlt2, if_true]

open frontend in
/-- The first page of 25 matches, 10 documents on it: from 1 to 10, and the next-page link
has the offset 10. -/
theorem C25_witness :
    ∃ p docs, defaultAPI.runQuery (pageIndex 10 25) plainSummary "x" 0 = .ok (docs, p) ∧
      docs.length = 10 ∧ p.From = 1 ∧ p.To = 10 ∧ p.Total = 25 ∧
      p.NextLink = "/search?q=x&offset=10" :=
  (C25_next_page_link defaultAPI (pageIndex 10 25) plainSummary "x" 0
      { rows := ⟨(List.replicate 10 someDoc).map .ok, none, none⟩, latchedDoc := none,
        latchedErr := none, expression := "x", totalMatched := 25 }
      _ rfl rfl rfl (by decide) (by decide) (by decide)).elim
    fun p hp => ⟨p, _, hp.1, rfl, hp.2.2.1.trans rfl, hp.2.2.2.1.trans rfl,
      hp.2.2.2.2.1.trans rfl, (hp.2.2.2.2.2.2.1 (by decide)).trans rfl⟩

end PageRank
